import Mathlib

/-!
A shallow embedding of `src/widget.ts` (the widget tree consistency engine:
registry, counters, DOM mutation guard, lifecycle notification passes,
constraint invalidation, focus restorer) together with proofs about the
claims of the specification.

Modelling conventions:
* DOM elements are identified by natural numbers.  A widget is identified by
  the id of its root element (in the source, `widgetMap` associates each
  widget's `element` with the widget object, one-to-one, so the element id
  doubles as the widget id).
* `parentElement` and `parentElementOrShadowHost` are both modelled by the
  single partial map `State.domParent` (the only place they differ is across
  a shadow boundary, and no code path in `widget.ts` reads `parentElement`
  of a node that sits directly under a shadow root).
* JavaScript numbers that take part in arithmetic (`widgetCounterMap` values,
  `notificationDepth`, `invalidationsSuspended`) are modelled as `Int`, so
  that under- and overdecrements behave as in the source.
* Unbounded loops and recursion over possibly-cyclic object graphs take an
  explicit fuel argument; running out of fuel yields `Err.outOfFuel`, the
  model's stand-in for a hang or stack overflow (a call that never completes
  normally).  Exceptions keep the state mutated so far, as in JavaScript, so
  a result is a pair `State × Option Err`.
* Lifecycle hooks (`wasShown`, `willHide`, `onResize`, `onLayout`,
  `onDetach`, `childWasDetached`) are the no-op base-class implementations;
  the model additionally records each invocation in a ghost `eventTrace`,
  together with a ghost mark for the `isShowingInternal` assignment of the
  will-show pass and for each executed invalidation pass, so that ordering
  and call-count claims can be stated.
-/

set_option autoImplicit false

namespace WidgetSpec

/-- Modelled from the spec: the opaque geometry value type `Size` from
`Geometry.js` (an external collaborator, not part of `src/`): a pair of
numeric width and height. -/
structure Size where
  width : Int
  height : Int
deriving DecidableEq

/-- Modelled from the spec: the opaque geometry value type `Constraints` from
`Geometry.js`: a minimum and a preferred `Size`; an absent minimum defaults
to zero and an absent preferred size defaults to the minimum. -/
structure Constraints where
  minimum : Size
  preferred : Size
deriving DecidableEq

/-- Modelled from the spec: `new Constraints()` - both sizes zero. -/
def Constraints.zero : Constraints :=
  ⟨⟨0, 0⟩, ⟨0, 0⟩⟩

/-- Modelled from the spec: `new Constraints(new Size(w, h))` - preferred
defaults to the minimum. -/
def Constraints.ofMinimum (w h : Int) : Constraints :=
  ⟨⟨w, h⟩, ⟨w, h⟩⟩

/-- Modelled from the spec: componentwise maximum of the width components,
height components taken from the receiver (used by `VBox`). -/
def Constraints.widthToMax (a b : Constraints) : Constraints :=
  ⟨⟨max a.minimum.width b.minimum.width, a.minimum.height⟩,
   ⟨max a.preferred.width b.preferred.width, a.preferred.height⟩⟩

/-- Modelled from the spec: sum of the height components, width components
taken from the receiver (used by `VBox`). -/
def Constraints.addHeight (a b : Constraints) : Constraints :=
  ⟨⟨a.minimum.width, a.minimum.height + b.minimum.height⟩,
   ⟨a.preferred.width, a.preferred.height + b.preferred.height⟩⟩

/-- Modelled from the spec: componentwise maximum of the height components
(used by `HBox`). -/
def Constraints.heightToMax (a b : Constraints) : Constraints :=
  ⟨⟨a.minimum.width, max a.minimum.height b.minimum.height⟩,
   ⟨a.preferred.width, max a.preferred.height b.preferred.height⟩⟩

/-- Modelled from the spec: sum of the width components (used by `HBox`). -/
def Constraints.addWidth (a b : Constraints) : Constraints :=
  ⟨⟨a.minimum.width + b.minimum.width, a.minimum.height⟩,
   ⟨a.preferred.width + b.preferred.width, a.preferred.height⟩⟩

/-- Modelled from the spec: `Constraints.isEqual(other: Constraints|null)`,
false on `null`, componentwise equality otherwise (the source calls it as
`actual.isEqual(cached || null)`). -/
def Constraints.isEqualOpt (a : Constraints) (b : Option Constraints) : Bool :=
  match b with
  | none => false
  | some c => decide (a = c)

/-- The concrete widget classes of `widget.ts` that differ in
`calculateConstraints`: plain `Widget`, `VBox` and `HBox`. -/
inductive WidgetKind where
  | base
  | vbox
  | hbox
deriving DecidableEq

/-- Failures.  `jsError msg` is a `throw new Error(msg)` from `widget.ts`
(all asserts and guard violations there use `new Error`);
`hierarchyRequest` and `notFound` are the browser's own exceptions from the
original DOM primitives; `outOfFuel` is the model's stand-in for a
non-terminating walk or unbounded recursion (hang / stack overflow). -/
inductive Err where
  | jsError (msg : String)
  | hierarchyRequest
  | notFound
  | outOfFuel
deriving DecidableEq

/-- Ghost trace events: one per lifecycle-hook invocation, plus a mark for
the will-show pass's `isShowingInternal := true` assignment and a mark for
each invalidation pass that actually executes (passes the suspension
guard). -/
inductive Event where
  | willShowMark (w : Nat)
  | wasShown (w : Nat)
  | willHide (w : Nat)
  | onResize (w : Nat)
  | onLayout (w : Nat)
  | onDetach (w : Nat)
  | childWasDetached (p c : Nat)
  | invalidationPass (w : Nat)
deriving DecidableEq

/-- The global state: the DOM forest over element ids, the two weak maps
(`widgetMap` as the predicate `isWidgetElem`, `widgetCounterMap` as the total
function `widgetCounter` with default 0), the per-widget fields of the
`Widget` class keyed by the widget's element id, the scroll position store,
and the ghost event trace. -/
@[ext] structure State where
  elems : List Nat
  isWidgetElem : Nat → Bool
  widgetKind : Nat → WidgetKind
  domParent : Nat → Option Nat
  widgetCounter : Nat → Int
  hiddenClass : Nat → Bool
  visibleInternal : Nat → Bool
  isRoot : Nat → Bool
  isShowingInternal : Nat → Bool
  childrenInternal : Nat → List Nat
  hideOnDetach : Nat → Bool
  notificationDepth : Nat → Int
  invalidationsSuspended : Nat → Int
  invalidationsRequested : Nat → Bool
  parentWidgetInternal : Nat → Option Nat
  defaultFocusedChild : Nat → Option Nat
  cachedConstraints : Nat → Option Constraints
  constraintsInternal : Nat → Option Constraints
  externallyManaged : Nat → Bool
  storedScrollPositions : Nat → Option (Int × Int)
  scrollOffsets : Nat → Int × Int
  eventTrace : List Event

/-- Pointwise update of a function map. -/
def fupd {α : Type} (f : Nat → α) (k : Nat) (v : α) : Nat → α :=
  fun x => if x = k then v else f x

@[simp] theorem fupd_same {α : Type} (f : Nat → α) (k : Nat) (v : α) :
    fupd f k v k = v := by
  simp [fupd]

theorem fupd_ne {α : Type} (f : Nat → α) (k : Nat) (v : α) {x : Nat}
    (h : x ≠ k) : fupd f k v x = f x := by
  simp [fupd, h]

@[simp] theorem fupd_apply {α : Type} (f : Nat → α) (k : Nat) (v : α) (x : Nat) :
    fupd f k v x = if x = k then v else f x := rfl

/-- Result of a statement: the state reached, and the exception that escaped
(if any).  JavaScript exceptions do not roll state back. -/
def Res : Type := State × Option Err

def ok (s : State) : Res := (s, none)

def fail (s : State) (e : Err) : Res := (s, some e)

/-- Sequencing: run the continuation only if no exception escaped. -/
def Res.bind (r : Res) (f : State → Res) : Res :=
  match r with
  | (s, some e) => (s, some e)
  | (s, none) => f s

@[simp] theorem Res.bind_ok (s : State) (f : State → Res) :
    Res.bind (ok s) f = f s := rfl

@[simp] theorem Res.bind_fail (s : State) (e : Err) (f : State → Res) :
    Res.bind (fail s e) f = fail s e := rfl

@[simp] theorem Res.bind_none (s : State) (f : State → Res) :
    Res.bind (s, none) f = f s := rfl

@[simp] theorem Res.bind_some (s : State) (e : Err) (f : State → Res) :
    Res.bind (s, some e) f = (s, some e) := rfl

/-- Append a ghost event. -/
def emit (e : Event) (s : State) : State :=
  {s with eventTrace := s.eventTrace ++ [e]}

/-- The per-attachment count used by the counter maintenance
(`widget.ts:29` / `widget.ts:36`):
`(widgetCounterMap.get(childElement) || 0) + (widgetMap.get(childElement) ? 1 : 0)`. -/
def widgetCountOf (s : State) (childElement : Nat) : Int :=
  s.widgetCounter childElement + (if s.isWidgetElem childElement then 1 else 0)

/-- The ancestor walk of `incrementWidgetCounter` (`widget.ts:30-32`):
`for (let el = parentElement; el; el = el.parentElementOrShadowHost())`,
adding `count` to each element's counter. -/
def incrementLoop (count : Int) : Nat → Option Nat → State → Res
  | _, none, s => ok s
  | 0, some _, s => fail s .outOfFuel
  | fuel+1, some el, s =>
      let s1 := {s with widgetCounter := fupd s.widgetCounter el (s.widgetCounter el + count)}
      incrementLoop count fuel (s1.domParent el) s1

/-- `incrementWidgetCounter` (`widget.ts:28-33`). -/
def incrementWidgetCounter (fuel : Nat) (parentElement childElement : Nat) (s : State) : Res :=
  incrementLoop (widgetCountOf s childElement) fuel (some parentElement) s

/-- The ancestor walk of `decrementWidgetCounter` (`widget.ts:37-42`): each
element whose counter is truthy (nonzero) has `count` subtracted. -/
def decrementLoop (count : Int) : Nat → Option Nat → State → Res
  | _, none, s => ok s
  | 0, some _, s => fail s .outOfFuel
  | fuel+1, some el, s =>
      let s1 := if s.widgetCounter el ≠ 0 then
          {s with widgetCounter := fupd s.widgetCounter el (s.widgetCounter el - count)}
        else s
      decrementLoop count fuel (s1.domParent el) s1

/-- `decrementWidgetCounter` (`widget.ts:35-43`). -/
def decrementWidgetCounter (fuel : Nat) (parentElement childElement : Nat) (s : State) : Res :=
  decrementLoop (widgetCountOf s childElement) fuel (some parentElement) s

/-- Modelled from the spec (browser collaborator): is `target` equal to `e`
or one of `e`'s ancestors?  Used for the `HierarchyRequestError` check of
the built-in insertion primitives. -/
def inclusiveAncestorB : Nat → State → Nat → Nat → Option Bool
  | 0, _, _, _ => none
  | fuel+1, s, target, e =>
      if e = target then some true
      else match s.domParent e with
        | none => some false
        | some p => inclusiveAncestorB fuel s target p

/-- Modelled from the spec (browser collaborator): the original (unguarded)
`Element.prototype.appendChild` saved at `widget.ts:14`; throws
`HierarchyRequestError` if `node` is an inclusive ancestor of the target,
otherwise (re)parents `node` under `el`. -/
def originalAppendChild (fuel : Nat) (el node : Nat) (s : State) : Res :=
  match inclusiveAncestorB fuel s node el with
  | none => fail s .outOfFuel
  | some true => fail s .hierarchyRequest
  | some false => ok {s with domParent := fupd s.domParent node (some el)}

/-- Modelled from the spec (browser collaborator): the original
`Element.prototype.insertBefore` saved at `widget.ts:15`.  Sibling order is
not tracked by the model, so this coincides with `originalAppendChild`. -/
def originalInsertBefore (fuel : Nat) (el node : Nat) (_refNode : Option Nat) (s : State) : Res :=
  originalAppendChild fuel el node s

/-- Modelled from the spec (browser collaborator): the original
`Element.prototype.removeChild` saved at `widget.ts:16`; throws
`NotFoundError` if `child` is not a child of `el`. -/
def originalRemoveChild (el child : Nat) (s : State) : Res :=
  if s.domParent child = some el then
    ok {s with domParent := fupd s.domParent child none}
  else fail s .notFound

/-- Modelled from the spec (browser collaborator): the original
`Element.prototype.removeChildren` saved at `widget.ts:17`: detaches every
current child of `el`. -/
def originalRemoveChildren (el : Nat) (s : State) : Res :=
  ok {s with domParent := fun e => if s.domParent e = some el then none else s.domParent e}

/-- The overriding `Element.prototype.appendChild` (`widget.ts:671-676`):
throws if the node is a registered widget element whose DOM parent is not
already the target. -/
def appendChild (fuel : Nat) (el node : Nat) (s : State) : Res :=
  if s.isWidgetElem node = true ∧ s.domParent node ≠ some el then
    fail s (.jsError "Attempt to add widget via regular DOM operation.")
  else originalAppendChild fuel el node s

/-- The overriding `Element.prototype.insertBefore` (`widget.ts:678-683`). -/
def insertBeforeGuarded (fuel : Nat) (el node : Nat) (refNode : Option Nat) (s : State) : Res :=
  if s.isWidgetElem node = true ∧ s.domParent node ≠ some el then
    fail s (.jsError "Attempt to add widget via regular DOM operation.")
  else originalInsertBefore fuel el node refNode s

/-- The overriding `Element.prototype.removeChild` (`widget.ts:685-690`):
throws if the node's subtree counter is truthy or the node is a registered
widget element. -/
def removeChild (el child : Nat) (s : State) : Res :=
  if s.widgetCounter child ≠ 0 ∨ s.isWidgetElem child = true then
    fail s (.jsError "Attempt to remove element containing widget via regular DOM operation")
  else originalRemoveChild el child s

/-- The overriding `Element.prototype.removeChildren` (`widget.ts:692-697`). -/
def removeChildren (el : Nat) (s : State) : Res :=
  if s.widgetCounter el ≠ 0 then
    fail s (.jsError "Attempt to remove element containing widget via regular DOM operation")
  else originalRemoveChildren el s

/-- The inclusive nearest-registered-widget walk shared by `Widget.show`
(`widget.ts:235-243`) and `Widget.showWidgetInternal` (`widget.ts:272-275`):
starting at a node, follow `parentElementOrShadowHost` links until a
registered widget element is found.  `some (some e)` - found element `e`;
`some none` - walked past the top; `none` - out of fuel. -/
def nearestWidgetElem : Nat → State → Option Nat → Option (Option Nat)
  | _, _, none => some none
  | 0, _, some _ => none
  | fuel+1, s, some e =>
      if s.isWidgetElem e then some (some e)
      else nearestWidgetElem fuel s (s.domParent e)

/-- `Widget.parentIsShowing` (`widget.ts:147-152`). -/
def parentIsShowingB (s : State) (w : Nat) : Bool :=
  if s.isRoot w then true
  else match s.parentWidgetInternal w with
    | none => false
    | some p => s.isShowingInternal p

/-- `Widget.inNotification` (`widget.ts:142-145`): true if the notification
depth is nonzero on the widget or any ancestor.  Fueled walk over the
parent-widget chain; `none` means the walk did not terminate in `fuel`
steps. -/
def inNotificationB : Nat → State → Nat → Option Bool
  | 0, _, _ => none
  | fuel+1, s, w =>
      if s.notificationDepth w ≠ 0 then some true
      else match s.parentWidgetInternal w with
        | none => some false
        | some p => inNotificationB fuel s p

/-- `Widget.shouldHideOnDetach` (`widget.ts:123-136`): false when not in the
DOM; true if this widget or (recursively) some child should hide on
detach. -/
def shouldHideOnDetachB : Nat → State → Nat → Option Bool
  | 0, _, _ => none
  | fuel+1, s, w =>
      if s.domParent w = none then some false
      else if s.hideOnDetach w then some true
      else (s.childrenInternal w).foldl
        (fun acc c => match acc with
          | some false => shouldHideOnDetachB fuel s c
          | other => other)
        (some false)

/-- Adjust a widget's `notificationDepth` by `d`. -/
def bumpDepth (w : Nat) (d : Int) (s : State) : State :=
  {s with notificationDepth := fupd s.notificationDepth w (s.notificationDepth w + d)}

/-- `Widget.notify` (`widget.ts:203-210`): increment the depth, run the
hook, and decrement the depth again in a `finally` clause, so the decrement
happens even when the hook throws (the exception is re-raised). -/
def notify (w : Nat) (hook : State → Res) (s : State) : Res :=
  let r := hook (bumpDepth w 1 s)
  (bumpDepth w (-1) r.1, r.2)

/-- The no-op base-class hook `Widget.wasShown` (`widget.ts:212`), plus the
ghost trace record of its invocation. -/
def wasShownHook (w : Nat) (s : State) : Res := ok (emit (.wasShown w) s)

/-- The no-op base-class hook `Widget.willHide` (`widget.ts:215`). -/
def willHideHook (w : Nat) (s : State) : Res := ok (emit (.willHide w) s)

/-- The no-op base-class hook `Widget.onResize` (`widget.ts:218`). -/
def onResizeHook (w : Nat) (s : State) : Res := ok (emit (.onResize w) s)

/-- The no-op base-class hook `Widget.onLayout` (`widget.ts:221`). -/
def onLayoutHook (w : Nat) (s : State) : Res := ok (emit (.onLayout w) s)

/-- `Widget.storeScrollPositions` (`widget.ts:403-408`);
`elementsToRestoreScrollPositionsFor` returns `[this.element]`. -/
def storeScrollPositions (w : Nat) (s : State) : State :=
  {s with storedScrollPositions := fupd s.storedScrollPositions w (some (s.scrollOffsets w))}

/-- `Widget.restoreScrollPositions` (`widget.ts:410-419`). -/
def restoreScrollPositions (w : Nat) (s : State) : State :=
  match s.storedScrollPositions w with
  | some xy => {s with scrollOffsets := fupd s.scrollOffsets w xy}
  | none => s

/-- `Widget.processWillShow` (`widget.ts:163-166`): recurse into the
currently visible children first (the `callOnVisibleChildren` loop of
`widget.ts:154-161`, iterating over a snapshot of the children list and
re-checking parenthood and visibility against the current state at each
step), then set `isShowingInternal := true` (the ghost mark records the
assignment).  Note: no re-entrancy guard here. -/
def processWillShow : Nat → Nat → State → Res
  | 0, _, s => fail s .outOfFuel
  | fuel+1, w, s =>
      Res.bind
        ((s.childrenInternal w).foldl
          (fun acc c => Res.bind acc (fun t =>
            if t.parentWidgetInternal c = some w ∧ t.visibleInternal c = true then
              processWillShow fuel c t
            else ok t))
          (ok s))
        (fun s1 => ok {emit (.willShowMark w) s1 with
          isShowingInternal := fupd s1.isShowingInternal w true})

/-- `Widget.processWasShown` (`widget.ts:168-175`): guarded by
`inNotification`; restore scroll positions, notify `wasShown`, then recurse
into the visible children. -/
def processWasShown : Nat → Nat → State → Res
  | 0, _, s => fail s .outOfFuel
  | fuel+1, w, s =>
      match inNotificationB (fuel+1) s w with
      | none => fail s .outOfFuel
      | some true => ok s
      | some false =>
          let s1 := restoreScrollPositions w s
          Res.bind (notify w (wasShownHook w) s1) (fun s2 =>
            (s2.childrenInternal w).foldl
              (fun acc c => Res.bind acc (fun t =>
                if t.parentWidgetInternal c = some w ∧ t.visibleInternal c = true then
                  processWasShown fuel c t
                else ok t))
              (ok s2))

/-- `Widget.processWillHide` (`widget.ts:177-186`): guarded by
`inNotification`; store scroll positions, recurse into the visible children,
notify `willHide`, then clear `isShowingInternal`. -/
def processWillHide : Nat → Nat → State → Res
  | 0, _, s => fail s .outOfFuel
  | fuel+1, w, s =>
      match inNotificationB (fuel+1) s w with
      | none => fail s .outOfFuel
      | some true => ok s
      | some false =>
          let s1 := storeScrollPositions w s
          Res.bind
            ((s1.childrenInternal w).foldl
              (fun acc c => Res.bind acc (fun t =>
                if t.parentWidgetInternal c = some w ∧ t.visibleInternal c = true then
                  processWillHide fuel c t
                else ok t))
              (ok s1))
            (fun s2 =>
              Res.bind (notify w (willHideHook w) s2) (fun s3 =>
                ok {s3 with isShowingInternal := fupd s3.isShowingInternal w false}))

/-- `Widget.processWasHidden` (`widget.ts:188-190`): plain recursion into
the visible children; no guard, no hook, no state change. -/
def processWasHidden : Nat → Nat → State → Res
  | 0, _, s => fail s .outOfFuel
  | fuel+1, w, s =>
      (s.childrenInternal w).foldl
        (fun acc c => Res.bind acc (fun t =>
          if t.parentWidgetInternal c = some w ∧ t.visibleInternal c = true then
            processWasHidden fuel c t
          else ok t))
        (ok s)

/-- `Widget.processOnResize` (`widget.ts:192-201`): guarded by
`inNotification` and by `isShowing`; notify `onResize`, then recurse into
the visible children. -/
def processOnResize : Nat → Nat → State → Res
  | 0, _, s => fail s .outOfFuel
  | fuel+1, w, s =>
      match inNotificationB (fuel+1) s w with
      | none => fail s .outOfFuel
      | some true => ok s
      | some false =>
          if s.isShowingInternal w = false then ok s
          else Res.bind (notify w (onResizeHook w) s) (fun s1 =>
            (s1.childrenInternal w).foldl
              (fun acc c => Res.bind acc (fun t =>
                if t.parentWidgetInternal c = some w ∧ t.visibleInternal c = true then
                  processOnResize fuel c t
                else ok t))
              (ok s1))

/-- `Widget.constraints` (`widget.ts:525-533`): an explicit override wins;
otherwise the memoized computed value, computing and caching it on a miss.
The computation on a miss is `calculateConstraints`, dispatched on the
concrete class (inlined here so the recursion is structural in the fuel):
the base implementation returns `new Constraints()` (`widget.ts:521-523`),
`VBox` (`widget.ts:604-615`) and `HBox` (`widget.ts:624-635`) aggregate over
the currently visible children.  Value-returning computations yield `none`
on fuel exhaustion. -/
def constraintsM : Nat → Nat → State → Option (Constraints × State)
  | 0, _, _ => none
  | fuel+1, w, s =>
      match s.constraintsInternal w with
      | some c => some (c, s)
      | none =>
          match s.cachedConstraints w with
          | some c => some (c, s)
          | none =>
              let computed :=
                match s.widgetKind w with
                | .base => some (Constraints.zero, s)
                | .vbox =>
                    (s.childrenInternal w).foldl
                      (fun acc c =>
                        match acc with
                        | none => none
                        | some (cs, t) =>
                            if t.parentWidgetInternal c = some w ∧ t.visibleInternal c = true then
                              match constraintsM fuel c t with
                              | none => none
                              | some (child, t1) => some ((cs.widthToMax child).addHeight child, t1)
                            else some (cs, t))
                      (some (Constraints.zero, s))
                | .hbox =>
                    (s.childrenInternal w).foldl
                      (fun acc c =>
                        match acc with
                        | none => none
                        | some (cs, t) =>
                            if t.parentWidgetInternal c = some w ∧ t.visibleInternal c = true then
                              match constraintsM fuel c t with
                              | none => none
                              | some (child, t1) => some ((cs.addWidth child).heightToMax child, t1)
                            else some (cs, t))
                      (some (Constraints.zero, s))
              match computed with
              | none => none
              | some (c, s1) =>
                  some (c, {s1 with cachedConstraints := fupd s1.cachedConstraints w (some c)})

/-- `Widget.hasNonZeroConstraints` (`widget.ts:545-550`): any of the four
components truthy (nonzero). -/
def hasNonZeroConstraintsM (fuel : Nat) (w : Nat) (s : State) : Option (Bool × State) :=
  match constraintsM fuel w s with
  | none => none
  | some (c, s1) =>
      some (c.minimum.width ≠ 0 ∨ c.minimum.height ≠ 0 ∨
            c.preferred.width ≠ 0 ∨ c.preferred.height ≠ 0, s1)

/-- `Widget.doResize` (`widget.ts:421-429`): nothing when not showing or
inside a notification; otherwise run the resize pass over the visible
children (not on the widget itself). -/
def doResize (fuel : Nat) (w : Nat) (s : State) : Res :=
  if s.isShowingInternal w = false then ok s
  else
    match inNotificationB (fuel+1) s w with
    | none => fail s .outOfFuel
    | some true => ok s
    | some false =>
        (s.childrenInternal w).foldl
          (fun acc c => Res.bind acc (fun t =>
            if t.parentWidgetInternal c = some w ∧ t.visibleInternal c = true then
              processOnResize fuel c t
            else ok t))
          (ok s)

/-- `Widget.doLayout` (`widget.ts:431-437`). -/
def doLayout (fuel : Nat) (w : Nat) (s : State) : Res :=
  if s.isShowingInternal w = false then ok s
  else Res.bind (notify w (onLayoutHook w) s) (fun s1 => doResize fuel w s1)

/-- `Widget.invalidateConstraints` (`widget.ts:563-577`): while suspended
only record the request; otherwise clear the memo, recompute, and either
forward the invalidation to the parent (when the value changed and a parent
exists) or run a local layout pass.  The ghost `invalidationPass` event
marks each execution that passes the suspension guard. -/
def invalidateConstraints : Nat → Nat → State → Res
  | 0, _, s => fail s .outOfFuel
  | fuel+1, w, s =>
      if s.invalidationsSuspended w ≠ 0 then
        ok {s with invalidationsRequested := fupd s.invalidationsRequested w true}
      else
        let s0 := emit (.invalidationPass w)
          {s with invalidationsRequested := fupd s.invalidationsRequested w false}
        let cached := s0.cachedConstraints w
        let s1 := {s0 with cachedConstraints := fupd s0.cachedConstraints w none}
        match constraintsM (fuel+1) w s1 with
        | none => fail s1 .outOfFuel
        | some (actual, s2) =>
            match s2.parentWidgetInternal w with
            | some p =>
                if actual.isEqualOpt cached then doLayout fuel w s2
                else invalidateConstraints fuel p s2
            | none => doLayout fuel w s2

/-- `Widget.suspendInvalidations` (`widget.ts:552-554`). -/
def suspendInvalidations (w : Nat) (s : State) : Res :=
  ok {s with invalidationsSuspended := (fupd s.invalidationsSuspended w (s.invalidationsSuspended w + 1))}

/-- `Widget.resumeInvalidations` (`widget.ts:556-561`). -/
def resumeInvalidations (fuel : Nat) (w : Nat) (s : State) : Res :=
  let s1 := {s with invalidationsSuspended := (fupd s.invalidationsSuspended w (s.invalidationsSuspended w - 1))}
  if s1.invalidationsSuspended w = 0 ∧ s1.invalidationsRequested w = true then
    invalidateConstraints fuel w s1
  else ok s1

/-- `Widget.setMinimumSize` (`widget.ts:540-543`). -/
def setMinimumSize (fuel : Nat) (w : Nat) (width height : Int) (s : State) : Res :=
  invalidateConstraints fuel w
    {s with constraintsInternal := (fupd s.constraintsInternal w (some (Constraints.ofMinimum width height)))}

/-- `Widget.setMinimumAndPreferredSizes` (`widget.ts:535-538`). -/
def setMinimumAndPreferredSizes (fuel : Nat) (w : Nat)
    (width height preferredWidth preferredHeight : Int) (s : State) : Res :=
  invalidateConstraints fuel w
    {s with constraintsInternal := (fupd s.constraintsInternal w (some ⟨⟨width, height⟩, ⟨preferredWidth, preferredHeight⟩⟩))}

/-- `Widget.markAsRoot` (`widget.ts:103-106`). -/
def markAsRoot (w : Nat) (s : State) : Res :=
  if s.domParent w ≠ none then fail s (.jsError "Attempt to mark as root attached node")
  else ok {s with isRoot := fupd s.isRoot w true}

/-- `Widget.setHideOnDetach` (`widget.ts:138-140`). -/
def setHideOnDetach (w : Nat) (s : State) : Res :=
  ok {s with hideOnDetach := fupd s.hideOnDetach w true}

/-- `Widget.markAsExternallyManaged` (`widget.ts:587-590`). -/
def markAsExternallyManaged (w : Nat) (s : State) : Res :=
  if s.parentWidgetInternal w ≠ none then
    fail s (.jsError "Attempt to mark widget as externally managed after insertion to the DOM")
  else ok {s with externallyManaged := fupd s.externallyManaged w true}

/-- `Widget.hideWidgetInternal` (`widget.ts:328-353`): clear the visible
flag, run the will-hide pass when the ancestors are showing, then either
remove the element from the DOM (fixing counters and invoking `onDetach`)
or mark it hidden via the CSS class; finally the was-hidden pass and the
constraint invalidation of the parent. -/
def hideWidgetInternal (fuel : Nat) (w : Nat) (removeFromDOM : Bool) (s : State) : Res :=
  let s1 := {s with visibleInternal := fupd s.visibleInternal w false}
  let parentElement := s1.domParent w
  Res.bind (if parentIsShowingB s1 w then processWillHide fuel w s1 else ok s1) (fun s2 =>
  Res.bind
    (if removeFromDOM then
      Res.bind
        (match parentElement with
          | some pe =>
              Res.bind (decrementWidgetCounter fuel pe w s2) (fun s3 =>
                originalRemoveChild pe w s3)
          | none => ok s2)
        (fun s3 => ok (emit (.onDetach w) s3))
    else ok {s2 with hiddenClass := fupd s2.hiddenClass w true})
    (fun s4 =>
  Res.bind (if parentIsShowingB s4 w then processWasHidden fuel w s4 else ok s4) (fun s5 =>
  match s5.parentWidgetInternal w with
  | none => ok s5
  | some p =>
      match hasNonZeroConstraintsM fuel w s5 with
      | none => fail s5 .outOfFuel
      | some (b, s6) => if b then invalidateConstraints fuel p s6 else ok s6)))

/-- `Widget.hideWidget` (`widget.ts:321-326`). -/
def hideWidget (fuel : Nat) (w : Nat) (s : State) : Res :=
  if s.visibleInternal w = false then ok s
  else hideWidgetInternal fuel w false s

/-- `Widget.detach` (`widget.ts:355-390`). -/
def detach (fuel : Nat) (w : Nat) (overrideHideOnDetach : Bool) (s : State) : Res :=
  if s.parentWidgetInternal w = none ∧ s.isRoot w = false then ok s
  else
    match (if overrideHideOnDetach then some true
           else (shouldHideOnDetachB fuel s w).map (fun b => !b)) with
    | none => fail s .outOfFuel
    | some removeFromDOM =>
        Res.bind
          (if s.visibleInternal w then hideWidgetInternal fuel w removeFromDOM s
           else if removeFromDOM then
             match s.domParent w with
             | some pe =>
                 Res.bind (decrementWidgetCounter fuel pe w s) (fun s1 =>
                   originalRemoveChild pe w s1)
             | none => ok s
           else ok s)
          (fun s2 =>
            match s2.parentWidgetInternal w with
            | some p =>
                if w ∈ s2.childrenInternal p then
                  let s3 := {s2 with childrenInternal := fupd s2.childrenInternal p ((s2.childrenInternal p).erase w)}
                  let s4 := if s3.defaultFocusedChild p = some w then
                      {s3 with defaultFocusedChild := fupd s3.defaultFocusedChild p none}
                    else s3
                  let s5 := emit (.childWasDetached p w) s4
                  ok {s5 with parentWidgetInternal := fupd s5.parentWidgetInternal w none}
                else fail s2 (.jsError "Attempt to remove non-child widget")
            | none =>
                if s2.isRoot w then ok s2
                else fail s2 (.jsError "Removing non-root widget from DOM"))

/-- `Widget.attach` (`widget.ts:249-259`): no-op when already attached to
the same parent; otherwise detach from the previous parent first, then link
into the new parent's children and clear `isRoot`. -/
def attach (fuel : Nat) (w parentWidget : Nat) (s : State) : Res :=
  if s.parentWidgetInternal w = some parentWidget then ok s
  else
    Res.bind
      (if s.parentWidgetInternal w ≠ none then detach fuel w false s else ok s)
      (fun s1 =>
        let s2 := {s1 with parentWidgetInternal := fupd s1.parentWidgetInternal w (some parentWidget)}
        let s3 := {s2 with childrenInternal := fupd s2.childrenInternal parentWidget (s2.childrenInternal parentWidget ++ [w])}
        ok {s3 with isRoot := fupd s3.isRoot w false})

/-- `Widget.showWidgetInternal` (`widget.ts:271-319`): validate the nearest
registered ancestor, no-op when already visible under the same parent
element, otherwise set the visible flag, run the will-show pass, reparent
through the unguarded primitives (updating counters unless externally
managed), run the was-shown pass, and finish with constraint invalidation
or a resize pass. -/
def showWidgetInternal (fuel : Nat) (w parentElement : Nat) (insertBefore : Option Nat) (s : State) : Res :=
  match nearestWidgetElem fuel s (some parentElement) with
  | none => fail s .outOfFuel
  | some currentParent =>
      Res.bind
        (if s.isRoot w then
          (if currentParent = none then ok s
           else fail s (.jsError "Attempt to show root widget under another widget"))
         else
          (match currentParent with
            | some cp =>
                if s.parentWidgetInternal w = some cp then ok s
                else fail s (.jsError "Attempt to show under node belonging to alien widget")
            | none => fail s (.jsError "Attempt to show under node belonging to alien widget")))
        (fun s0 =>
          let wasVisible := s0.visibleInternal w
          if wasVisible = true ∧ s0.domParent w = some parentElement then ok s0
          else
            let s1 := {s0 with visibleInternal := fupd s0.visibleInternal w true}
            Res.bind
              (if !wasVisible && parentIsShowingB s1 w then processWillShow fuel w s1 else ok s1)
              (fun s2 =>
                let s3 := {s2 with hiddenClass := fupd s2.hiddenClass w false}
                Res.bind
                  (if s3.domParent w ≠ some parentElement then
                    Res.bind
                      (if s3.externallyManaged w then ok s3
                       else incrementWidgetCounter fuel parentElement w s3)
                      (fun s4 =>
                        match insertBefore with
                        | some ib => originalInsertBefore fuel parentElement w (some ib) s4
                        | none => originalAppendChild fuel parentElement w s4)
                   else ok s3)
                  (fun s5 =>
                    Res.bind
                      (if !wasVisible && parentIsShowingB s5 w then processWasShown fuel w s5 else ok s5)
                      (fun s6 =>
                        match s6.parentWidgetInternal w with
                        | none => processOnResize fuel w s6
                        | some p =>
                            match hasNonZeroConstraintsM fuel w s6 with
                            | none => fail s6 .outOfFuel
                            | some (b, s7) =>
                                if b then invalidateConstraints fuel p s7
                                else processOnResize fuel w s7))))

/-- `Widget.show` (`widget.ts:230-247`): for a non-root widget, resolve the
nearest ancestor widget of the parent element (failing on an orphan node)
and `attach` to it; then `showWidgetInternal`. -/
def Widget.show (fuel : Nat) (w parentElement : Nat) (insertBefore : Option Nat) (s : State) : Res :=
  Res.bind
    (if s.isRoot w then ok s
     else
      match nearestWidgetElem fuel s (some parentElement) with
      | none => fail s .outOfFuel
      | some none => fail s (.jsError "Attempt to attach widget to orphan node")
      | some (some cw) => attach fuel w cw s)
    (fun s1 => showWidgetInternal fuel w parentElement insertBefore s1)

/-- `Widget.showWidget` (`widget.ts:261-269`): re-show in place.  (The
`insertBefore` argument passed in the source, `element.nextSibling`, is
irrelevant here: the reparenting branch is dead because the target parent
element is the element's current parent.) -/
def showWidget (fuel : Nat) (w : Nat) (s : State) : Res :=
  if s.visibleInternal w then ok s
  else
    match s.domParent w with
    | none => fail s (.jsError "Attempt to show widget that is not hidden using hideWidget().")
    | some pe => showWidgetInternal fuel w pe none s

/-- `WidgetFocusRestorer`'s fields (`widget.ts:650-657`): the target widget
and the previously focused element recorded at construction time. -/
structure WidgetFocusRestorer where
  widget : Option Nat
  previous : Option Nat
deriving DecidableEq

/-- `WidgetFocusRestorer.restore` (`widget.ts:659-668`).  `widgetHasFocus`
stands for the external `Widget.hasFocus` collaborator (`element.hasFocus()`
from `dom_extension`, not part of `src/`), modelled from the spec as an
arbitrary predicate on the target widget.  The second component is the
element on which `.focus()` was called (the focus transfer performed), if
any. -/
def WidgetFocusRestorer.restore (r : WidgetFocusRestorer)
    (widgetHasFocus : Nat → Bool) : WidgetFocusRestorer × Option Nat :=
  match r.widget with
  | none => (r, none)
  | some w =>
      if widgetHasFocus w then
        match r.previous with
        | some prev => (⟨none, none⟩, some prev)
        | none => (⟨none, none⟩, none)
      else (⟨none, none⟩, none)

/-- The state of a fresh document: no elements, no widgets, all weak maps
empty. -/
def State.empty : State where
  elems := []
  isWidgetElem := fun _ => false
  widgetKind := fun _ => .base
  domParent := fun _ => none
  widgetCounter := fun _ => 0
  hiddenClass := fun _ => false
  visibleInternal := fun _ => false
  isRoot := fun _ => false
  isShowingInternal := fun _ => false
  childrenInternal := fun _ => []
  hideOnDetach := fun _ => false
  notificationDepth := fun _ => 0
  invalidationsSuspended := fun _ => 0
  invalidationsRequested := fun _ => false
  parentWidgetInternal := fun _ => none
  defaultFocusedChild := fun _ => none
  cachedConstraints := fun _ => none
  constraintsInternal := fun _ => none
  externallyManaged := fun _ => false
  storedScrollPositions := fun _ => none
  scrollOffsets := fun _ => (0, 0)
  eventTrace := []

/-- `new Widget()` (`widget.ts:64-90`) for a fresh element id: registers
the element in `widgetMap` and initialises every per-widget field.  (The
`isWebComponent` variant differs only in creating one extra plain content
element inside the root, which the machine can express with `newElement`.) -/
def newWidget (id : Nat) (kind : WidgetKind) (s : State) : Res :=
  if id ∈ s.elems then fail s (.jsError "element id already in use")
  else ok {s with
    elems := id :: s.elems
    isWidgetElem := fupd s.isWidgetElem id true
    widgetKind := fupd s.widgetKind id kind
    domParent := fupd s.domParent id none
    widgetCounter := fupd s.widgetCounter id 0
    hiddenClass := fupd s.hiddenClass id false
    visibleInternal := fupd s.visibleInternal id false
    isRoot := fupd s.isRoot id false
    isShowingInternal := fupd s.isShowingInternal id false
    childrenInternal := fupd s.childrenInternal id []
    hideOnDetach := fupd s.hideOnDetach id false
    notificationDepth := fupd s.notificationDepth id 0
    invalidationsSuspended := fupd s.invalidationsSuspended id 0
    invalidationsRequested := fupd s.invalidationsRequested id false
    parentWidgetInternal := fupd s.parentWidgetInternal id none
    defaultFocusedChild := fupd s.defaultFocusedChild id none
    cachedConstraints := fupd s.cachedConstraints id none
    constraintsInternal := fupd s.constraintsInternal id none
    externallyManaged := fupd s.externallyManaged id false
    storedScrollPositions := fupd s.storedScrollPositions id none
    scrollOffsets := fupd s.scrollOffsets id (0, 0)}

/-- `document.createElement('div')` for a plain (non-widget) element,
optionally followed by attaching it under an existing element through the
guarded `appendChild` override. -/
def newElement (fuel : Nat) (id : Nat) (parent : Option Nat) (s : State) : Res :=
  if id ∈ s.elems then fail s (.jsError "element id already in use")
  else
    let s1 := {s with
      elems := id :: s.elems
      isWidgetElem := fupd s.isWidgetElem id false
      widgetKind := fupd s.widgetKind id .base
      domParent := fupd s.domParent id none
      widgetCounter := fupd s.widgetCounter id 0
      hiddenClass := fupd s.hiddenClass id false
      visibleInternal := fupd s.visibleInternal id false
      isRoot := fupd s.isRoot id false
      isShowingInternal := fupd s.isShowingInternal id false
      childrenInternal := fupd s.childrenInternal id []
      hideOnDetach := fupd s.hideOnDetach id false
      notificationDepth := fupd s.notificationDepth id 0
      invalidationsSuspended := fupd s.invalidationsSuspended id 0
      invalidationsRequested := fupd s.invalidationsRequested id false
      parentWidgetInternal := fupd s.parentWidgetInternal id none
      defaultFocusedChild := fupd s.defaultFocusedChild id none
      cachedConstraints := fupd s.cachedConstraints id none
      constraintsInternal := fupd s.constraintsInternal id none
      externallyManaged := fupd s.externallyManaged id false
      storedScrollPositions := fupd s.storedScrollPositions id none
      scrollOffsets := fupd s.scrollOffsets id (0, 0)}
    match parent with
    | none => ok s1
    | some p => if p ∈ s.elems then appendChild fuel p id s1
                else fail s1 (.jsError "unknown parent element")

/-- One public operation of the widget system, with concrete arguments.
Fueled operations carry their fuel. -/
inductive Op where
  | mkElement (id : Nat) (parent : Option Nat) (fuel : Nat)
  | mkWidget (id : Nat) (kind : WidgetKind)
  | rootMark (w : Nat)
  | extManagedMark (w : Nat)
  | hideOnDetachSet (w : Nat)
  | showOp (w parentElement : Nat) (insertBefore : Option Nat) (fuel : Nat)
  | showWidgetOp (w : Nat) (fuel : Nat)
  | hideWidgetOp (w : Nat) (fuel : Nat)
  | detachOp (w : Nat) (ov : Bool) (fuel : Nat)
  | suspendOp (w : Nat)
  | resumeOp (w : Nat) (fuel : Nat)
  | setMinSizeOp (w : Nat) (width height : Int) (fuel : Nat)
deriving DecidableEq

/-- Is the id a registered widget element?  Method calls on an id that is
not a widget are rejected (in JavaScript one cannot hold a `Widget`
reference that was never constructed). -/
def requireWidget (w : Nat) (s : State) (k : State → Res) : Res :=
  if s.isWidgetElem w then k s else fail s (.jsError "not a widget")

/-- Dispatch one public operation. -/
def Op.apply : Op → State → Res
  | .mkElement id p fuel, s => newElement fuel id p s
  | .mkWidget id kind, s => newWidget id kind s
  | .rootMark w, s => requireWidget w s (markAsRoot w)
  | .extManagedMark w, s => requireWidget w s (markAsExternallyManaged w)
  | .hideOnDetachSet w, s => requireWidget w s (setHideOnDetach w)
  | .showOp w pe ib fuel, s => requireWidget w s (Widget.show fuel w pe ib)
  | .showWidgetOp w fuel, s => requireWidget w s (showWidget fuel w)
  | .hideWidgetOp w fuel, s => requireWidget w s (hideWidget fuel w)
  | .detachOp w ov fuel, s => requireWidget w s (detach fuel w ov)
  | .suspendOp w, s => requireWidget w s (suspendInvalidations w)
  | .resumeOp w fuel, s => requireWidget w s (resumeInvalidations fuel w)
  | .setMinSizeOp w a b fuel, s => requireWidget w s (setMinimumSize fuel w a b)

/-- The state an operation leaves behind. -/
def runState (o : Op) (s : State) : State := (o.apply s).1

/-- Did the operation complete without an exception? -/
def runOk (o : Op) (s : State) : Bool := (o.apply s).2.isNone

/-- Quiescent states: reachable from the fresh document by completed public
operations (an operation that raises does not produce a quiescent state). -/
inductive Reachable : State → Prop where
  | empty : Reachable State.empty
  | step (o : Op) (s : State) : Reachable s → runOk o s = true → Reachable (runState o s)

/-- Run a list of operations, stopping at the first exception. -/
def runOps : List Op → State → Res
  | [], s => ok s
  | o :: rest, s => Res.bind (o.apply s) (runOps rest)

/-- The proper DOM ancestors of `e`, nearest first, computed with fuel
(`none` when the parent chain does not terminate within the fuel). -/
def ancAux (s : State) : Nat → Nat → Option (List Nat)
  | 0, _ => none
  | fuel+1, e =>
      match s.domParent e with
      | none => some []
      | some p => (ancAux s fuel p).map (fun l => p :: l)

/-- The proper DOM ancestors of `e` with the canonical fuel (enough for any
acyclic forest over `s.elems`). -/
def ancestors (s : State) (e : Nat) : List Nat :=
  (ancAux s (s.elems.length + 1) e).getD []

/-- Is `e` a widget element that the counters track (registered and not
externally managed)? -/
def countedWidgetB (s : State) (e : Nat) : Bool :=
  s.isWidgetElem e && !s.externallyManaged e

/-- The number of tracked widget elements strictly inside `a`'s DOM
subtree. -/
def countBelow (s : State) (a : Nat) : Int :=
  ((s.elems.filter (fun e => countedWidgetB s e && decide (a ∈ ancestors s e))).length : Int)

/-! ### Basic lemmas about updates and sequencing -/

theorem fupd_fupd {α : Type} (f : Nat → α) (k : Nat) (v v' : α) :
    fupd (fupd f k v) k v' = fupd f k v' := by
  funext x
  by_cases h : x = k <;> simp [fupd, h]

theorem fupd_eq_self {α : Type} (f : Nat → α) (k : Nat) {v : α} (h : v = f k) :
    fupd f k v = f := by
  funext x
  by_cases hx : x = k <;> simp [fupd, hx, h]

theorem Res.bind_eq_ok {r : Res} {f : State → Res} {t : State}
    (h : Res.bind r f = (t, none)) :
    ∃ m, r = (m, none) ∧ f m = (t, none) := by
  obtain ⟨m, e?⟩ := r
  cases e? with
  | none => exact ⟨m, rfl, h⟩
  | some e =>
      have : (some e : Option Err) = none := congrArg Prod.snd h
      exact Option.noConfusion this

theorem Res.bind_snd_none {r : Res} {f : State → Res}
    (h : (Res.bind r f).2 = none) :
    ∃ m, r = (m, none) ∧ (f m).2 = none := by
  obtain ⟨m, e?⟩ := r
  cases e? with
  | none => exact ⟨m, rfl, h⟩
  | some e =>
      have : (some e : Option Err) = none := h
      exact Option.noConfusion this

/-- `notify` with a hook that only records an event behaves like the event
record alone: the depth bump is undone by the `finally` decrement. -/
theorem notify_emit (w : Nat) (ev : Event) (s : State) :
    notify w (fun t => ok (emit ev t)) s = ok (emit ev s) := by
  have hd : fupd (fupd s.notificationDepth w (s.notificationDepth w + 1)) w
      (fupd s.notificationDepth w (s.notificationDepth w + 1) w + -1) = s.notificationDepth := by
    rw [fupd_same, fupd_fupd]
    exact fupd_eq_self _ _ (by omega)
  show (bumpDepth w (-1) (emit ev (bumpDepth w 1 s)), (none : Option Err)) = ok (emit ev s)
  unfold bumpDepth emit ok
  rw [Prod.mk.injEq]
  refine ⟨?_, rfl⟩
  apply State.ext <;> first | rfl | exact hd

/-! ### Claim C6: the DOM mutation guard -/

/-- The error message of the attach guards (`widget.ts:673`/`widget.ts:680`). -/
def widgetAddMsg : String := "Attempt to add widget via regular DOM operation."

/-- The error message of the removal guards (`widget.ts:687`/`widget.ts:694`). -/
def widgetRemoveMsg : String := "Attempt to remove element containing widget via regular DOM operation"

/-- C6: the overridden DOM primitives throw unconditionally, exactly on the
stated conditions: `appendChild`/`insertBefore` throw iff the attached node
is a registered widget element whose current DOM parent is not the target;
`removeChild` throws iff the removed node has a truthy subtree widget
counter or is itself a registered widget element; `removeChildren` throws
iff the container's subtree widget counter is truthy. -/
theorem domMutationGuard_throws_iff (fuel : Nat) (el node child cont : Nat)
    (refNode : Option Nat) (s : State) :
    ((appendChild fuel el node s).2 = some (.jsError widgetAddMsg) ↔
      s.isWidgetElem node = true ∧ s.domParent node ≠ some el) ∧
    ((insertBeforeGuarded fuel el node refNode s).2 = some (.jsError widgetAddMsg) ↔
      s.isWidgetElem node = true ∧ s.domParent node ≠ some el) ∧
    ((removeChild el child s).2 = some (.jsError widgetRemoveMsg) ↔
      s.widgetCounter child ≠ 0 ∨ s.isWidgetElem child = true) ∧
    ((removeChildren cont s).2 = some (.jsError widgetRemoveMsg) ↔
      s.widgetCounter cont ≠ 0) := by
  refine ⟨?_, ?_, ?_, ?_⟩
  · rw [appendChild]
    split
    · next h => simp [fail, widgetAddMsg, h]
    · next h =>
        rw [originalAppendChild]
        cases hw : inclusiveAncestorB fuel s node el with
        | none => simp [fail, h]
        | some b => cases b <;> simp [fail, ok, h]
  · rw [insertBeforeGuarded]
    split
    · next h => simp [fail, widgetAddMsg, h]
    · next h =>
        rw [originalInsertBefore, originalAppendChild]
        cases hw : inclusiveAncestorB fuel s node el with
        | none => simp [fail, h]
        | some b => cases b <;> simp [fail, ok, h]
  · rw [removeChild]
    split
    · next h => simp [fail, widgetRemoveMsg, h]
    · next h =>
        rw [originalRemoveChild]
        split <;> simp [fail, ok, h]
  · rw [removeChildren]
    split
    · next h => simp [fail, widgetRemoveMsg, h]
    · next h =>
        rw [originalRemoveChildren]
        simp [ok, h]

/-! ### Claim C9: the focus restorer -/

/-- C9: `WidgetFocusRestorer.restore` transfers focus to the recorded
element iff the target widget still holds focus and a previous element was
recorded; afterwards the internal state is cleared, so a second `restore`
does nothing (no focus transfer, no state change). -/
theorem widgetFocusRestorer_restore_spec (r : WidgetFocusRestorer)
    (widgetHasFocus laterFocus : Nat → Bool) (p : Nat) :
    ((r.restore widgetHasFocus).2 = some p ↔
      (∃ w, r.widget = some w ∧ widgetHasFocus w = true) ∧ r.previous = some p) ∧
    (r.widget ≠ none → (r.restore widgetHasFocus).1 = ⟨none, none⟩) ∧
    ((r.restore widgetHasFocus).1.restore laterFocus = ((r.restore widgetHasFocus).1, none)) := by
  obtain ⟨w?, p?⟩ := r
  cases w? with
  | none => simp [WidgetFocusRestorer.restore]
  | some w =>
      cases p? with
      | none =>
          by_cases hf : widgetHasFocus w = true <;>
            simp [WidgetFocusRestorer.restore, hf]
      | some q =>
          by_cases hf : widgetHasFocus w = true <;>
            simp [WidgetFocusRestorer.restore, hf]


/-- C9 witness: a restorer holding widget `1` and previous element `2`,
where the widget still has focus, transfers focus back to `2`. -/
theorem widgetFocusRestorer_restore_spec_witness :
    ((WidgetFocusRestorer.mk (some 1) (some 2)).restore (fun _ => true)).2 = some 2 :=
  ((widgetFocusRestorer_restore_spec ⟨some 1, some 2⟩ (fun _ => true) (fun _ => false) 2).1).mpr
    ⟨⟨1, rfl, rfl⟩, rfl⟩

/-! ### Claim C10: the notify wrapper restores the notification depth -/

/-- C10: `Widget.notify` restores the widget's `notificationDepth` to its
prior value even when the invoked hook throws: provided the hook itself
leaves the widget's depth field alone (as every hook body does - re-entrant
`notify` calls are balanced), the depth after `notify` equals the depth
before, and the hook's exception (if any) propagates. -/
theorem notify_restores_notificationDepth (w : Nat) (hook : State → Res) (s : State)
    (h : ∀ t : State, ((hook t).1).notificationDepth w = t.notificationDepth w) :
    ((notify w hook s).1).notificationDepth w = s.notificationDepth w ∧
    (notify w hook s).2 = (hook (bumpDepth w 1 s)).2 := by
  constructor
  · show (bumpDepth w (-1) ((hook (bumpDepth w 1 s)).1)).notificationDepth w = s.notificationDepth w
    rw [show (bumpDepth w (-1) ((hook (bumpDepth w 1 s)).1)).notificationDepth w =
        ((hook (bumpDepth w 1 s)).1).notificationDepth w + -1 from by
      unfold bumpDepth; simp only [fupd_same]]
    rw [h (bumpDepth w 1 s)]
    rw [show (bumpDepth w 1 s).notificationDepth w = s.notificationDepth w + 1 from by
      unfold bumpDepth; simp only [fupd_same]]
    omega
  · rfl

/-- A hook that throws unconditionally, leaving the state untouched. -/
def throwingHook : State → Res := fun t => fail t (.jsError "hook threw")

/-- C10 witness: applying the wrapper with a throwing hook on the fresh
document restores widget `0`'s depth and re-raises the hook's exception. -/
theorem notify_restores_notificationDepth_witness :
    (∀ t : State, ((throwingHook t).1).notificationDepth 0 = t.notificationDepth 0) ∧
    (((notify 0 throwingHook State.empty).1).notificationDepth 0 =
        State.empty.notificationDepth 0 ∧
      (notify 0 throwingHook State.empty).2 = (throwingHook (bumpDepth 0 1 State.empty)).2) :=
  ⟨fun _ => rfl,
   notify_restores_notificationDepth 0 throwingHook State.empty (fun _ => rfl)⟩

/-! ### The `callOnVisibleChildren` fold, in loop form -/

/-- Sequential left-to-right execution of a per-child step over a snapshot
list, threading the result (exceptions short-circuit). -/
def seqChildren (g : Nat → State → Res) : List Nat → Res → Res
  | [], r => r
  | c :: rest, r => seqChildren g rest (Res.bind r (g c))

theorem foldl_bind_eq_seqChildren (g : Nat → State → Res) (l : List Nat) (r : Res) :
    l.foldl (fun acc c => Res.bind acc (g c)) r = seqChildren g l r := by
  induction l generalizing r with
  | nil => rfl
  | cons c rest ih => exact ih (Res.bind r (g c))

theorem seqChildren_fail (g : Nat → State → Res) (l : List Nat) (s : State) (e : Err) :
    seqChildren g l (fail s e) = fail s e := by
  induction l with
  | nil => rfl
  | cons c rest ih => exact ih

/-- If every step leaves the state unchanged, so does the whole loop. -/
theorem seqChildren_state_eq {g : Nat → State → Res}
    (hg : ∀ c t, (g c t).1 = t) : ∀ (l : List Nat) (r : Res), (seqChildren g l r).1 = r.1 := by
  intro l
  induction l with
  | nil => intro r; rfl
  | cons c rest ih =>
      intro r
      rw [seqChildren, ih]
      obtain ⟨m, e?⟩ := r
      cases e? with
      | none => exact hg c m
      | some e => rfl

/-- The per-child step of the `callOnVisibleChildren` loop: run `f` on the
child when it is still a child of `w` and currently visible. -/
def childStep (f : Nat → State → Res) (w c : Nat) (t : State) : Res :=
  if t.parentWidgetInternal c = some w ∧ t.visibleInternal c = true then f c t else ok t

theorem processWillShow_succ (fuel w : Nat) (s : State) :
    processWillShow (fuel+1) w s =
      Res.bind (seqChildren (childStep (processWillShow fuel) w) (s.childrenInternal w) (ok s))
        (fun s1 => ok {emit (.willShowMark w) s1 with
          isShowingInternal := fupd s1.isShowingInternal w true}) := by
  rw [processWillShow, foldl_bind_eq_seqChildren (fun c t => if t.parentWidgetInternal c = some w ∧ t.visibleInternal c = true
        then processWillShow fuel c t else ok t)]
  rfl

theorem processWasShown_succ (fuel w : Nat) (s : State) :
    processWasShown (fuel+1) w s =
      match inNotificationB (fuel+1) s w with
      | none => fail s .outOfFuel
      | some true => ok s
      | some false =>
          Res.bind (notify w (wasShownHook w) (restoreScrollPositions w s)) (fun s2 =>
            seqChildren (childStep (processWasShown fuel) w) (s2.childrenInternal w) (ok s2)) := by
  rw [processWasShown]
  cases inNotificationB (fuel+1) s w with
  | none => rfl
  | some b =>
      cases b with
      | true => rfl
      | false =>
          simp only
          congr 1
          funext s2
          rw [foldl_bind_eq_seqChildren (fun c t => if t.parentWidgetInternal c = some w ∧ t.visibleInternal c = true
        then processWasShown fuel c t else ok t)]
          rfl

theorem processWillHide_succ (fuel w : Nat) (s : State) :
    processWillHide (fuel+1) w s =
      match inNotificationB (fuel+1) s w with
      | none => fail s .outOfFuel
      | some true => ok s
      | some false =>
          Res.bind
            (seqChildren (childStep (processWillHide fuel) w)
              ((storeScrollPositions w s).childrenInternal w) (ok (storeScrollPositions w s)))
            (fun s2 =>
              Res.bind (notify w (willHideHook w) s2) (fun s3 =>
                ok {s3 with isShowingInternal := fupd s3.isShowingInternal w false})) := by
  rw [processWillHide]
  cases inNotificationB (fuel+1) s w with
  | none => rfl
  | some b =>
      cases b with
      | true => rfl
      | false =>
          simp only
          congr 1
          rw [foldl_bind_eq_seqChildren (fun c t => if t.parentWidgetInternal c = some w ∧ t.visibleInternal c = true
        then processWillHide fuel c t else ok t)]
          rfl

theorem processWasHidden_succ (fuel w : Nat) (s : State) :
    processWasHidden (fuel+1) w s =
      seqChildren (childStep (processWasHidden fuel) w) (s.childrenInternal w) (ok s) := by
  rw [processWasHidden, foldl_bind_eq_seqChildren (fun c t => if t.parentWidgetInternal c = some w ∧ t.visibleInternal c = true
        then processWasHidden fuel c t else ok t)]
  rfl

theorem processOnResize_succ (fuel w : Nat) (s : State) :
    processOnResize (fuel+1) w s =
      match inNotificationB (fuel+1) s w with
      | none => fail s .outOfFuel
      | some true => ok s
      | some false =>
          if s.isShowingInternal w = false then ok s
          else Res.bind (notify w (onResizeHook w) s) (fun s1 =>
            seqChildren (childStep (processOnResize fuel) w) (s1.childrenInternal w) (ok s1)) := by
  rw [processOnResize]
  cases inNotificationB (fuel+1) s w with
  | none => rfl
  | some b =>
      cases b with
      | true => rfl
      | false =>
          simp only
          split
          · rfl
          · congr 1
            funext s1
            rw [foldl_bind_eq_seqChildren (fun c t => if t.parentWidgetInternal c = some w ∧ t.visibleInternal c = true
        then processOnResize fuel c t else ok t)]
            rfl

/-! ### Claim C4: the re-entrancy guard of the notification passes -/

/-- A widget (`1`) that is inside a notification (`notificationDepth = 1`),
visible, and not yet marked showing. -/
def reentrantState : State :=
  {State.empty with
    elems := [1]
    isWidgetElem := fupd State.empty.isWidgetElem 1 true
    notificationDepth := fupd State.empty.notificationDepth 1 1
    visibleInternal := fupd State.empty.visibleInternal 1 true}

/-- C4 counterexample: the will-show pass has no re-entrancy guard.  On a
widget whose notification depth is nonzero (`inNotification` is true), the
pass completes and flips `isShowingInternal` from `false` to `true` - it
does not return immediately without changing state, contradicting the claim
that all four passes share the guard. -/
theorem processWillShow_ignores_reentrancy_guard :
    inNotificationB 2 reentrantState 1 = some true ∧
    (processWillShow 2 1 reentrantState).2 = none ∧
    reentrantState.isShowingInternal 1 = false ∧
    (processWillShow 2 1 reentrantState).1.isShowingInternal 1 = true := by
  refine ⟨by decide, rfl, by decide, by decide⟩

/-- Helper: the was-hidden pass never changes the state (it recurses into
visible children and does nothing at each node). -/
theorem processWasHidden_pure : ∀ fuel w s, (processWasHidden fuel w s).1 = s := by
  intro fuel
  induction fuel with
  | zero => intro w s; rfl
  | succ fuel ih =>
      intro w s
      rw [processWasHidden_succ]
      have hg : ∀ c t, (childStep (processWasHidden fuel) w c t).1 = t := by
        intro c t
        unfold childStep
        split
        · exact ih c t
        · rfl
      exact seqChildren_state_eq hg (s.childrenInternal w) (ok s)

/-- C4 corrected: only the was-shown, will-hide and resize passes carry the
re-entrancy guard - each returns immediately, with no hook invocation and
no state change, when the notification depth is nonzero on the widget or an
ancestor.  The will-show pass has no guard (it sets the showing flags even
inside a notification, see the counterexample), and the was-hidden pass has
no guard but never invokes a hook or changes state anyway. -/
theorem notificationGuard_amended :
    (∀ fuel w s, inNotificationB (fuel+1) s w = some true →
      processWasShown (fuel+1) w s = ok s ∧
      processWillHide (fuel+1) w s = ok s ∧
      processOnResize (fuel+1) w s = ok s) ∧
    (∀ fuel w s, (processWasHidden fuel w s).1 = s) := by
  constructor
  · intro fuel w s h
    refine ⟨?_, ?_, ?_⟩
    · rw [processWasShown, h]
    · rw [processWillHide, h]
    · rw [processOnResize, h]
  · exact processWasHidden_pure

/-- C4 witness for the amended claim: in `reentrantState` (depth 1 on
widget 1) the three guarded passes leave the state exactly unchanged. -/
theorem notificationGuard_amended_witness :
    inNotificationB 2 reentrantState 1 = some true ∧
    processWasShown 2 1 reentrantState = ok reentrantState ∧
    processWillHide 2 1 reentrantState = ok reentrantState ∧
    processOnResize 2 1 reentrantState = ok reentrantState :=
  ⟨by decide, (notificationGuard_amended.1 1 1 reentrantState (by decide)).1,
    (notificationGuard_amended.1 1 1 reentrantState (by decide)).2.1,
    (notificationGuard_amended.1 1 1 reentrantState (by decide)).2.2⟩

/-! ### Claim C5: ordering of the notification passes -/

/-- `t`'s ghost trace extends `s`'s: only appends happened. -/
def traceExtends (s t : State) : Prop :=
  ∃ tr, t.eventTrace = s.eventTrace ++ tr

theorem traceExtends_refl (s : State) : traceExtends s s :=
  ⟨[], by simp⟩

theorem traceExtends_trans {s t u : State}
    (h1 : traceExtends s t) (h2 : traceExtends t u) : traceExtends s u := by
  obtain ⟨a, ha⟩ := h1
  obtain ⟨b, hb⟩ := h2
  exact ⟨a ++ b, by rw [hb, ha, List.append_assoc]⟩

theorem seqChildren_traceExtends {g : Nat → State → Res}
    (hg : ∀ c t, traceExtends t ((g c t).1)) :
    ∀ (l : List Nat) (r : Res), traceExtends r.1 ((seqChildren g l r).1) := by
  intro l
  induction l with
  | nil => intro r; exact traceExtends_refl _
  | cons c rest ih =>
      intro r
      rw [seqChildren]
      refine traceExtends_trans (t := (Res.bind r (g c)).1) ?_ (ih _)
      obtain ⟨m, e?⟩ := r
      cases e? with
      | none => exact hg c m
      | some e => exact traceExtends_refl _

theorem notify_wasShown (w : Nat) (s : State) :
    notify w (wasShownHook w) s = ok (emit (.wasShown w) s) :=
  notify_emit w (.wasShown w) s

theorem notify_willHide (w : Nat) (s : State) :
    notify w (willHideHook w) s = ok (emit (.willHide w) s) :=
  notify_emit w (.willHide w) s

theorem notify_onResize (w : Nat) (s : State) :
    notify w (onResizeHook w) s = ok (emit (.onResize w) s) :=
  notify_emit w (.onResize w) s

theorem notify_onLayout (w : Nat) (s : State) :
    notify w (onLayoutHook w) s = ok (emit (.onLayout w) s) :=
  notify_emit w (.onLayout w) s

theorem restoreScrollPositions_eventTrace (w : Nat) (s : State) :
    (restoreScrollPositions w s).eventTrace = s.eventTrace := by
  unfold restoreScrollPositions
  split <;> rfl

theorem storeScrollPositions_eventTrace (w : Nat) (s : State) :
    (storeScrollPositions w s).eventTrace = s.eventTrace := rfl

theorem processWillShow_traceExtends :
    ∀ fuel w s, traceExtends s ((processWillShow fuel w s).1) := by
  intro fuel
  induction fuel with
  | zero => intro w s; exact traceExtends_refl _
  | succ fuel ih =>
      intro w s
      rw [processWillShow_succ]
      have hloop : traceExtends s
          ((seqChildren (childStep (processWillShow fuel) w) (s.childrenInternal w) (ok s)).1) := by
        refine seqChildren_traceExtends ?_ _ (ok s)
        intro c t
        unfold childStep
        split
        · exact ih c t
        · exact traceExtends_refl _
      rcases hr : seqChildren (childStep (processWillShow fuel) w) (s.childrenInternal w) (ok s)
        with ⟨m, e?⟩
      rw [hr] at hloop
      cases e? with
      | some e => exact hloop
      | none =>
          refine traceExtends_trans hloop ?_
          exact ⟨[.willShowMark w], rfl⟩

theorem processWasShown_traceExtends :
    ∀ fuel w s, traceExtends s ((processWasShown fuel w s).1) := by
  intro fuel
  induction fuel with
  | zero => intro w s; exact traceExtends_refl _
  | succ fuel ih =>
      intro w s
      rw [processWasShown_succ]
      cases hg : inNotificationB (fuel+1) s w with
      | none => exact traceExtends_refl _
      | some b =>
          cases b with
          | true => exact traceExtends_refl _
          | false =>
              simp only
              rw [notify_wasShown]
              rw [Res.bind_ok]
              have h2 : traceExtends s (emit (.wasShown w) (restoreScrollPositions w s)) :=
                ⟨[.wasShown w], by
                  show (emit (.wasShown w) (restoreScrollPositions w s)).eventTrace = _
                  unfold emit
                  rw [restoreScrollPositions_eventTrace]⟩
              refine traceExtends_trans h2 ?_
              refine seqChildren_traceExtends ?_ _ (ok _)
              intro c t
              unfold childStep
              split
              · exact ih c t
              · exact traceExtends_refl _

theorem processWillHide_traceExtends :
    ∀ fuel w s, traceExtends s ((processWillHide fuel w s).1) := by
  intro fuel
  induction fuel with
  | zero => intro w s; exact traceExtends_refl _
  | succ fuel ih =>
      intro w s
      rw [processWillHide_succ]
      cases hg : inNotificationB (fuel+1) s w with
      | none => exact traceExtends_refl _
      | some b =>
          cases b with
          | true => exact traceExtends_refl _
          | false =>
              simp only
              have hloop : traceExtends s
                  ((seqChildren (childStep (processWillHide fuel) w)
                    ((storeScrollPositions w s).childrenInternal w)
                    (ok (storeScrollPositions w s))).1) := by
                refine traceExtends_trans (t := storeScrollPositions w s)
                  ⟨[], by rw [storeScrollPositions_eventTrace]; simp⟩ ?_
                refine seqChildren_traceExtends ?_ _ (ok _)
                intro c t
                unfold childStep
                split
                · exact ih c t
                · exact traceExtends_refl _
              rcases hr : seqChildren (childStep (processWillHide fuel) w)
                  ((storeScrollPositions w s).childrenInternal w)
                  (ok (storeScrollPositions w s)) with ⟨m, e?⟩
              rw [hr] at hloop
              cases e? with
              | some e => exact hloop
              | none =>
                  rw [Res.bind_none, notify_willHide, Res.bind_ok]
                  refine traceExtends_trans hloop ?_
                  exact ⟨[.willHide w], rfl⟩

/-- A parent widget (`1`) with one visible child widget (`2`), both not yet
marked showing. -/
def pcState : State :=
  {State.empty with
    elems := [1, 2]
    isWidgetElem := fun x => x == 1 || x == 2
    visibleInternal := fun x => x == 1 || x == 2
    childrenInternal := fupd State.empty.childrenInternal 1 [2]
    parentWidgetInternal := fupd State.empty.parentWidgetInternal 2 (some 1)}

/-- C5 counterexample: in the will-show pass the only per-widget action is
the `isShowingInternal := true` assignment (recorded by the ghost mark), and
running the pass on a parent with a visible child performs the child's
assignment strictly before the parent's - the will-show pass does not visit
a widget before its children, it recurses into the children first. -/
theorem willShow_visits_children_first :
    (processWillShow 3 1 pcState).2 = none ∧
    (processWillShow 3 1 pcState).1.eventTrace =
      [Event.willShowMark 2, Event.willShowMark 1] := by
  exact ⟨rfl, by decide⟩

/-- C5 corrected: within a show or hide operation, the will-show pass sets a
widget's showing flag only after recursing into its children (its ghost mark
comes last in the events it appends); the was-shown pass notifies the widget
before recursing into its children (its hook event comes first); and the
will-hide pass recurses into children before notifying the widget (its hook
event comes last). -/
theorem notificationPass_order :
    (∀ fuel w s, (processWillShow fuel w s).2 = none →
      ∃ t, ((processWillShow fuel w s).1).eventTrace =
        s.eventTrace ++ t ++ [Event.willShowMark w]) ∧
    (∀ fuel w s, inNotificationB (fuel+1) s w = some false →
      ∃ t, ((processWasShown (fuel+1) w s).1).eventTrace =
        s.eventTrace ++ [Event.wasShown w] ++ t) ∧
    (∀ fuel w s, inNotificationB (fuel+1) s w = some false →
      (processWillHide (fuel+1) w s).2 = none →
      ∃ t, ((processWillHide (fuel+1) w s).1).eventTrace =
        s.eventTrace ++ t ++ [Event.willHide w]) := by
  refine ⟨?_, ?_, ?_⟩
  · intro fuel w s hok
    cases fuel with
    | zero => exact absurd hok (by simp [processWillShow, fail])
    | succ fuel =>
        rw [processWillShow_succ] at hok ⊢
        rcases hr : seqChildren (childStep (processWillShow fuel) w)
            (s.childrenInternal w) (ok s) with ⟨m, e?⟩
        rw [hr] at hok
        cases e? with
        | some e =>
            have : (some e : Option Err) = none := hok
            exact Option.noConfusion this
        | none =>
            have hm : traceExtends s m := by
              have hh := seqChildren_traceExtends (g := childStep (processWillShow fuel) w)
                (fun c t => by
                  unfold childStep
                  split
                  · exact processWillShow_traceExtends fuel c t
                  · exact traceExtends_refl _)
                (s.childrenInternal w) (ok s)
              rw [hr] at hh
              exact hh
            obtain ⟨tr, htr⟩ := hm
            refine ⟨tr, ?_⟩
            show m.eventTrace ++ [Event.willShowMark w] =
              s.eventTrace ++ tr ++ [Event.willShowMark w]
            rw [htr]
  · intro fuel w s hguard
    have heq : processWasShown (fuel+1) w s =
        Res.bind (notify w (wasShownHook w) (restoreScrollPositions w s)) (fun s2 =>
          seqChildren (childStep (processWasShown fuel) w) (s2.childrenInternal w) (ok s2)) := by
      rw [processWasShown_succ, hguard]
    rw [heq, notify_wasShown, Res.bind_ok]
    have h2 : (emit (.wasShown w) (restoreScrollPositions w s)).eventTrace
        = s.eventTrace ++ [Event.wasShown w] := by
      show (restoreScrollPositions w s).eventTrace ++ [Event.wasShown w] = _
      rw [restoreScrollPositions_eventTrace]
    have hext := seqChildren_traceExtends (g := childStep (processWasShown fuel) w)
      (fun c t => by
        unfold childStep
        split
        · exact processWasShown_traceExtends fuel c t
        · exact traceExtends_refl _)
      ((emit (.wasShown w) (restoreScrollPositions w s)).childrenInternal w)
      (ok (emit (.wasShown w) (restoreScrollPositions w s)))
    obtain ⟨tr, htr⟩ := hext
    have htr2 : ((seqChildren (childStep (processWasShown fuel) w)
        ((emit (.wasShown w) (restoreScrollPositions w s)).childrenInternal w)
        (ok (emit (.wasShown w) (restoreScrollPositions w s)))).1).eventTrace
        = (emit (.wasShown w) (restoreScrollPositions w s)).eventTrace ++ tr := htr
    refine ⟨tr, ?_⟩
    rw [htr2, h2]
  · intro fuel w s hguard hok
    have heq : processWillHide (fuel+1) w s =
        Res.bind
          (seqChildren (childStep (processWillHide fuel) w)
            ((storeScrollPositions w s).childrenInternal w) (ok (storeScrollPositions w s)))
          (fun s2 =>
            Res.bind (notify w (willHideHook w) s2) (fun s3 =>
              ok {s3 with isShowingInternal := fupd s3.isShowingInternal w false})) := by
      rw [processWillHide_succ, hguard]
    rw [heq] at hok ⊢
    rcases hr : seqChildren (childStep (processWillHide fuel) w)
        ((storeScrollPositions w s).childrenInternal w) (ok (storeScrollPositions w s))
      with ⟨m, e?⟩
    rw [hr] at hok
    cases e? with
    | some e =>
        have : (some e : Option Err) = none := hok
        exact Option.noConfusion this
    | none =>
        have hm : traceExtends s m := by
          have hh := seqChildren_traceExtends (g := childStep (processWillHide fuel) w)
            (fun c t => by
              unfold childStep
              split
              · exact processWillHide_traceExtends fuel c t
              · exact traceExtends_refl _)
            ((storeScrollPositions w s).childrenInternal w) (ok (storeScrollPositions w s))
          rw [hr] at hh
          obtain ⟨tr, htr⟩ := hh
          refine ⟨tr, ?_⟩
          rw [show (m, (none : Option Err)).1.eventTrace =
            (ok (storeScrollPositions w s)).1.eventTrace ++ tr from htr]
          rfl
        obtain ⟨tr, htr⟩ := hm
        refine ⟨tr, ?_⟩
        rw [Res.bind_none, notify_willHide, Res.bind_ok]
        show m.eventTrace ++ [Event.willHide w] = s.eventTrace ++ tr ++ [Event.willHide w]
        rw [htr]

/-- C5 witness: the amended ordering facts at the concrete parent/child
state (`pcState`), with the hypotheses computed. -/
theorem notificationPass_order_witness :
    (processWillShow 3 1 pcState).2 = none ∧
    (∃ t, ((processWillShow 3 1 pcState).1).eventTrace =
      pcState.eventTrace ++ t ++ [Event.willShowMark 1]) :=
  ⟨rfl, notificationPass_order.1 3 1 pcState rfl⟩

/-! ### Claim C3: detach with hideOnDetach -/

/-- The two counter walks only touch `widgetCounter`. -/
theorem incrementLoop_frame : ∀ (fuel : Nat) (count : Int) (e? : Option Nat) (s : State),
    (incrementLoop count fuel e? s).1 =
      {s with widgetCounter := ((incrementLoop count fuel e? s).1).widgetCounter} := by
  intro fuel
  induction fuel with
  | zero => intro count e? s; cases e? <;> rfl
  | succ fuel ih =>
      intro count e? s
      cases e? with
      | none => rfl
      | some el => exact ih count _ _

theorem decrementLoop_frame : ∀ (fuel : Nat) (count : Int) (e? : Option Nat) (s : State),
    (decrementLoop count fuel e? s).1 =
      {s with widgetCounter := ((decrementLoop count fuel e? s).1).widgetCounter} := by
  intro fuel
  induction fuel with
  | zero => intro count e? s; cases e? <;> rfl
  | succ fuel ih =>
      intro count e? s
      cases e? with
      | none => rfl
      | some el =>
          rw [decrementLoop]
          split <;> exact ih count _ _

theorem decrementWidgetCounter_frame (fuel : Nat) (pe ce : Nat) (s : State) :
    (decrementWidgetCounter fuel pe ce s).1 =
      {s with widgetCounter := ((decrementWidgetCounter fuel pe ce s).1).widgetCounter} :=
  decrementLoop_frame fuel _ _ s

/-- Number of `onDetach` hook invocations for `w` in a trace. -/
def onDetachCount (w : Nat) (tr : List Event) : Nat :=
  (tr.filter (fun e => e == Event.onDetach w)).length

theorem onDetachCount_append_cwd (w p c : Nat) (tr : List Event) :
    onDetachCount w (tr ++ [Event.childWasDetached p c]) = onDetachCount w tr := by
  unfold onDetachCount
  rw [List.filter_append]
  rw [show List.filter (fun e => e == Event.onDetach w) [Event.childWasDetached p c]
    = [] from rfl]
  simp

/-- An attached widget (`2`, child of root widget `1` which sits under the
plain container `0`) with `hideOnDetach` set, already hidden via
`hideWidget()`: not visible, element still in the DOM under `1`'s element,
and carrying the `hidden` class. -/
def hodState : State :=
  {State.empty with
    elems := [0, 1, 2]
    isWidgetElem := fun x => x == 1 || x == 2
    domParent := fun x => if x == 1 then some 0 else if x == 2 then some 1 else none
    widgetCounter := fun x => if x == 0 then 2 else if x == 1 then 1 else 0
    visibleInternal := fun x => x == 1
    isRoot := fun x => x == 1
    isShowingInternal := fun x => x == 1
    childrenInternal := fupd State.empty.childrenInternal 1 [2]
    parentWidgetInternal := fupd State.empty.parentWidgetInternal 2 (some 1)
    hideOnDetach := fupd State.empty.hideOnDetach 2 true
    hiddenClass := fupd State.empty.hiddenClass 2 true}

/-- C3 counterexample: on the hidden `hideOnDetach` widget `2`,
`detach(true)` completes, removes the element from the DOM - but invokes no
`onDetach` hook (the only event recorded is the parent's
`childWasDetached`), contradicting the claim that `detach(true)` does
invoke `onDetach`. -/
theorem detach_override_no_onDetach :
    (detach 5 2 true hodState).2 = none ∧
    (detach 5 2 true hodState).1.domParent 2 = none ∧
    (detach 5 2 true hodState).1.eventTrace = [Event.childWasDetached 1 2] := by
  refine ⟨rfl, by decide, by decide⟩

/-- C3 corrected: for an attached widget with the `hideOnDetach` flag that
has been hidden via `hideWidget()` (not visible, element still in the DOM
and marked hidden): `detach()` with no argument leaves the element in the
DOM marked hidden and does not invoke `onDetach`; `detach(true)` removes
the element from the DOM but also does **not** invoke `onDetach` (the hook
only fires when a visible widget is hidden with removal,
`widget.ts:336-342`; the already-hidden branch of `detach`,
`widget.ts:368-375`, removes the element without calling it). -/
theorem detach_hideOnDetach_spec (fuel : Nat) (w pe p : Nat) (s : State)
    (h1 : s.hideOnDetach w = true)
    (h2 : s.visibleInternal w = false)
    (h3 : s.domParent w = some pe)
    (h4 : s.parentWidgetInternal w = some p)
    (h5 : w ∈ s.childrenInternal p)
    (h6 : s.hiddenClass w = true)
    (h7 : (decrementWidgetCounter (fuel+1) pe w s).2 = none) :
    ((detach (fuel+1) w false s).2 = none ∧
     ((detach (fuel+1) w false s).1).domParent w = some pe ∧
     ((detach (fuel+1) w false s).1).hiddenClass w = true ∧
     onDetachCount w ((detach (fuel+1) w false s).1).eventTrace =
       onDetachCount w s.eventTrace) ∧
    ((detach (fuel+1) w true s).2 = none ∧
     ((detach (fuel+1) w true s).1).domParent w = none ∧
     onDetachCount w ((detach (fuel+1) w true s).1).eventTrace =
       onDetachCount w s.eventTrace) := by
  have hshd : shouldHideOnDetachB (fuel+1) s w = some true := by
    rw [shouldHideOnDetachB]
    simp [h3, h1]
  have hnotnone : ¬(s.parentWidgetInternal w = none ∧ s.isRoot w = false) := by simp [h4]
  constructor
  · rw [detach, if_neg hnotnone]
    simp only [Bool.false_eq_true, if_false, hshd, Option.map_some', Bool.not_true, h2,
      Res.bind_ok, h4]
    rw [if_pos h5]
    split
    · refine ⟨rfl, h3, h6, ?_⟩
      show onDetachCount w (s.eventTrace ++ [Event.childWasDetached p w]) = _
      exact onDetachCount_append_cwd w p w s.eventTrace
    · refine ⟨rfl, h3, h6, ?_⟩
      show onDetachCount w (s.eventTrace ++ [Event.childWasDetached p w]) = _
      exact onDetachCount_append_cwd w p w s.eventTrace
  · rw [detach, if_neg hnotnone]
    simp only [eq_self_iff_true, if_true, h2, Bool.false_eq_true, if_false, h3]
    rcases hdec : decrementWidgetCounter (fuel+1) pe w s with ⟨m, e?⟩
    have hframe := decrementWidgetCounter_frame (fuel+1) pe w s
    rw [hdec] at h7 hframe
    cases e? with
    | some e => exact absurd h7 (by simp)
    | none =>
        have hframe2 : m = {s with widgetCounter := m.widgetCounter} := hframe
        have hmdom : m.domParent = s.domParent := by rw [hframe2]
        have hmtrace : m.eventTrace = s.eventTrace := by rw [hframe2]
        have hmpar : m.parentWidgetInternal = s.parentWidgetInternal := by rw [hframe2]
        have hmchi : m.childrenInternal = s.childrenInternal := by rw [hframe2]
        rw [Res.bind_none, originalRemoveChild, if_pos (by rw [hmdom]; exact h3)]
        simp only [Res.bind_ok, hmpar, h4]
        rw [if_pos (by simp only [hmchi]; exact h5)]
        split
        · refine ⟨rfl, by show fupd m.domParent w none w = none; simp, ?_⟩
          show onDetachCount w (m.eventTrace ++ [Event.childWasDetached p w]) = _
          rw [hmtrace]
          exact onDetachCount_append_cwd w p w s.eventTrace
        · refine ⟨rfl, by show fupd m.domParent w none w = none; simp, ?_⟩
          show onDetachCount w (m.eventTrace ++ [Event.childWasDetached p w]) = _
          rw [hmtrace]
          exact onDetachCount_append_cwd w p w s.eventTrace

/-- C3 witness: the amended behaviour at the concrete `hodState`, with all
hypotheses computed. -/
theorem detach_hideOnDetach_spec_witness :
    (detach 5 2 false hodState).2 = none ∧
    (detach 5 2 false hodState).1.domParent 2 = some 1 ∧
    (detach 5 2 false hodState).1.hiddenClass 2 = true ∧
    onDetachCount 2 ((detach 5 2 false hodState).1).eventTrace =
      onDetachCount 2 hodState.eventTrace :=
  (detach_hideOnDetach_spec 4 2 1 1 hodState (by decide) (by decide) (by decide)
    (by decide) (by decide) (by decide) (by decide)).1

/-! ### Claim C7: suspension and batching of constraint invalidations -/

/-- Number of executed invalidation passes for `w` recorded in a trace. -/
def passCount (w : Nat) (tr : List Event) : Nat :=
  (tr.filter (fun e => e == Event.invalidationPass w)).length

theorem passCount_append (w : Nat) (tr tr' : List Event) :
    passCount w (tr ++ tr') = passCount w tr + passCount w tr' := by
  unfold passCount
  rw [List.filter_append, List.length_append]

/-- A sequence of `setMinimumSize` calls on widget `w`. -/
def setMinSeq (fuel : Nat) (w : Nat) : List (Int × Int) → State → Res
  | [], s => ok s
  | (a, b) :: rest, s => Res.bind (setMinimumSize fuel w a b s) (setMinSeq fuel w rest)

/-- `suspendInvalidations()`, then a batch of `setMinimumSize` calls, then a
single matching `resumeInvalidations()`. -/
def suspendBatch (fuel : Nat) (w : Nat) (ops : List (Int × Int)) (s : State) : Res :=
  Res.bind (suspendInvalidations w s) (fun s1 =>
    Res.bind (setMinSeq fuel w ops s1) (fun s2 => resumeInvalidations fuel w s2))

/-- `invalidateConstraints` under active suspension: only the
pending-invalidation flag is set; nothing is recomputed and no event is
recorded (`widget.ts:564-567`). -/
theorem invalidateConstraints_suspended (fuel w : Nat) (s : State)
    (h : s.invalidationsSuspended w ≠ 0) :
    invalidateConstraints (fuel+1) w s =
      ok {s with invalidationsRequested := fupd s.invalidationsRequested w true} := by
  rw [invalidateConstraints, if_pos h]

/-- While suspension is active, every `setMinimumSize` only records the
explicit constraints and the pending-invalidation flag: no pass runs, no
event is recorded, and the bookkeeping fields are untouched. -/
theorem setMinSeq_suspended (fuel w : Nat) :
    ∀ (ops : List (Int × Int)) (s : State), s.invalidationsSuspended w ≠ 0 →
    (setMinSeq (fuel+1) w ops s).2 = none ∧
    ((setMinSeq (fuel+1) w ops s).1).eventTrace = s.eventTrace ∧
    ((setMinSeq (fuel+1) w ops s).1).invalidationsSuspended = s.invalidationsSuspended ∧
    ((setMinSeq (fuel+1) w ops s).1).parentWidgetInternal = s.parentWidgetInternal ∧
    ((setMinSeq (fuel+1) w ops s).1).childrenInternal = s.childrenInternal ∧
    ((setMinSeq (fuel+1) w ops s).1).isShowingInternal = s.isShowingInternal ∧
    ((setMinSeq (fuel+1) w ops s).1).notificationDepth = s.notificationDepth ∧
    ((setMinSeq (fuel+1) w ops s).1).cachedConstraints = s.cachedConstraints ∧
    (ops ≠ [] → ((setMinSeq (fuel+1) w ops s).1).invalidationsRequested w = true ∧
      ∃ c, ((setMinSeq (fuel+1) w ops s).1).constraintsInternal w = some c) := by
  intro ops
  induction ops with
  | nil =>
      intro s hs
      exact ⟨rfl, rfl, rfl, rfl, rfl, rfl, rfl, rfl, fun h => absurd rfl h⟩
  | cons ab rest ih =>
      intro s hs
      obtain ⟨a, b⟩ := ab
      have hstep : setMinimumSize (fuel+1) w a b s =
          ok {s with
            constraintsInternal := (fupd s.constraintsInternal w (some (Constraints.ofMinimum a b)))
            invalidationsRequested := fupd s.invalidationsRequested w true} := by
        rw [setMinimumSize]
        exact invalidateConstraints_suspended fuel w
          {s with constraintsInternal :=
            (fupd s.constraintsInternal w (some (Constraints.ofMinimum a b)))} hs
      rw [setMinSeq, hstep, Res.bind_ok]
      have hih := ih {s with
        constraintsInternal := (fupd s.constraintsInternal w (some (Constraints.ofMinimum a b)))
        invalidationsRequested := fupd s.invalidationsRequested w true} hs
      refine ⟨hih.1, hih.2.1, hih.2.2.1, hih.2.2.2.1, hih.2.2.2.2.1, hih.2.2.2.2.2.1,
        hih.2.2.2.2.2.2.1, hih.2.2.2.2.2.2.2.1, ?_⟩
      intro _
      cases rest with
      | nil =>
          refine ⟨?_, Constraints.ofMinimum a b, ?_⟩
          · show (fupd s.invalidationsRequested w true) w = true
            simp
          · show (fupd s.constraintsInternal w (some (Constraints.ofMinimum a b))) w = _
            simp
      | cons ab2 rest2 =>
          exact hih.2.2.2.2.2.2.2.2 (by simp)

theorem passCount_pass (w : Nat) : passCount w [Event.invalidationPass w] = 1 := by
  simp [passCount]

/-- `doResize` on a widget with no children: completes and records no
events. -/
theorem doResize_leaf (fuel w : Nat) (u : State)
    (h2 : u.parentWidgetInternal w = none) (h3 : u.childrenInternal w = []) :
    doResize fuel w u = ok u := by
  rw [doResize]
  split
  · rfl
  · rw [show inNotificationB (fuel+1) u w =
        (if u.notificationDepth w ≠ 0 then some true else some false) from by
      rw [inNotificationB, h2]]
    by_cases hd : u.notificationDepth w ≠ 0
    · rw [if_pos hd]
    · rw [if_neg hd]
      show List.foldl _ (ok u) (u.childrenInternal w) = ok u
      rw [h3]
      rfl

/-- `doLayout` on a widget with no parent and no children: completes, and
the only event it may record is `onLayout` (never an invalidation pass). -/
theorem doLayout_leaf (fuel w : Nat) (u : State)
    (h2 : u.parentWidgetInternal w = none) (h3 : u.childrenInternal w = []) :
    (doLayout fuel w u).2 = none ∧
    ∃ extra, ((doLayout fuel w u).1).eventTrace = u.eventTrace ++ extra ∧
      passCount w extra = 0 := by
  rw [doLayout]
  split
  · exact ⟨rfl, [], by simp [ok], rfl⟩
  · rw [notify_onLayout, Res.bind_ok]
    rw [doResize_leaf fuel w (emit (.onLayout w) u) h2 h3]
    refine ⟨rfl, [Event.onLayout w], rfl, ?_⟩
    simp [passCount]

/-- If a widget carries explicit constraints, `constraintsM` returns them
without recursing and leaves the state unchanged. -/
theorem constraintsM_inv (fuel w : Nat) (v : State) (r : Option (Constraints × State))
    (heq : constraintsM (fuel+1) w v = r) (c : Constraints)
    (h1 : v.constraintsInternal w = some c) : r = some (c, v) := by
  rw [← heq, constraintsM, h1]

/-- `invalidateConstraints` on an unsuspended widget with explicit
constraints, no parent and no children: exactly one invalidation pass runs
(recorded by its ghost event), followed only by non-pass layout events. -/
theorem invalidateConstraints_noparent (fuel w : Nat) (u : State) (c : Constraints)
    (h0 : u.invalidationsSuspended w = 0)
    (h1 : u.constraintsInternal w = some c)
    (h2 : u.parentWidgetInternal w = none)
    (h3 : u.childrenInternal w = []) :
    (invalidateConstraints (fuel+1) w u).2 = none ∧
    ∃ extra, ((invalidateConstraints (fuel+1) w u).1).eventTrace
      = u.eventTrace ++ [Event.invalidationPass w] ++ extra ∧ passCount w extra = 0 := by
  rw [invalidateConstraints, if_neg (by simp [h0])]
  dsimp only
  split
  · next heq =>
      exact absurd (constraintsM_inv fuel w _ _ heq c (by exact h1)) (by simp)
  · next actual s2 heq =>
      have hkey := constraintsM_inv fuel w _ _ heq c (by exact h1)
      have hs2 := (Prod.mk.injEq _ _ _ _ ▸ Option.some.injEq _ _ ▸ hkey).2
      have hp : s2.parentWidgetInternal w = none := by rw [hs2]; exact h2
      rw [hp]
      obtain ⟨hok, extra, hext, hpc⟩ :=
        doLayout_leaf fuel w s2 hp (by rw [hs2]; exact h3)
      refine ⟨hok, extra, ?_, hpc⟩
      rw [hext]
      rw [show s2.eventTrace = u.eventTrace ++ [Event.invalidationPass w] from by rw [hs2]; rfl]

/-- C7: while invalidations are suspended, every `invalidateConstraints`
call only records the pending flag and recomputes nothing; and for a
root-like widget (no parent, no children) a nonempty batch of
`setMinimumSize` calls bracketed by `suspendInvalidations` /
`resumeInvalidations` completes without error and triggers exactly one
invalidation pass, performed by the final `resumeInvalidations`. -/
theorem invalidation_batching (fuel w : Nat) (ops : List (Int × Int)) (s : State)
    (hsus : s.invalidationsSuspended w = 0)
    (hpar : s.parentWidgetInternal w = none)
    (hch : s.childrenInternal w = [])
    (hne : ops ≠ []) :
    (∀ (fuel2 w2 : Nat) (s2 : State), s2.invalidationsSuspended w2 ≠ 0 →
      invalidateConstraints (fuel2+1) w2 s2 =
        ok {s2 with invalidationsRequested := fupd s2.invalidationsRequested w2 true}) ∧
    ((suspendBatch (fuel+1) w ops s).2 = none ∧
     passCount w ((suspendBatch (fuel+1) w ops s).1).eventTrace
       = passCount w s.eventTrace + 1) := by
  refine ⟨fun fuel2 w2 s2 h => invalidateConstraints_suspended fuel2 w2 s2 h, ?_⟩
  have hmid := setMinSeq_suspended fuel w ops
    {s with invalidationsSuspended := fupd s.invalidationsSuspended w (s.invalidationsSuspended w + 1)}
    (by simp [fupd_same, hsus])
  simp only [suspendBatch, suspendInvalidations, Res.bind_ok]
  rcases hrun : setMinSeq (fuel+1) w ops
    {s with invalidationsSuspended := fupd s.invalidationsSuspended w (s.invalidationsSuspended w + 1)}
    with ⟨m, e?⟩
  rw [hrun] at hmid
  obtain ⟨hok, htr, hsusm, hparm, hchim, hshowm, hdepm, hcachm, hlast⟩ := hmid
  cases e? with
  | some e => exact Option.noConfusion hok
  | none =>
  simp only [Res.bind_none]
  obtain ⟨hreqm, c, hcim⟩ := hlast hne
  have htr2 : m.eventTrace = s.eventTrace := htr
  have hsusm2 : m.invalidationsSuspended = fupd s.invalidationsSuspended w (s.invalidationsSuspended w + 1) := hsusm
  have hparm2 : m.parentWidgetInternal w = none := by rw [hparm]; exact hpar
  have hchim2 : m.childrenInternal w = [] := by rw [hchim]; exact hch
  have hmsusw : m.invalidationsSuspended w = 1 := by
    rw [hsusm2, fupd_same, hsus]; decide
  rw [resumeInvalidations]
  dsimp only
  rw [if_pos (show fupd m.invalidationsSuspended w (m.invalidationsSuspended w - 1) w = 0 ∧
        m.invalidationsRequested w = true from
      ⟨by rw [fupd_same, hmsusw]; decide, hreqm⟩)]
  obtain ⟨hic, extra, hext, hpc⟩ := invalidateConstraints_noparent fuel w
    {m with invalidationsSuspended := fupd m.invalidationsSuspended w (m.invalidationsSuspended w - 1)}
    c (by simp [fupd_same, hmsusw]) (by exact hcim) (by exact hparm2) (by exact hchim2)
  refine ⟨hic, ?_⟩
  rw [hext]
  rw [show ({m with invalidationsSuspended := fupd m.invalidationsSuspended w (m.invalidationsSuspended w - 1)} : State).eventTrace = s.eventTrace from htr2]
  rw [passCount_append, passCount_append, passCount_pass, hpc]

theorem invalidation_batching_witness :
    State.empty.invalidationsSuspended 9 = 0 ∧
    State.empty.parentWidgetInternal 9 = none ∧
    State.empty.childrenInternal 9 = [] ∧
    ([((10 : Int), (20 : Int))] ≠ ([] : List (Int × Int))) ∧
    ((suspendBatch 6 9 [((10 : Int), (20 : Int))] State.empty).2 = none ∧
     passCount 9 ((suspendBatch 6 9 [((10 : Int), (20 : Int))] State.empty).1).eventTrace
       = passCount 9 State.empty.eventTrace + 1) :=
  ⟨rfl, rfl, rfl, by decide,
    (invalidation_batching 5 9 [(10, 20)] State.empty rfl rfl rfl (by decide)).2⟩

/-- C8: calling `show` again on a widget already visible under the same
parent element returns with no state change and no event recorded: the
`wasVisible && element.parentElement === parentElement` shortcut fires
before any hook or DOM mutation. -/
theorem show_idempotent (fuel : Nat) (w pe : Nat) (ib : Option Nat) (s : State)
    (hvis : s.visibleInternal w = true)
    (hdom : s.domParent w = some pe)
    (hcp : nearestWidgetElem fuel s (some pe) =
      some (if s.isRoot w then none else s.parentWidgetInternal w))
    (hpw : s.isRoot w = false → ∃ cw, s.parentWidgetInternal w = some cw) :
    Widget.show fuel w pe ib s = ok s := by
  by_cases hroot : s.isRoot w = true
  · rw [Widget.show, if_pos hroot, Res.bind_ok, showWidgetInternal, hcp]
    simp [hroot, hvis, hdom]
  · obtain ⟨cw, hcw⟩ := hpw (by simpa using hroot)
    rw [Widget.show, if_neg hroot, hcp]
    simp only [hroot, if_false, Bool.false_eq_true, hcw]
    rw [attach, if_pos hcw, Res.bind_ok, showWidgetInternal, hcp]
    simp [hroot, hcw, hvis, hdom]

/-- A concrete state for exercising `show_idempotent`: element 0 holds a
visible root widget 1. -/
def c8State : State :=
  (runOps [.mkElement 0 none 5, .mkWidget 1 .base, .rootMark 1,
           .showOp 1 0 none 10] State.empty).1

theorem show_idempotent_witness :
    c8State.visibleInternal 1 = true ∧
    c8State.domParent 1 = some 0 ∧
    nearestWidgetElem 10 c8State (some 0) =
      some (if c8State.isRoot 1 then none else c8State.parentWidgetInternal 1) ∧
    (c8State.isRoot 1 = false → ∃ cw, c8State.parentWidgetInternal 1 = some cw) ∧
    Widget.show 10 1 0 none c8State = ok c8State :=
  ⟨by decide, by decide, by decide,
   fun h => absurd h (by decide),
   show_idempotent 10 1 0 none c8State (by decide) (by decide) (by decide)
     (fun h => absurd h (by decide))⟩

/-! ### Claim C1: the showing-flag invariant.  Frame relations first. -/

/-- The fields that none of the notification passes may change: everything
except `isShowingInternal`, the event trace and the scroll bookkeeping. -/
def PFrame (s t : State) : Prop :=
  t.elems = s.elems ∧ t.isWidgetElem = s.isWidgetElem ∧
  t.domParent = s.domParent ∧ t.widgetCounter = s.widgetCounter ∧
  t.visibleInternal = s.visibleInternal ∧ t.isRoot = s.isRoot ∧
  t.childrenInternal = s.childrenInternal ∧
  t.notificationDepth = s.notificationDepth ∧
  t.parentWidgetInternal = s.parentWidgetInternal ∧
  t.externallyManaged = s.externallyManaged ∧
  t.hideOnDetach = s.hideOnDetach

/-- The fields the layout-side computations (`constraints`, resize and
layout passes, `invalidateConstraints`) may never change: additionally the
showing flags are untouched. -/
def LFrame (s t : State) : Prop :=
  PFrame s t ∧ t.isShowingInternal = s.isShowingInternal

theorem PFrame_refl (s : State) : PFrame s s :=
  ⟨rfl, rfl, rfl, rfl, rfl, rfl, rfl, rfl, rfl, rfl, rfl⟩

theorem PFrame_trans {s t u : State} (h1 : PFrame s t) (h2 : PFrame t u) :
    PFrame s u := by
  obtain ⟨a1, a2, a3, a4, a5, a6, a7, a8, a9, a10, a11⟩ := h1
  obtain ⟨b1, b2, b3, b4, b5, b6, b7, b8, b9, b10, b11⟩ := h2
  exact ⟨b1.trans a1, b2.trans a2, b3.trans a3, b4.trans a4, b5.trans a5,
    b6.trans a6, b7.trans a7, b8.trans a8, b9.trans a9, b10.trans a10,
    b11.trans a11⟩

theorem LFrame_refl (s : State) : LFrame s s := ⟨PFrame_refl s, rfl⟩

theorem LFrame_trans {s t u : State} (h1 : LFrame s t) (h2 : LFrame t u) :
    LFrame s u :=
  ⟨PFrame_trans h1.1 h2.1, h2.2.trans h1.2⟩

theorem LFrame_emit (e : Event) (s : State) : LFrame s (emit e s) :=
  LFrame_refl s

theorem LFrame_restoreScroll (w : Nat) (s : State) :
    LFrame s (restoreScrollPositions w s) := by
  unfold restoreScrollPositions
  split
  · exact LFrame_refl s
  · exact LFrame_refl s

theorem PFrame_storeScroll (w : Nat) (s : State) :
    PFrame s (storeScrollPositions w s) :=
  PFrame_refl s

/-- If every loop step only moves within `LFrame`, so does the whole
`callOnVisibleChildren` loop. -/
theorem seqChildren_LFrame {g : Nat → State → Res}
    (hg : ∀ c t, LFrame t ((g c t).1)) :
    ∀ (l : List Nat) (r : Res), LFrame r.1 ((seqChildren g l r).1) := by
  intro l
  induction l with
  | nil => intro r; exact LFrame_refl _
  | cons c rest ih =>
      intro r
      rw [seqChildren]
      refine LFrame_trans (t := (Res.bind r (g c)).1) ?_ (ih _)
      obtain ⟨m, e?⟩ := r
      cases e? with
      | none => exact hg c m
      | some e => exact LFrame_refl _

/-- The analogue for the notification passes themselves. -/
theorem seqChildren_PFrame {g : Nat → State → Res}
    (hg : ∀ c t, PFrame t ((g c t).1)) :
    ∀ (l : List Nat) (r : Res), PFrame r.1 ((seqChildren g l r).1) := by
  intro l
  induction l with
  | nil => intro r; exact PFrame_refl _
  | cons c rest ih =>
      intro r
      rw [seqChildren]
      refine PFrame_trans (t := (Res.bind r (g c)).1) ?_ (ih _)
      obtain ⟨m, e?⟩ := r
      cases e? with
      | none => exact hg c m
      | some e => exact PFrame_refl _

/-- With every notification depth zero, the re-entrancy test can never
answer `true`. -/
theorem inNotificationB_zero {s : State} (hg : ∀ x, s.notificationDepth x = 0) :
    ∀ fuel w, inNotificationB fuel s w ≠ some true := by
  intro fuel
  induction fuel with
  | zero => intro w h; exact Option.noConfusion h
  | succ fuel ih =>
      intro w
      rw [inNotificationB]
      rw [if_neg (by simp [hg w])]
      match hp : s.parentWidgetInternal w with
      | none => intro h; simp at h
      | some p => exact ih p

theorem parentIsShowingB_congr {s t : State}
    (hR : t.isRoot = s.isRoot) (hP : t.parentWidgetInternal = s.parentWidgetInternal)
    (hS : t.isShowingInternal = s.isShowingInternal) :
    parentIsShowingB t = parentIsShowingB s := by
  funext w
  unfold parentIsShowingB
  rw [hR, hP, hS]

theorem processOnResize_LFrame : ∀ (fuel w : Nat) (s : State),
    LFrame s (processOnResize fuel w s).1 := by
  intro fuel
  induction fuel with
  | zero => intro w s; exact LFrame_refl s
  | succ fuel ih =>
      intro w s
      rw [processOnResize_succ]
      cases hn : inNotificationB (fuel+1) s w with
      | none => exact LFrame_refl s
      | some b =>
          cases b with
          | true => exact LFrame_refl s
          | false =>
              dsimp only
              by_cases hS : s.isShowingInternal w = false
              · rw [if_pos hS]; exact LFrame_refl s
              · rw [if_neg hS, notify_onResize, Res.bind_ok]
                refine LFrame_trans (LFrame_emit (.onResize w) s) ?_
                exact seqChildren_LFrame (fun c t => by
                  unfold childStep
                  split
                  · exact ih c t
                  · exact LFrame_refl t) _ _

theorem doResize_LFrame (fuel w : Nat) (s : State) :
    LFrame s (doResize fuel w s).1 := by
  rw [doResize]
  split
  · exact LFrame_refl s
  · cases hn : inNotificationB (fuel+1) s w with
    | none => exact LFrame_refl s
    | some b =>
        cases b with
        | true => exact LFrame_refl s
        | false =>
            dsimp only
            rw [foldl_bind_eq_seqChildren (fun c t =>
              if t.parentWidgetInternal c = some w ∧ t.visibleInternal c = true then
                processOnResize fuel c t
              else ok t)]
            exact seqChildren_LFrame (fun c t => by
              split
              · exact processOnResize_LFrame fuel c t
              · exact LFrame_refl t) _ _

theorem doLayout_LFrame (fuel w : Nat) (s : State) :
    LFrame s (doLayout fuel w s).1 := by
  rw [doLayout]
  split
  · exact LFrame_refl s
  · rw [notify_onLayout, Res.bind_ok]
    exact LFrame_trans (LFrame_emit (.onLayout w) s) (doResize_LFrame fuel w _)

theorem ofold_none {g : Option (Constraints × State) → Nat → Option (Constraints × State)}
    (hnone : ∀ c, g none c = none) :
    ∀ (l : List Nat), l.foldl g none = none := by
  intro l
  induction l with
  | nil => rfl
  | cons c rest ih => rw [List.foldl_cons, hnone c]; exact ih

/-- Any `Option`-threaded child fold whose steps stay inside `LFrame` keeps
the final state in `LFrame` of the initial one. -/
theorem ofold_LFrame {g : Option (Constraints × State) → Nat → Option (Constraints × State)}
    (hnone : ∀ c, g none c = none)
    (hsome : ∀ cs t c, g (some (cs, t)) c = none ∨
      ∃ cs' t', g (some (cs, t)) c = some (cs', t') ∧ LFrame t t') :
    ∀ (l : List Nat) (c0 : Constraints) (t0 : State) (c' : Constraints) (t' : State),
      l.foldl g (some (c0, t0)) = some (c', t') → LFrame t0 t' := by
  intro l
  induction l with
  | nil =>
      intro c0 t0 c' t' h
      rw [List.foldl_nil] at h
      injection h with h1
      injection h1 with ha hb
      rw [← hb]
      exact LFrame_refl t0
  | cons c rest ih =>
      intro c0 t0 c' t' h
      rw [List.foldl_cons] at h
      rcases hsome c0 t0 c with hg | ⟨cs', t1, hg, hfr⟩
      · rw [hg, ofold_none hnone rest] at h
        exact Option.noConfusion h
      · rw [hg] at h
        exact LFrame_trans hfr (ih _ _ _ _ h)

theorem constraintsM_LFrame : ∀ (fuel w : Nat) (s : State) (c : Constraints) (t : State),
    constraintsM fuel w s = some (c, t) → LFrame s t := by
  intro fuel
  induction fuel with
  | zero => intro w s c t h; exact Option.noConfusion h
  | succ fuel ih =>
      intro w s c t h
      rw [constraintsM] at h
      cases hci : s.constraintsInternal w with
      | some c0 =>
          rw [hci] at h
          dsimp only at h
          injection h with h1
          injection h1 with ha hb
          rw [← hb]; exact LFrame_refl s
      | none =>
          rw [hci] at h
          dsimp only at h
          cases hca : s.cachedConstraints w with
          | some c0 =>
              rw [hca] at h
              dsimp only at h
              injection h with h1
              injection h1 with ha hb
              rw [← hb]; exact LFrame_refl s
          | none =>
              rw [hca] at h
              dsimp only at h
              cases hk : s.widgetKind w with
              | base =>
                  rw [hk] at h
                  dsimp only at h
                  injection h with h1
                  injection h1 with ha hb
                  rw [← hb]; exact LFrame_refl s
              | vbox =>
                  rw [hk] at h
                  dsimp only at h
                  cases hfold : (s.childrenInternal w).foldl
                      (fun acc c =>
                        match acc with
                        | none => none
                        | some (cs, t) =>
                            if t.parentWidgetInternal c = some w ∧ t.visibleInternal c = true then
                              match constraintsM fuel c t with
                              | none => none
                              | some (child, t1) => some ((cs.widthToMax child).addHeight child, t1)
                            else some (cs, t))
                      (some (Constraints.zero, s)) with
                  | none => rw [hfold] at h; exact Option.noConfusion h
                  | some p =>
                      obtain ⟨c2, s1⟩ := p
                      rw [hfold] at h
                      dsimp only at h
                      injection h with h1
                      injection h1 with ha hb
                      rw [← hb]
                      refine LFrame_trans (ofold_LFrame ?hnv ?hsv _ _ _ _ _ hfold)
                        ⟨PFrame_refl _, rfl⟩
                      case hnv => intro c3; rfl
                      case hsv =>
                        intro cs t3 c3
                        dsimp only
                        by_cases hc3 : t3.parentWidgetInternal c3 = some w ∧ t3.visibleInternal c3 = true
                        · rw [if_pos hc3]
                          cases hcc : constraintsM fuel c3 t3 with
                          | none => exact Or.inl rfl
                          | some q =>
                              obtain ⟨child, t4⟩ := q
                              exact Or.inr ⟨_, t4, rfl, ih c3 t3 child t4 hcc⟩
                        · rw [if_neg hc3]
                          exact Or.inr ⟨cs, t3, rfl, LFrame_refl t3⟩
              | hbox =>
                  rw [hk] at h
                  dsimp only at h
                  cases hfold : (s.childrenInternal w).foldl
                      (fun acc c =>
                        match acc with
                        | none => none
                        | some (cs, t) =>
                            if t.parentWidgetInternal c = some w ∧ t.visibleInternal c = true then
                              match constraintsM fuel c t with
                              | none => none
                              | some (child, t1) => some ((cs.addWidth child).heightToMax child, t1)
                            else some (cs, t))
                      (some (Constraints.zero, s)) with
                  | none => rw [hfold] at h; exact Option.noConfusion h
                  | some p =>
                      obtain ⟨c2, s1⟩ := p
                      rw [hfold] at h
                      dsimp only at h
                      injection h with h1
                      injection h1 with ha hb
                      rw [← hb]
                      refine LFrame_trans (ofold_LFrame ?hnh ?hsh _ _ _ _ _ hfold)
                        ⟨PFrame_refl _, rfl⟩
                      case hnh => intro c3; rfl
                      case hsh =>
                        intro cs t3 c3
                        dsimp only
                        by_cases hc3 : t3.parentWidgetInternal c3 = some w ∧ t3.visibleInternal c3 = true
                        · rw [if_pos hc3]
                          cases hcc : constraintsM fuel c3 t3 with
                          | none => exact Or.inl rfl
                          | some q =>
                              obtain ⟨child, t4⟩ := q
                              exact Or.inr ⟨_, t4, rfl, ih c3 t3 child t4 hcc⟩
                        · rw [if_neg hc3]
                          exact Or.inr ⟨cs, t3, rfl, LFrame_refl t3⟩

theorem hasNonZeroConstraintsM_LFrame (fuel w : Nat) (s : State) (b : Bool) (t : State)
    (h : hasNonZeroConstraintsM fuel w s = some (b, t)) : LFrame s t := by
  rw [hasNonZeroConstraintsM] at h
  cases hc : constraintsM fuel w s with
  | none => rw [hc] at h; exact Option.noConfusion h
  | some p =>
      obtain ⟨c, s1⟩ := p
      rw [hc] at h
      dsimp only at h
      injection h with h1
      injection h1 with ha hb
      rw [← hb]
      exact constraintsM_LFrame fuel w s c s1 hc

theorem invalidateConstraints_LFrame : ∀ (fuel w : Nat) (s : State),
    LFrame s (invalidateConstraints fuel w s).1 := by
  intro fuel
  induction fuel with
  | zero => intro w s; exact LFrame_refl s
  | succ fuel ih =>
      intro w s
      rw [invalidateConstraints]
      by_cases hsus : s.invalidationsSuspended w ≠ 0
      · rw [if_pos hsus]
        exact ⟨PFrame_refl _, rfl⟩
      · rw [if_neg hsus]
        dsimp only
        split
        · next heq => exact ⟨PFrame_refl _, rfl⟩
        · next actual s2 heq =>
            have hmid := constraintsM_LFrame (fuel+1) w _ actual s2 heq
            have hpre : LFrame s s2 := LFrame_trans ⟨PFrame_refl _, rfl⟩ hmid
            cases hp : s2.parentWidgetInternal w with
            | some p =>
                dsimp only
                split
                · exact LFrame_trans hpre (doLayout_LFrame fuel w s2)
                · exact LFrame_trans hpre (ih p s2)
            | none =>
                exact LFrame_trans hpre (doLayout_LFrame fuel w s2)

theorem processWasShown_LFrame : ∀ (fuel w : Nat) (s : State),
    LFrame s (processWasShown fuel w s).1 := by
  intro fuel
  induction fuel with
  | zero => intro w s; exact LFrame_refl s
  | succ fuel ih =>
      intro w s
      rw [processWasShown_succ]
      cases hn : inNotificationB (fuel+1) s w with
      | none => exact LFrame_refl s
      | some b =>
          cases b with
          | true => exact LFrame_refl s
          | false =>
              dsimp only
              rw [notify_wasShown, Res.bind_ok]
              refine LFrame_trans
                (LFrame_trans (LFrame_restoreScroll w s) (LFrame_emit (.wasShown w) _)) ?_
              exact seqChildren_LFrame (fun c t => by
                unfold childStep
                split
                · exact ih c t
                · exact LFrame_refl t) _ _

theorem PFrame.vEq {s t : State} (h : PFrame s t) :
    t.visibleInternal = s.visibleInternal := h.2.2.2.2.1

theorem PFrame.cEq {s t : State} (h : PFrame s t) :
    t.childrenInternal = s.childrenInternal := h.2.2.2.2.2.2.1

theorem PFrame.nEq {s t : State} (h : PFrame s t) :
    t.notificationDepth = s.notificationDepth := h.2.2.2.2.2.2.2.1

theorem PFrame.pEq {s t : State} (h : PFrame s t) :
    t.parentWidgetInternal = s.parentWidgetInternal := h.2.2.2.2.2.2.2.2.1

/-- What one `processWillShow` / `processWillHide` pass rooted at `w` does:
a set `L` of widgets gets the showing flag assigned to `v`; `w` itself is
in `L`, every other member is a visible child (at pass entry) of another
member, and conversely every visible child of a member is itself a member.
All other pass-frame fields are untouched. -/
def passSpec (v : Bool) (w : Nat) (s t : State) : Prop :=
  ∃ L : List Nat, w ∈ L ∧ PFrame s t ∧
    (∀ x, t.isShowingInternal x = (if x ∈ L then v else s.isShowingInternal x)) ∧
    (∀ c ∈ L, c = w ∨ (s.visibleInternal c = true ∧
      ∃ p, p ∈ L ∧ s.parentWidgetInternal c = some p)) ∧
    (∀ p ∈ L, ∀ c ∈ s.childrenInternal p, s.parentWidgetInternal c = some p →
      s.visibleInternal c = true → c ∈ L)

/-- The corresponding statement for the `callOnVisibleChildren` loop over a
child list `cs`. -/
def foldSpec (v : Bool) (w : Nat) (cs : List Nat) (u t : State) : Prop :=
  ∃ L : List Nat, PFrame u t ∧
    (∀ x, t.isShowingInternal x = (if x ∈ L then v else u.isShowingInternal x)) ∧
    (∀ c ∈ L, u.visibleInternal c = true ∧
      ((u.parentWidgetInternal c = some w ∧ c ∈ cs) ∨
        ∃ p, p ∈ L ∧ u.parentWidgetInternal c = some p)) ∧
    (∀ p ∈ L, ∀ c ∈ u.childrenInternal p, u.parentWidgetInternal c = some p →
      u.visibleInternal c = true → c ∈ L) ∧
    (∀ c ∈ cs, u.parentWidgetInternal c = some w → u.visibleInternal c = true → c ∈ L)

theorem seqChildren_passSpec (v : Bool) (w : Nat) (f : Nat → State → Res)
    (Pd : State → Prop)
    (hPd : ∀ {a b : State}, PFrame a b → Pd a → Pd b)
    (hf : ∀ c u u', Pd u → f c u = ok u' → passSpec v c u u') :
    ∀ (cs : List Nat) (u t : State), Pd u →
      seqChildren (childStep f w) cs (ok u) = ok t → foldSpec v w cs u t := by
  intro cs
  induction cs with
  | nil =>
      intro u t hpd h
      have hut : u = t := congrArg Prod.fst h
      refine ⟨[], ?_, ?_, ?_, ?_, ?_⟩
      · rw [← hut]; exact PFrame_refl u
      · intro x; rw [← hut]; simp
      · intro c hc; exact absurd hc (List.not_mem_nil c)
      · intro p hp; exact absurd hp (List.not_mem_nil p)
      · intro c hc; exact absurd hc (List.not_mem_nil c)
  | cons c cs ih =>
      intro u t hpd h
      rw [seqChildren] at h
      by_cases hc : u.parentWidgetInternal c = some w ∧ u.visibleInternal c = true
      · rcases hr : f c u with ⟨u1, e?⟩
        rw [show Res.bind (ok u) (childStep f w c) = (u1, e?) from by
          rw [Res.bind_ok]; unfold childStep; rw [if_pos hc]; exact hr] at h
        cases e? with
        | some e =>
            have h2 : fail u1 e = ok t := by
              rw [← seqChildren_fail (childStep f w) cs u1 e]
              exact h
            exact absurd (congrArg Prod.snd h2) (by simp [fail, ok])
        | none =>
            obtain ⟨Lc, hcw, hfr1, hS1, hsound1, hcomp1⟩ := hf c u u1 hpd hr
            obtain ⟨L2, hfr2, hS2, hsound2, hcomp2, hlast2⟩ :=
              ih u1 t (hPd hfr1 hpd) h
            refine ⟨Lc ++ L2, PFrame_trans hfr1 hfr2, ?_, ?_, ?_, ?_⟩
            · intro x
              rw [hS2 x, hS1 x]
              by_cases h2 : x ∈ L2
              · simp [h2, List.mem_append]
              · by_cases h1 : x ∈ Lc
                · simp [h1, h2, List.mem_append]
                · simp [h1, h2, List.mem_append]
            · intro x hx
              rcases List.mem_append.mp hx with hx1 | hx2
              · rcases hsound1 x hx1 with hxc | ⟨hv, p, hpL, hpP⟩
                · subst hxc
                  exact ⟨hc.2, Or.inl ⟨hc.1, List.mem_cons_self x cs⟩⟩
                · exact ⟨hv, Or.inr ⟨p, List.mem_append.mpr (Or.inl hpL), hpP⟩⟩
              · obtain ⟨hv2, hbr⟩ := hsound2 x hx2
                have hv : u.visibleInternal x = true := by
                  rw [← PFrame.vEq hfr1]; exact hv2
                rcases hbr with ⟨hpw, hmem⟩ | ⟨p, hpL, hpP⟩
                · refine ⟨hv, Or.inl ⟨?_, List.mem_cons_of_mem c hmem⟩⟩
                  rw [← PFrame.pEq hfr1]; exact hpw
                · refine ⟨hv, Or.inr ⟨p, List.mem_append.mpr (Or.inr hpL), ?_⟩⟩
                  rw [← PFrame.pEq hfr1]; exact hpP
            · intro p hp c' hc' hpc' hvc'
              rcases List.mem_append.mp hp with hp1 | hp2
              · exact List.mem_append.mpr (Or.inl (hcomp1 p hp1 c' hc' hpc' hvc'))
              · refine List.mem_append.mpr (Or.inr (hcomp2 p hp2 c' ?_ ?_ ?_))
                · rw [PFrame.cEq hfr1]; exact hc'
                · rw [PFrame.pEq hfr1]; exact hpc'
                · rw [PFrame.vEq hfr1]; exact hvc'
            · intro c' hmem hpc hvc
              rcases List.mem_cons.mp hmem with hcc | hcs
              · subst hcc
                exact List.mem_append.mpr (Or.inl hcw)
              · refine List.mem_append.mpr (Or.inr (hlast2 c' hcs ?_ ?_))
                · rw [PFrame.pEq hfr1]; exact hpc
                · rw [PFrame.vEq hfr1]; exact hvc
      · rw [show Res.bind (ok u) (childStep f w c) = ok u from by
          rw [Res.bind_ok]; unfold childStep; rw [if_neg hc]] at h
        obtain ⟨L2, hfr2, hS2, hsound2, hcomp2, hlast2⟩ := ih u t hpd h
        refine ⟨L2, hfr2, hS2, ?_, hcomp2, ?_⟩
        · intro x hx
          obtain ⟨hv, hbr⟩ := hsound2 x hx
          refine ⟨hv, ?_⟩
          rcases hbr with ⟨hpw, hmem⟩ | hex
          · exact Or.inl ⟨hpw, List.mem_cons_of_mem c hmem⟩
          · exact Or.inr hex
        · intro c' hmem hpc hvc
          rcases List.mem_cons.mp hmem with hcc | hcs
          · subst hcc
            exact absurd ⟨hpc, hvc⟩ hc
          · exact hlast2 c' hcs hpc hvc

theorem processWillShow_spec : ∀ (fuel w : Nat) (s s' : State),
    processWillShow fuel w s = ok s' → passSpec true w s s' := by
  intro fuel
  induction fuel with
  | zero =>
      intro w s s' h
      exact absurd (congrArg Prod.snd h) (by simp [processWillShow, fail, ok])
  | succ fuel ih =>
      intro w s s' h
      rw [processWillShow_succ] at h
      obtain ⟨m, hm, hk⟩ := Res.bind_eq_ok h
      obtain ⟨L2, hfr2, hS2, hsound2, hcomp2, hlast2⟩ :=
        seqChildren_passSpec true w (processWillShow fuel) (fun _ => True)
          (fun _ _ => trivial) (fun c u u' _ hr => ih c u u' hr)
          (s.childrenInternal w) s m trivial hm
      have hmt : _ = s' := congrArg Prod.fst hk
      have hfr : PFrame m s' := by
        refine ⟨?_, ?_, ?_, ?_, ?_, ?_, ?_, ?_, ?_, ?_, ?_⟩ <;> (rw [← hmt]; rfl)
      have hS' : s'.isShowingInternal = fupd m.isShowingInternal w true := by
        rw [← hmt]; rfl
      refine ⟨w :: L2, List.mem_cons_self w L2, PFrame_trans hfr2 hfr, ?_, ?_, ?_⟩
      · intro x
        rw [hS', fupd_apply]
        by_cases hxw : x = w
        · simp [hxw, List.mem_cons]
        · rw [if_neg hxw, hS2 x]
          by_cases h2 : x ∈ L2
          · simp [h2, List.mem_cons, hxw]
          · simp [h2, List.mem_cons, hxw]
      · intro x hx
        rcases List.mem_cons.mp hx with hxw | hx2
        · exact Or.inl hxw
        · obtain ⟨hv, hbr⟩ := hsound2 x hx2
          refine Or.inr ⟨hv, ?_⟩
          rcases hbr with ⟨hpw, _⟩ | ⟨p, hpL, hpP⟩
          · exact ⟨w, List.mem_cons_self w L2, hpw⟩
          · exact ⟨p, List.mem_cons_of_mem w hpL, hpP⟩
      · intro p hp c' hc' hpc' hvc'
        rcases List.mem_cons.mp hp with hpw | hp2
        · rw [hpw] at hc' hpc'
          exact List.mem_cons_of_mem w (hlast2 c' hc' hpc' hvc')
        · exact List.mem_cons_of_mem w (hcomp2 p hp2 c' hc' hpc' hvc')

theorem processWillHide_spec : ∀ (fuel w : Nat) (s s' : State),
    (∀ x, s.notificationDepth x = 0) →
    processWillHide fuel w s = ok s' → passSpec false w s s' := by
  intro fuel
  induction fuel with
  | zero =>
      intro w s s' _ h
      exact absurd (congrArg Prod.snd h) (by simp [processWillHide, fail, ok])
  | succ fuel ih =>
      intro w s s' hg h
      rw [processWillHide_succ] at h
      cases hn : inNotificationB (fuel+1) s w with
      | none => rw [hn] at h; exact absurd (congrArg Prod.snd h) (by simp [fail, ok])
      | some b =>
          cases b with
          | true => exact absurd hn (inNotificationB_zero hg (fuel+1) w)
          | false =>
              rw [hn] at h
              dsimp only at h
              obtain ⟨m, hm, hk⟩ := Res.bind_eq_ok h
              rw [notify_willHide, Res.bind_ok] at hk
              obtain ⟨L2, hfr2, hS2, hsound2, hcomp2, hlast2⟩ :=
                seqChildren_passSpec false w (processWillHide fuel)
                  (fun u => ∀ x, u.notificationDepth x = 0)
                  (fun hab hpd x => by rw [PFrame.nEq hab]; exact hpd x)
                  (fun c u u' hpd hr => ih c u u' hpd hr)
                  ((storeScrollPositions w s).childrenInternal w)
                  (storeScrollPositions w s) m (fun x => hg x) hm
              have hmt : _ = s' := congrArg Prod.fst hk
              have hfr : PFrame m s' := by
                refine ⟨?_, ?_, ?_, ?_, ?_, ?_, ?_, ?_, ?_, ?_, ?_⟩ <;> (rw [← hmt]; rfl)
              have hS' : s'.isShowingInternal = fupd m.isShowingInternal w false := by
                rw [← hmt]; rfl
              have hfr0 : PFrame s (storeScrollPositions w s) := PFrame_refl s
              refine ⟨w :: L2, List.mem_cons_self w L2,
                PFrame_trans hfr0 (PFrame_trans hfr2 hfr), ?_, ?_, ?_⟩
              · intro x
                rw [hS', fupd_apply]
                by_cases hxw : x = w
                · simp [hxw, List.mem_cons]
                · rw [if_neg hxw, hS2 x]
                  by_cases h2 : x ∈ L2
                  · simp [h2, List.mem_cons, hxw, storeScrollPositions]
                  · simp [h2, List.mem_cons, hxw, storeScrollPositions]
              · intro x hx
                rcases List.mem_cons.mp hx with hxw | hx2
                · exact Or.inl hxw
                · obtain ⟨hv, hbr⟩ := hsound2 x hx2
                  refine Or.inr ⟨hv, ?_⟩
                  rcases hbr with ⟨hpw, _⟩ | ⟨p, hpL, hpP⟩
                  · exact ⟨w, List.mem_cons_self w L2, hpw⟩
                  · exact ⟨p, List.mem_cons_of_mem w hpL, hpP⟩
              · intro p hp c' hc' hpc' hvc'
                rcases List.mem_cons.mp hp with hpw | hp2
                · rw [hpw] at hc' hpc'
                  exact List.mem_cons_of_mem w (hlast2 c' hc' hpc' hvc')
                · exact List.mem_cons_of_mem w (hcomp2 p hp2 c' hc' hpc' hvc')

theorem PFrame.eEq {s t : State} (h : PFrame s t) : t.elems = s.elems := h.1

theorem PFrame.wEq {s t : State} (h : PFrame s t) :
    t.isWidgetElem = s.isWidgetElem := h.2.1

theorem PFrame.dEq {s t : State} (h : PFrame s t) : t.domParent = s.domParent :=
  h.2.2.1

theorem PFrame.rEq {s t : State} (h : PFrame s t) : t.isRoot = s.isRoot :=
  h.2.2.2.2.2.1

theorem PFrame.cntEq {s t : State} (h : PFrame s t) :
    t.widgetCounter = s.widgetCounter := h.2.2.2.1

theorem PFrame.emEq {s t : State} (h : PFrame s t) :
    t.externallyManaged = s.externallyManaged := h.2.2.2.2.2.2.2.2.2.1

/-- The quiescence invariant: the showing flag agrees with
`visible && parentIsShowing` on every widget, plus the structural side
conditions that keep it inductive (visible or parented widgets are in the
DOM, parented widgets are not roots, notification depths are zero, the
parent/child links are consistent, and all referenced ids are registered). -/
def Inv (s : State) : Prop :=
  (∀ x, s.isWidgetElem x = true →
    s.isShowingInternal x = (s.visibleInternal x && parentIsShowingB s x)) ∧
  (∀ x, s.visibleInternal x = true → s.domParent x ≠ none) ∧
  (∀ x, s.visibleInternal x = true → s.isRoot x = true ∨ s.parentWidgetInternal x ≠ none) ∧
  (∀ x, s.parentWidgetInternal x ≠ none → s.isRoot x = false) ∧
  (∀ x, s.parentWidgetInternal x ≠ none → s.domParent x ≠ none) ∧
  (∀ x, s.notificationDepth x = 0) ∧
  (∀ x q, s.parentWidgetInternal x = some q → x ∈ s.childrenInternal q) ∧
  (∀ x q, s.parentWidgetInternal x = some q → q ∈ s.elems) ∧
  (∀ q x, x ∈ s.childrenInternal q → x ∈ s.elems) ∧
  (∀ x, s.isWidgetElem x = true → x ∈ s.elems)

theorem Inv_transport {s t : State}
    (he : t.elems = s.elems) (hW : t.isWidgetElem = s.isWidgetElem)
    (hD : t.domParent = s.domParent) (hV : t.visibleInternal = s.visibleInternal)
    (hR : t.isRoot = s.isRoot) (hS : t.isShowingInternal = s.isShowingInternal)
    (hC : t.childrenInternal = s.childrenInternal)
    (hN : t.notificationDepth = s.notificationDepth)
    (hP : t.parentWidgetInternal = s.parentWidgetInternal)
    (h : Inv s) : Inv t := by
  obtain ⟨h1, h2, h3, h4, h5, h6, h7, h8, h9, h10⟩ := h
  refine ⟨?_, ?_, ?_, ?_, ?_, ?_, ?_, ?_, ?_, ?_⟩
  · intro x hx
    rw [hS, hV, parentIsShowingB_congr hR hP hS]
    exact h1 x (by rw [hW] at hx; exact hx)
  · intro x hx; rw [hD]; exact h2 x (by rw [hV] at hx; exact hx)
  · intro x hx; rw [hR, hP]; exact h3 x (by rw [hV] at hx; exact hx)
  · intro x hx; rw [hR]; exact h4 x (by rw [hP] at hx; exact hx)
  · intro x hx; rw [hD]; exact h5 x (by rw [hP] at hx; exact hx)
  · intro x; rw [hN]; exact h6 x
  · intro x q hx; rw [hC]; exact h7 x q (by rw [hP] at hx; exact hx)
  · intro x q hx; rw [he]; exact h8 x q (by rw [hP] at hx; exact hx)
  · intro q x hx; rw [he]; exact h9 q x (by rw [hC] at hx; exact hx)
  · intro x hx; rw [he]; exact h10 x (by rw [hW] at hx; exact hx)

theorem Inv_of_LFrame {s t : State} (h : LFrame s t) (hi : Inv s) : Inv t :=
  Inv_transport (PFrame.eEq h.1) (PFrame.wEq h.1) (PFrame.dEq h.1)
    (PFrame.vEq h.1) (PFrame.rEq h.1) h.2 (PFrame.cEq h.1) (PFrame.nEq h.1)
    (PFrame.pEq h.1) hi

/-- Effect of one hide operation (visible flag cleared at `w`, showing flag
cleared on the pass set `L`) on the showing invariant. -/
theorem wf_after_hide (s : State) (w : Nat) (L : List Nat)
    (hw1 : ∀ x, s.isWidgetElem x = true →
      s.isShowingInternal x = (s.visibleInternal x && parentIsShowingB s x))
    (hd : ∀ x, s.parentWidgetInternal x ≠ none → s.isRoot x = false)
    (hlink : ∀ x q, s.parentWidgetInternal x = some q → x ∈ s.childrenInternal q)
    (hvw : s.visibleInternal w = true)
    (hwmem : parentIsShowingB s w = true → w ∈ L)
    (hsound : ∀ c ∈ L, c = w ∨ ((fupd s.visibleInternal w false) c = true ∧
      ∃ p, p ∈ L ∧ s.parentWidgetInternal c = some p))
    (hcomp : ∀ p ∈ L, ∀ c ∈ s.childrenInternal p, s.parentWidgetInternal c = some p →
      (fupd s.visibleInternal w false) c = true → c ∈ L)
    (t : State)
    (htV : t.visibleInternal = fupd s.visibleInternal w false)
    (htS : ∀ x, t.isShowingInternal x = (if x ∈ L then false else s.isShowingInternal x))
    (htR : t.isRoot = s.isRoot) (htP : t.parentWidgetInternal = s.parentWidgetInternal)
    (htW : t.isWidgetElem = s.isWidgetElem) :
    ∀ x, t.isWidgetElem x = true →
      t.isShowingInternal x = (t.visibleInternal x && parentIsShowingB t x) := by
  intro x hx
  rw [htW] at hx
  by_cases hxL : x ∈ L
  · rw [htS x, if_pos hxL]
    by_cases hxw : x = w
    · rw [hxw, htV]
      simp
    · rcases hsound x hxL with h1 | ⟨hvx, p, hpL, hpP⟩
      · exact absurd h1 hxw
      · have hR : s.isRoot x = false := hd x (by rw [hpP]; exact fun hh => Option.noConfusion hh)
        have hSp : t.isShowingInternal p = false := by rw [htS p, if_pos hpL]
        have hpis : parentIsShowingB t x = false := by
          unfold parentIsShowingB
          rw [htR, htP, hR, hpP]
          simpa using hSp
        rw [hpis]
        simp
  · rw [htS x, if_neg hxL]
    by_cases hxw : x = w
    · rw [hxw] at hxL hx ⊢
      have hpis : parentIsShowingB s w = false := by
        cases hh : parentIsShowingB s w
        · rfl
        · exact absurd (hwmem hh) hxL
      rw [hw1 w hx, hvw, hpis, htV]
      simp
    · rw [hw1 x hx]
      have hV : t.visibleInternal x = s.visibleInternal x := by
        rw [htV]; exact fupd_ne _ _ _ hxw
      cases hvx : s.visibleInternal x with
      | false => rw [hV, hvx]; simp
      | true =>
          have hpis : parentIsShowingB t x = parentIsShowingB s x := by
            unfold parentIsShowingB
            rw [htR, htP]
            cases hpx : s.parentWidgetInternal x with
            | none => rfl
            | some q =>
                dsimp only
                by_cases hqL : q ∈ L
                · exact absurd (hcomp q hqL x (hlink x q hpx) hpx
                    (by rw [fupd_ne _ _ _ hxw]; exact hvx)) hxL
                · rw [htS q, if_neg hqL]
          rw [hV, hpis, hvx]

/-- Effect of one show operation whose will-show pass ran. -/
theorem wf_after_show (s : State) (w : Nat) (L : List Nat)
    (hw1 : ∀ x, s.isWidgetElem x = true →
      s.isShowingInternal x = (s.visibleInternal x && parentIsShowingB s x))
    (hlink : ∀ x q, s.parentWidgetInternal x = some q → x ∈ s.childrenInternal q)
    (hpisw : parentIsShowingB s w = true)
    (hwmem : w ∈ L)
    (hsound : ∀ c ∈ L, c = w ∨ ((fupd s.visibleInternal w true) c = true ∧
      ∃ p, p ∈ L ∧ s.parentWidgetInternal c = some p))
    (hcomp : ∀ p ∈ L, ∀ c ∈ s.childrenInternal p, s.parentWidgetInternal c = some p →
      (fupd s.visibleInternal w true) c = true → c ∈ L)
    (t : State)
    (htV : t.visibleInternal = fupd s.visibleInternal w true)
    (htS : ∀ x, t.isShowingInternal x = (if x ∈ L then true else s.isShowingInternal x))
    (htR : t.isRoot = s.isRoot) (htP : t.parentWidgetInternal = s.parentWidgetInternal)
    (htW : t.isWidgetElem = s.isWidgetElem) :
    ∀ x, t.isWidgetElem x = true →
      t.isShowingInternal x = (t.visibleInternal x && parentIsShowingB t x) := by
  intro x hx
  rw [htW] at hx
  by_cases hxL : x ∈ L
  · rw [htS x, if_pos hxL]
    by_cases hxw : x = w
    · rw [hxw]
      have hVt : t.visibleInternal w = true := by rw [htV]; simp
      have hpis : parentIsShowingB t w = true := by
        unfold parentIsShowingB at hpisw ⊢
        rw [htR, htP]
        by_cases hrw : s.isRoot w = true
        · rw [if_pos hrw]
        · rw [if_neg hrw] at hpisw ⊢
          cases hpw : s.parentWidgetInternal w with
          | none => rw [hpw] at hpisw; exact absurd hpisw (by simp)
          | some p =>
              rw [hpw] at hpisw
              dsimp only at hpisw ⊢
              rw [htS p]
              by_cases hpL : p ∈ L
              · rw [if_pos hpL]
              · rw [if_neg hpL]; exact hpisw
      rw [hVt, hpis]
      rfl
    · rcases hsound x hxL with h1 | ⟨hvx, p, hpL, hpP⟩
      · exact absurd h1 hxw
      · have hVt : t.visibleInternal x = true := by rw [htV]; exact hvx
        have hSp : t.isShowingInternal p = true := by rw [htS p, if_pos hpL]
        have hpis : parentIsShowingB t x = true := by
          unfold parentIsShowingB
          rw [htR, htP, hpP]
          by_cases hrx : s.isRoot x = true
          · rw [if_pos hrx]
          · rw [if_neg hrx]
            dsimp only
            exact hSp
        rw [hVt, hpis]
        rfl
  · have hxw : x ≠ w := fun hh => hxL (by rw [hh]; exact hwmem)
    rw [htS x, if_neg hxL, hw1 x hx]
    have hV : t.visibleInternal x = s.visibleInternal x := by
      rw [htV]; exact fupd_ne _ _ _ hxw
    cases hvx : s.visibleInternal x with
    | false => rw [hV, hvx]; simp
    | true =>
        have hpis : parentIsShowingB t x = parentIsShowingB s x := by
          unfold parentIsShowingB
          rw [htR, htP]
          cases hpx : s.parentWidgetInternal x with
          | none => rfl
          | some q =>
              dsimp only
              by_cases hqL : q ∈ L
              · exact absurd (hcomp q hqL x (hlink x q hpx) hpx
                  (by rw [fupd_ne _ _ _ hxw]; exact hvx)) hxL
              · rw [htS q, if_neg hqL]
        rw [hV, hpis, hvx]

/-- Effect of a show operation whose will-show pass did not run (already
visible, or the parent chain not showing). -/
theorem wf_noshow (s : State) (w : Nat)
    (hw1 : ∀ x, s.isWidgetElem x = true →
      s.isShowingInternal x = (s.visibleInternal x && parentIsShowingB s x))
    (hnp : s.visibleInternal w = true ∨ parentIsShowingB s w = false)
    (t : State)
    (htV : t.visibleInternal = fupd s.visibleInternal w true)
    (htS : t.isShowingInternal = s.isShowingInternal)
    (htR : t.isRoot = s.isRoot) (htP : t.parentWidgetInternal = s.parentWidgetInternal)
    (htW : t.isWidgetElem = s.isWidgetElem) :
    ∀ x, t.isWidgetElem x = true →
      t.isShowingInternal x = (t.visibleInternal x && parentIsShowingB t x) := by
  intro x hx
  rw [htW] at hx
  rw [htS, hw1 x hx, parentIsShowingB_congr htR htP htS]
  by_cases hxw : x = w
  · rw [hxw, htV]
    rcases hnp with hv | hp
    · rw [hv]; simp
    · rw [hp]; simp
  · rw [htV, fupd_ne _ _ _ hxw]

theorem setHideOnDetach_inv (w : Nat) (s t : State)
    (h : setHideOnDetach w s = ok t) (hi : Inv s) : Inv t := by
  have hh : _ = t := congrArg Prod.fst h
  refine Inv_transport ?_ ?_ ?_ ?_ ?_ ?_ ?_ ?_ ?_ hi <;> (rw [← hh]; rfl)

theorem markAsExternallyManaged_inv (w : Nat) (s t : State)
    (h : markAsExternallyManaged w s = ok t) (hi : Inv s) : Inv t := by
  rw [markAsExternallyManaged] at h
  by_cases hp : s.parentWidgetInternal w ≠ none
  · rw [if_pos hp] at h
    exact absurd (congrArg Prod.snd h) (by simp [fail, ok])
  · rw [if_neg hp] at h
    have hh : _ = t := congrArg Prod.fst h
    refine Inv_transport ?_ ?_ ?_ ?_ ?_ ?_ ?_ ?_ ?_ hi <;> (rw [← hh]; rfl)

theorem suspendInvalidations_inv (w : Nat) (s t : State)
    (h : suspendInvalidations w s = ok t) (hi : Inv s) : Inv t := by
  have hh : _ = t := congrArg Prod.fst h
  refine Inv_transport ?_ ?_ ?_ ?_ ?_ ?_ ?_ ?_ ?_ hi <;> (rw [← hh]; rfl)

theorem resumeInvalidations_inv (fuel w : Nat) (s t : State)
    (h : resumeInvalidations fuel w s = ok t) (hi : Inv s) : Inv t := by
  rw [resumeInvalidations] at h
  dsimp only at h
  split at h
  · have hh : _ = t := congrArg Prod.fst h
    have hfr : LFrame s t := by
      rw [← hh]
      exact LFrame_trans ⟨⟨rfl, rfl, rfl, rfl, rfl, rfl, rfl, rfl, rfl, rfl, rfl⟩, rfl⟩
        (invalidateConstraints_LFrame fuel w _)
    exact Inv_of_LFrame hfr hi
  · have hh : _ = t := congrArg Prod.fst h
    have hfr : LFrame s t := by
      rw [← hh]
      exact ⟨⟨rfl, rfl, rfl, rfl, rfl, rfl, rfl, rfl, rfl, rfl, rfl⟩, rfl⟩
    exact Inv_of_LFrame hfr hi

theorem setMinimumSize_inv (fuel w : Nat) (a b : Int) (s t : State)
    (h : setMinimumSize fuel w a b s = ok t) (hi : Inv s) : Inv t := by
  rw [setMinimumSize] at h
  have hh : _ = t := congrArg Prod.fst h
  have hfr : LFrame s t := by
    rw [← hh]
    exact LFrame_trans ⟨⟨rfl, rfl, rfl, rfl, rfl, rfl, rfl, rfl, rfl, rfl, rfl⟩, rfl⟩
      (invalidateConstraints_LFrame fuel w _)
  exact Inv_of_LFrame hfr hi

theorem markAsRoot_inv (w : Nat) (s t : State)
    (h : markAsRoot w s = ok t) (hi : Inv s) : Inv t := by
  rw [markAsRoot] at h
  by_cases hD : s.domParent w ≠ none
  · rw [if_pos hD] at h
    exact absurd (congrArg Prod.snd h) (by simp [fail, ok])
  · rw [if_neg hD] at h
    have hDe : s.domParent w = none := not_ne_iff.mp hD
    obtain ⟨h1, h2, h3, h4, h5, h6, h7, h8, h9, h10⟩ := hi
    have hVw : s.visibleInternal w = false := by
      cases hv : s.visibleInternal w
      · rfl
      · exact absurd hDe (h2 w hv)
    have hPw : s.parentWidgetInternal w = none := by
      cases hp : s.parentWidgetInternal w with
      | none => rfl
      | some p => exact absurd hDe (h5 w (by rw [hp]; exact fun hh => Option.noConfusion hh))
    have hh : _ = t := congrArg Prod.fst h
    have htR : t.isRoot = fupd s.isRoot w true := by rw [← hh]; rfl
    have htE : t.elems = s.elems := by rw [← hh]; rfl
    have htW : t.isWidgetElem = s.isWidgetElem := by rw [← hh]; rfl
    have htD : t.domParent = s.domParent := by rw [← hh]; rfl
    have htV : t.visibleInternal = s.visibleInternal := by rw [← hh]; rfl
    have htS : t.isShowingInternal = s.isShowingInternal := by rw [← hh]; rfl
    have htC : t.childrenInternal = s.childrenInternal := by rw [← hh]; rfl
    have htN : t.notificationDepth = s.notificationDepth := by rw [← hh]; rfl
    have htP : t.parentWidgetInternal = s.parentWidgetInternal := by rw [← hh]; rfl
    refine ⟨?_, ?_, ?_, ?_, ?_, ?_, ?_, ?_, ?_, ?_⟩
    · intro x hx
      rw [htW] at hx
      rw [htS, htV]
      by_cases hxw : x = w
      · rw [hxw] at hx
        rw [hxw, h1 w hx, hVw]
        simp
      · have hcg : parentIsShowingB t x = parentIsShowingB s x := by
          unfold parentIsShowingB
          rw [htR, htP, htS, fupd_ne _ _ _ hxw]
        rw [hcg]
        exact h1 x hx
    · intro x hx; rw [htD]; exact h2 x (by rw [htV] at hx; exact hx)
    · intro x hx
      rw [htV] at hx
      rw [htR, htP]
      by_cases hxw : x = w
      · rw [hxw]
        exact Or.inl (by simp)
      · rw [fupd_ne _ _ _ hxw]
        exact h3 x hx
    · intro x hx
      rw [htP] at hx
      rw [htR]
      by_cases hxw : x = w
      · rw [hxw] at hx
        exact absurd hPw hx
      · rw [fupd_ne _ _ _ hxw]
        exact h4 x hx
    · intro x hx; rw [htP] at hx; rw [htD]; exact h5 x hx
    · intro x; rw [htN]; exact h6 x
    · intro x q hx; rw [htP] at hx; rw [htC]; exact h7 x q hx
    · intro x q hx; rw [htP] at hx; rw [htE]; exact h8 x q hx
    · intro q x hx; rw [htC] at hx; rw [htE]; exact h9 q x hx
    · intro x hx; rw [htW] at hx; rw [htE]; exact h10 x hx

/-- Registering a fresh id (as widget or plain element) preserves the
invariant: all its per-id fields start in their cleared state. -/
theorem Inv_fresh (s t : State) (id : Nat) (wv : Bool) (dv : Option Nat)
    (hmem : id ∉ s.elems) (hi : Inv s)
    (htE : t.elems = id :: s.elems)
    (htW : t.isWidgetElem = fupd s.isWidgetElem id wv)
    (htD : t.domParent = fupd s.domParent id dv)
    (htV : t.visibleInternal = fupd s.visibleInternal id false)
    (htR : t.isRoot = fupd s.isRoot id false)
    (htS : t.isShowingInternal = fupd s.isShowingInternal id false)
    (htC : t.childrenInternal = fupd s.childrenInternal id [])
    (htN : t.notificationDepth = fupd s.notificationDepth id 0)
    (htP : t.parentWidgetInternal = fupd s.parentWidgetInternal id none) :
    Inv t := by
  obtain ⟨h1, h2, h3, h4, h5, h6, h7, h8, h9, h10⟩ := hi
  have hq : ∀ x, s.parentWidgetInternal x ≠ some id :=
    fun x hpx => hmem (h8 x id hpx)
  refine ⟨?_, ?_, ?_, ?_, ?_, ?_, ?_, ?_, ?_, ?_⟩
  · intro x hx
    by_cases hxid : x = id
    · rw [hxid, htS, htV]
      simp
    · rw [htW, fupd_ne _ _ _ hxid] at hx
      rw [htS, htV, fupd_ne _ _ _ hxid, fupd_ne _ _ _ hxid]
      have hcg : parentIsShowingB t x = parentIsShowingB s x := by
        unfold parentIsShowingB
        rw [htR, htP, fupd_ne _ _ _ hxid, fupd_ne _ _ _ hxid]
        cases hpx : s.parentWidgetInternal x with
        | none => rfl
        | some q =>
            dsimp only
            have hqid : q ≠ id := fun hh => hq x (by rw [hpx, hh])
            rw [htS, fupd_ne _ _ _ hqid]
      rw [hcg]
      exact h1 x hx
  · intro x hx
    rw [htV] at hx
    by_cases hxid : x = id
    · rw [hxid, fupd_same] at hx
      exact Bool.noConfusion hx
    · rw [fupd_ne _ _ _ hxid] at hx
      rw [htD, fupd_ne _ _ _ hxid]
      exact h2 x hx
  · intro x hx
    rw [htV] at hx
    by_cases hxid : x = id
    · rw [hxid, fupd_same] at hx
      exact Bool.noConfusion hx
    · rw [fupd_ne _ _ _ hxid] at hx
      rw [htR, htP, fupd_ne _ _ _ hxid, fupd_ne _ _ _ hxid]
      exact h3 x hx
  · intro x hx
    rw [htP] at hx
    by_cases hxid : x = id
    · rw [hxid, fupd_same] at hx
      exact absurd rfl hx
    · rw [fupd_ne _ _ _ hxid] at hx
      rw [htR, fupd_ne _ _ _ hxid]
      exact h4 x hx
  · intro x hx
    rw [htP] at hx
    by_cases hxid : x = id
    · rw [hxid, fupd_same] at hx
      exact absurd rfl hx
    · rw [fupd_ne _ _ _ hxid] at hx
      rw [htD, fupd_ne _ _ _ hxid]
      exact h5 x hx
  · intro x
    rw [htN]
    by_cases hxid : x = id
    · rw [hxid, fupd_same]
    · rw [fupd_ne _ _ _ hxid]
      exact h6 x
  · intro x q hx
    rw [htP] at hx
    by_cases hxid : x = id
    · rw [hxid, fupd_same] at hx
      exact Option.noConfusion hx
    · rw [fupd_ne _ _ _ hxid] at hx
      have hqid : q ≠ id := fun hh => hq x (by rw [hx, hh])
      rw [htC, fupd_ne _ _ _ hqid]
      exact h7 x q hx
  · intro x q hx
    rw [htP] at hx
    by_cases hxid : x = id
    · rw [hxid, fupd_same] at hx
      exact Option.noConfusion hx
    · rw [fupd_ne _ _ _ hxid] at hx
      rw [htE]
      exact List.mem_cons_of_mem id (h8 x q hx)
  · intro q x hx
    rw [htC] at hx
    by_cases hqid : q = id
    · rw [hqid, fupd_same] at hx
      exact absurd hx (List.not_mem_nil x)
    · rw [fupd_ne _ _ _ hqid] at hx
      rw [htE]
      exact List.mem_cons_of_mem id (h9 q x hx)
  · intro x hx
    rw [htE]
    by_cases hxid : x = id
    · rw [hxid]
      exact List.mem_cons_self id s.elems
    · rw [htW, fupd_ne _ _ _ hxid] at hx
      exact List.mem_cons_of_mem id (h10 x hx)

theorem newWidget_inv (id : Nat) (kind : WidgetKind) (s t : State)
    (h : newWidget id kind s = ok t) (hi : Inv s) : Inv t := by
  rw [newWidget] at h
  by_cases hmem : id ∈ s.elems
  · rw [if_pos hmem] at h
    exact absurd (congrArg Prod.snd h) (by simp [fail, ok])
  · rw [if_neg hmem] at h
    have hh : _ = t := congrArg Prod.fst h
    refine Inv_fresh s t id true none hmem hi ?_ ?_ ?_ ?_ ?_ ?_ ?_ ?_ ?_ <;>
      (rw [← hh]; rfl)

theorem originalAppendChild_desc (fuel el node : Nat) (s t : State)
    (h : originalAppendChild fuel el node s = ok t) :
    t = {s with domParent := fupd s.domParent node (some el)} := by
  rw [originalAppendChild] at h
  cases hi : inclusiveAncestorB fuel s node el with
  | none => rw [hi] at h; exact absurd (congrArg Prod.snd h) (by simp [fail, ok])
  | some b =>
      cases b with
      | true => rw [hi] at h; exact absurd (congrArg Prod.snd h) (by simp [fail, ok])
      | false =>
          rw [hi] at h
          exact (congrArg Prod.fst h).symm

theorem appendChild_nonwidget_desc (fuel el node : Nat) (s t : State)
    (hn : s.isWidgetElem node = false)
    (h : appendChild fuel el node s = ok t) :
    t = {s with domParent := fupd s.domParent node (some el)} := by
  rw [appendChild, if_neg (by rintro ⟨hc1, _⟩; rw [hn] at hc1; exact Bool.noConfusion hc1)] at h
  exact originalAppendChild_desc fuel el node s t h

theorem newElement_inv (fuel id : Nat) (parent : Option Nat) (s t : State)
    (h : newElement fuel id parent s = ok t) (hi : Inv s) : Inv t := by
  rw [newElement] at h
  by_cases hmem : id ∈ s.elems
  · rw [if_pos hmem] at h
    exact absurd (congrArg Prod.snd h) (by simp [fail, ok])
  · rw [if_neg hmem] at h
    dsimp only at h
    cases parent with
    | none =>
        dsimp only at h
        have hh : _ = t := congrArg Prod.fst h
        refine Inv_fresh s t id false none hmem hi ?_ ?_ ?_ ?_ ?_ ?_ ?_ ?_ ?_ <;>
          (rw [← hh]; rfl)
    | some p =>
        dsimp only at h
        by_cases hpe : p ∈ s.elems
        · rw [if_pos hpe] at h
          have hdesc := appendChild_nonwidget_desc fuel p id _ t (by simp [fupd]) h
          refine Inv_fresh s t id false (some p) hmem hi ?_ ?_ ?_ ?_ ?_ ?_ ?_ ?_ ?_ <;>
            rw [hdesc]
          exact fupd_fupd s.domParent id none (some p)
        · rw [if_neg hpe] at h
          exact absurd (congrArg Prod.snd h) (by simp [fail, ok])

/-- What one `hideWidgetInternal` run does to the invariant-relevant state:
the visible flag of `w` is cleared, the showing flags of a pass set `L`
(with the will-hide soundness/completeness properties) are cleared, the
element leaves the DOM exactly when `removeFromDOM` was passed, and
everything else the invariant watches is unchanged. -/
theorem hideWidgetInternal_desc (fuel : Nat) (w : Nat) (rm : Bool) (s t : State)
    (hg : ∀ x, s.notificationDepth x = 0)
    (h : hideWidgetInternal fuel w rm s = ok t) :
    ∃ L : List Nat,
      t.elems = s.elems ∧ t.isWidgetElem = s.isWidgetElem ∧
      t.visibleInternal = fupd s.visibleInternal w false ∧
      t.isRoot = s.isRoot ∧ t.parentWidgetInternal = s.parentWidgetInternal ∧
      t.childrenInternal = s.childrenInternal ∧
      t.notificationDepth = s.notificationDepth ∧
      t.domParent = (if rm then fupd s.domParent w none else s.domParent) ∧
      (∀ x, t.isShowingInternal x = (if x ∈ L then false else s.isShowingInternal x)) ∧
      (parentIsShowingB s w = true → w ∈ L) ∧
      (∀ c ∈ L, c = w ∨ ((fupd s.visibleInternal w false) c = true ∧
        ∃ p, p ∈ L ∧ s.parentWidgetInternal c = some p)) ∧
      (∀ p ∈ L, ∀ c ∈ s.childrenInternal p, s.parentWidgetInternal c = some p →
        (fupd s.visibleInternal w false) c = true → c ∈ L) ∧
      t.externallyManaged = s.externallyManaged ∧
      (rm = false → t.widgetCounter = s.widgetCounter) := by
  rw [hideWidgetInternal] at h
  dsimp only at h
  obtain ⟨s2, h2, hrest⟩ := Res.bind_eq_ok h
  have hstageA : ∃ L : List Nat,
      s2.elems = s.elems ∧ s2.isWidgetElem = s.isWidgetElem ∧
      s2.visibleInternal = fupd s.visibleInternal w false ∧
      s2.isRoot = s.isRoot ∧ s2.parentWidgetInternal = s.parentWidgetInternal ∧
      s2.childrenInternal = s.childrenInternal ∧
      s2.notificationDepth = s.notificationDepth ∧
      s2.domParent = s.domParent ∧
      (∀ x, s2.isShowingInternal x = (if x ∈ L then false else s.isShowingInternal x)) ∧
      (parentIsShowingB s w = true → w ∈ L) ∧
      (∀ c ∈ L, c = w ∨ ((fupd s.visibleInternal w false) c = true ∧
        ∃ p, p ∈ L ∧ s.parentWidgetInternal c = some p)) ∧
      (∀ p ∈ L, ∀ c ∈ s.childrenInternal p, s.parentWidgetInternal c = some p →
        (fupd s.visibleInternal w false) c = true → c ∈ L) ∧
      s2.externallyManaged = s.externallyManaged ∧
      s2.widgetCounter = s.widgetCounter := by
    by_cases hpis : parentIsShowingB
        {s with visibleInternal := fupd s.visibleInternal w false} w = true
    · rw [if_pos hpis] at h2
      obtain ⟨L, hwL, hfrA, hSA, hsoundA, hcompA⟩ :=
        processWillHide_spec fuel w
          {s with visibleInternal := fupd s.visibleInternal w false} s2
          (fun x => hg x) h2
      exact ⟨L, (PFrame.eEq hfrA : _), (PFrame.wEq hfrA : _), (PFrame.vEq hfrA : _),
        (PFrame.rEq hfrA : _), (PFrame.pEq hfrA : _), (PFrame.cEq hfrA : _),
        (PFrame.nEq hfrA : _), (PFrame.dEq hfrA : _),
        (fun x => hSA x : _), fun _ => hwL, (hsoundA : _), (hcompA : _),
        (PFrame.emEq hfrA : _), (PFrame.cntEq hfrA : _)⟩
    · rw [if_neg hpis] at h2
      have hs2 : _ = s2 := congrArg Prod.fst h2
      refine ⟨[], ?_, ?_, ?_, ?_, ?_, ?_, ?_, ?_, ?_, ?_, ?_, ?_, ?_, ?_⟩
      · rw [← hs2]; rfl
      · rw [← hs2]; rfl
      · rw [← hs2]; rfl
      · rw [← hs2]; rfl
      · rw [← hs2]; rfl
      · rw [← hs2]; rfl
      · rw [← hs2]; rfl
      · rw [← hs2]; rfl
      · intro x; rw [← hs2]; simp [ok]
      · intro hcontra; exact absurd hcontra hpis
      · intro c hc; exact absurd hc (List.not_mem_nil c)
      · intro p hp; exact absurd hp (List.not_mem_nil p)
      · rw [← hs2]; rfl
      · rw [← hs2]; rfl
  obtain ⟨L, hAE, hAW, hAV, hAR, hAP, hAC, hAN, hAD, hLS, hLw, hLsound, hLcomp,
    hAEM, hAcnt⟩ := hstageA
  obtain ⟨s4, hB, hrest2⟩ := Res.bind_eq_ok hrest
  have hstageB : s4.elems = s2.elems ∧ s4.isWidgetElem = s2.isWidgetElem ∧
      s4.visibleInternal = s2.visibleInternal ∧ s4.isRoot = s2.isRoot ∧
      s4.parentWidgetInternal = s2.parentWidgetInternal ∧
      s4.childrenInternal = s2.childrenInternal ∧
      s4.notificationDepth = s2.notificationDepth ∧
      s4.isShowingInternal = s2.isShowingInternal ∧
      s4.domParent = (if rm then fupd s2.domParent w none else s2.domParent) ∧
      s4.externallyManaged = s2.externallyManaged ∧
      (rm = false → s4.widgetCounter = s2.widgetCounter) := by
    by_cases hrm : rm = true
    · rw [if_pos hrm] at hB
      cases hpe : s.domParent w with
      | some pe =>
          rw [hpe] at hB
          dsimp only at hB
          obtain ⟨s3b, hB1, hB2⟩ := Res.bind_eq_ok hB
          obtain ⟨s3a, hdec, hrc⟩ := Res.bind_eq_ok hB1
          have hdec1 : _ = s3a := congrArg Prod.fst hdec
          have hfr3a : s3a = {s2 with widgetCounter := s3a.widgetCounter} := by
            rw [← hdec1]
            exact decrementWidgetCounter_frame fuel pe w s2
          have hD3a : s3a.domParent w = some pe := by
            rw [hfr3a]
            rw [show ({s2 with widgetCounter := s3a.widgetCounter} : State).domParent
              = s2.domParent from rfl, hAD]
            exact hpe
          rw [originalRemoveChild, if_pos hD3a] at hrc
          have hs3b : _ = s3b := congrArg Prod.fst hrc
          have hs4 : _ = s4 := congrArg Prod.fst hB2
          refine ⟨?_, ?_, ?_, ?_, ?_, ?_, ?_, ?_, ?_, ?_,
            fun hc => Bool.noConfusion (hc.symm.trans hrm)⟩ <;>
            (rw [← hs4, ← hs3b, hfr3a]; (try rw [if_pos hrm]); (try rfl))
      | none =>
          rw [hpe] at hB
          dsimp only at hB
          have hs4 : _ = s4 := congrArg Prod.fst hB
          have hDn : s2.domParent w = none := by rw [hAD]; exact hpe
          refine ⟨?_, ?_, ?_, ?_, ?_, ?_, ?_, ?_, ?_, ?_,
            fun hc => Bool.noConfusion (hc.symm.trans hrm)⟩
          · rw [← hs4]; rfl
          · rw [← hs4]; rfl
          · rw [← hs4]; rfl
          · rw [← hs4]; rfl
          · rw [← hs4]; rfl
          · rw [← hs4]; rfl
          · rw [← hs4]; rfl
          · rw [← hs4]; rfl
          · rw [← hs4, if_pos hrm]
            exact (fupd_eq_self s2.domParent w hDn.symm).symm
          · rw [← hs4]; rfl
    · rw [if_neg hrm] at hB
      have hs4 : _ = s4 := congrArg Prod.fst hB
      refine ⟨?_, ?_, ?_, ?_, ?_, ?_, ?_, ?_, ?_, ?_, fun hc => ?_⟩
      · rw [← hs4]; rfl
      · rw [← hs4]; rfl
      · rw [← hs4]; rfl
      · rw [← hs4]; rfl
      · rw [← hs4]; rfl
      · rw [← hs4]; rfl
      · rw [← hs4]; rfl
      · rw [← hs4]; rfl
      · rw [← hs4, if_neg hrm]
        rfl
      · rw [← hs4]; rfl
      · rw [← hs4]; rfl
  obtain ⟨hBE, hBW, hBV, hBR, hBP, hBC, hBN, hBS, hBD, hBEM, hBcnt⟩ := hstageB
  obtain ⟨s5, hC, hD⟩ := Res.bind_eq_ok hrest2
  have hs5 : s5 = s4 := by
    split at hC
    · exact (congrArg Prod.fst hC).symm.trans (processWasHidden_pure fuel w s4)
    · exact (congrArg Prod.fst hC).symm
  have hDfr : LFrame s5 t := by
    cases hp5 : s5.parentWidgetInternal w with
    | none =>
        rw [hp5] at hD
        dsimp only at hD
        have hh2 : s5 = t := congrArg Prod.fst hD
        rw [← hh2]
        exact LFrame_refl s5
    | some p =>
        rw [hp5] at hD
        dsimp only at hD
        cases hnz : hasNonZeroConstraintsM fuel w s5 with
        | none =>
            rw [hnz] at hD
            exact absurd (congrArg Prod.snd hD) (by simp [fail, ok])
        | some bp =>
            obtain ⟨b, s6⟩ := bp
            rw [hnz] at hD
            dsimp only at hD
            have hfr56 : LFrame s5 s6 := hasNonZeroConstraintsM_LFrame fuel w s5 b s6 hnz
            split at hD
            · refine LFrame_trans hfr56 ?_
              have hh : _ = t := congrArg Prod.fst hD
              rw [← hh]
              exact invalidateConstraints_LFrame fuel p s6
            · have hh2 : s6 = t := congrArg Prod.fst hD
              rw [← hh2]
              exact hfr56
  rw [hs5] at hDfr
  refine ⟨L, ?_, ?_, ?_, ?_, ?_, ?_, ?_, ?_, ?_, hLw, hLsound, hLcomp, ?_, ?_⟩
  · rw [PFrame.eEq hDfr.1, hBE, hAE]
  · rw [PFrame.wEq hDfr.1, hBW, hAW]
  · rw [PFrame.vEq hDfr.1, hBV, hAV]
  · rw [PFrame.rEq hDfr.1, hBR, hAR]
  · rw [PFrame.pEq hDfr.1, hBP, hAP]
  · rw [PFrame.cEq hDfr.1, hBC, hAC]
  · rw [PFrame.nEq hDfr.1, hBN, hAN]
  · rw [PFrame.dEq hDfr.1, hBD, hAD]
  · intro x
    rw [hDfr.2, hBS, hLS x]
  · rw [PFrame.emEq hDfr.1, hBEM, hAEM]
  · intro hc
    rw [PFrame.cntEq hDfr.1, hBcnt hc, hAcnt]

/-- `Inv` with the attached-implies-in-DOM clause weakened to hold away
from one distinguished widget `w` (the intermediate state in the middle of
a `detach`, after the element left the DOM but before the parent link is
cleared). -/
def InvX (w : Nat) (s : State) : Prop :=
  (∀ x, s.isWidgetElem x = true →
    s.isShowingInternal x = (s.visibleInternal x && parentIsShowingB s x)) ∧
  (∀ x, s.visibleInternal x = true → s.domParent x ≠ none) ∧
  (∀ x, s.visibleInternal x = true → s.isRoot x = true ∨ s.parentWidgetInternal x ≠ none) ∧
  (∀ x, s.parentWidgetInternal x ≠ none → s.isRoot x = false) ∧
  (∀ x, x ≠ w → s.parentWidgetInternal x ≠ none → s.domParent x ≠ none) ∧
  (∀ x, s.notificationDepth x = 0) ∧
  (∀ x q, s.parentWidgetInternal x = some q → x ∈ s.childrenInternal q) ∧
  (∀ x q, s.parentWidgetInternal x = some q → q ∈ s.elems) ∧
  (∀ q x, x ∈ s.childrenInternal q → x ∈ s.elems) ∧
  (∀ x, s.isWidgetElem x = true → x ∈ s.elems)

theorem Inv_of_InvX (w : Nat) (t : State) (hx : InvX w t)
    (hp : t.parentWidgetInternal w = none) : Inv t := by
  obtain ⟨h1, h2, h3, h4, h5, h6, h7, h8, h9, h10⟩ := hx
  refine ⟨h1, h2, h3, h4, ?_, h6, h7, h8, h9, h10⟩
  intro x hxp
  by_cases hxw : x = w
  · rw [hxw] at hxp
    exact absurd hp hxp
  · exact h5 x hxw hxp

/-- `hideWidgetInternal` on a visible widget preserves the (weakened)
invariant and leaves a precisely described state. -/
theorem hideWidgetInternal_invx (fuel w : Nat) (rm : Bool) (s s2 : State)
    (h : hideWidgetInternal fuel w rm s = ok s2) (hi : Inv s)
    (hvw : s.visibleInternal w = true) :
    InvX w s2 ∧ s2.visibleInternal = fupd s.visibleInternal w false ∧
    s2.parentWidgetInternal = s.parentWidgetInternal ∧
    s2.childrenInternal = s.childrenInternal ∧
    s2.isWidgetElem = s.isWidgetElem ∧ s2.elems = s.elems ∧
    s2.isRoot = s.isRoot ∧ s2.notificationDepth = s.notificationDepth ∧
    s2.domParent = (if rm then fupd s.domParent w none else s.domParent) := by
  obtain ⟨h1, h2, h3, h4, h5, h6, h7, h8, h9, h10⟩ := hi
  obtain ⟨L, htE, htW, htV, htR, htP, htC, htN, htD, hLS, hLw, hLsound, hLcomp, htEM, htcnt⟩ :=
    hideWidgetInternal_desc fuel w rm s s2 h6 h
  have hDne : ∀ x, x ≠ w → s2.domParent x = s.domParent x := by
    intro x hxw
    rw [htD]
    by_cases hrm : rm = true
    · rw [if_pos hrm]
      exact fupd_ne _ _ _ hxw
    · rw [if_neg hrm]
  refine ⟨⟨?_, ?_, ?_, ?_, ?_, ?_, ?_, ?_, ?_, ?_⟩, htV, htP, htC, htW, htE, htR, htN, htD⟩
  · exact wf_after_hide s w L h1 h4 h7 hvw hLw hLsound hLcomp s2 htV hLS htR htP htW
  · intro x hx
    rw [htV] at hx
    by_cases hxw : x = w
    · rw [hxw, fupd_same] at hx
      exact Bool.noConfusion hx
    · rw [fupd_ne _ _ _ hxw] at hx
      rw [hDne x hxw]
      exact h2 x hx
  · intro x hx
    rw [htV] at hx
    rw [htR, htP]
    by_cases hxw : x = w
    · rw [hxw, fupd_same] at hx
      exact Bool.noConfusion hx
    · rw [fupd_ne _ _ _ hxw] at hx
      exact h3 x hx
  · intro x hx
    rw [htP] at hx
    rw [htR]
    exact h4 x hx
  · intro x hxw hx
    rw [htP] at hx
    rw [hDne x hxw]
    exact h5 x hx
  · intro x
    rw [htN]
    exact h6 x
  · intro x q hx
    rw [htP] at hx
    rw [htC]
    exact h7 x q hx
  · intro x q hx
    rw [htP] at hx
    rw [htE]
    exact h8 x q hx
  · intro q x hx
    rw [htC] at hx
    rw [htE]
    exact h9 q x hx
  · intro x hx
    rw [htW] at hx
    rw [htE]
    exact h10 x hx

theorem hideWidget_inv (fuel w : Nat) (s t : State)
    (h : hideWidget fuel w s = ok t) (hi : Inv s) : Inv t := by
  rw [hideWidget] at h
  by_cases hv : s.visibleInternal w = false
  · rw [if_pos hv] at h
    have hh : s = t := congrArg Prod.fst h
    rw [← hh]
    exact hi
  · rw [if_neg hv] at h
    have hvw : s.visibleInternal w = true := by
      cases hb : s.visibleInternal w
      · exact absurd hb hv
      · rfl
    obtain ⟨hx, htV, htP, htC, htW, htE, htR, htN, htD⟩ :=
      hideWidgetInternal_invx fuel w false s t h hi hvw
    obtain ⟨g1, g2, g3, g4, g5, g6, g7, g8, g9, g10⟩ := hx
    refine ⟨g1, g2, g3, g4, ?_, g6, g7, g8, g9, g10⟩
    intro x hxp
    by_cases hxw : x = w
    · rw [hxw] at hxp ⊢
      rw [htP] at hxp
      rw [htD]
      exact hi.2.2.2.2.1 w hxp
    · exact g5 x hxw hxp

theorem Inv.toInvX {s : State} (hi : Inv s) (w : Nat) : InvX w s := by
  obtain ⟨h1, h2, h3, h4, h5, h6, h7, h8, h9, h10⟩ := hi
  exact ⟨h1, h2, h3, h4, fun x _ => h5 x, h6, h7, h8, h9, h10⟩

/-- Clearing the DOM parent of a hidden widget (counters aside) gives the
weakened invariant. -/
theorem invx_dom_clear (w : Nat) (s s2 : State) (hi : Inv s)
    (hvf : s.visibleInternal w = false)
    (cS : s2.isShowingInternal = s.isShowingInternal)
    (cV : s2.visibleInternal = s.visibleInternal)
    (cR : s2.isRoot = s.isRoot) (cW : s2.isWidgetElem = s.isWidgetElem)
    (cE : s2.elems = s.elems) (cN : s2.notificationDepth = s.notificationDepth)
    (cP : s2.parentWidgetInternal = s.parentWidgetInternal)
    (cC : s2.childrenInternal = s.childrenInternal)
    (cD : s2.domParent = fupd s.domParent w none) :
    InvX w s2 := by
  obtain ⟨h1, h2, h3, h4, h5, h6, h7, h8, h9, h10⟩ := hi
  refine ⟨?_, ?_, ?_, ?_, ?_, ?_, ?_, ?_, ?_, ?_⟩
  · intro x hx
    rw [cW] at hx
    rw [cS, cV, parentIsShowingB_congr cR cP cS]
    exact h1 x hx
  · intro x hx
    rw [cV] at hx
    rw [cD]
    by_cases hxw : x = w
    · rw [hxw] at hx
      rw [hvf] at hx
      exact Bool.noConfusion hx
    · rw [fupd_ne _ _ _ hxw]
      exact h2 x hx
  · intro x hx
    rw [cV] at hx
    rw [cR, cP]
    exact h3 x hx
  · intro x hx
    rw [cP] at hx
    rw [cR]
    exact h4 x hx
  · intro x hxw hx
    rw [cP] at hx
    rw [cD, fupd_ne _ _ _ hxw]
    exact h5 x hx
  · intro x; rw [cN]; exact h6 x
  · intro x q hx; rw [cP] at hx; rw [cC]; exact h7 x q hx
  · intro x q hx; rw [cP] at hx; rw [cE]; exact h8 x q hx
  · intro q x hx; rw [cC] at hx; rw [cE]; exact h9 q x hx
  · intro x hx; rw [cW] at hx; rw [cE]; exact h10 x hx

/-- The widget-tree unlink phase of `detach` restores the full invariant. -/
theorem detach_phase2_inv (w p : Nat) (s2 t : State)
    (hx2 : InvX w s2) (hV2w : s2.visibleInternal w = false)
    (_hp2 : s2.parentWidgetInternal w = some p)
    (cS : t.isShowingInternal = s2.isShowingInternal)
    (cV : t.visibleInternal = s2.visibleInternal)
    (cR : t.isRoot = s2.isRoot)
    (cW : t.isWidgetElem = s2.isWidgetElem)
    (cE : t.elems = s2.elems)
    (cN : t.notificationDepth = s2.notificationDepth)
    (cD : t.domParent = s2.domParent)
    (cP : t.parentWidgetInternal = fupd s2.parentWidgetInternal w none)
    (cC : t.childrenInternal = fupd s2.childrenInternal p ((s2.childrenInternal p).erase w)) :
    Inv t := by
  obtain ⟨g1, g2, g3, g4, g5, g6, g7, g8, g9, g10⟩ := hx2
  refine ⟨?_, ?_, ?_, ?_, ?_, ?_, ?_, ?_, ?_, ?_⟩
  · intro x hx
    rw [cW] at hx
    rw [cS, cV]
    by_cases hxw : x = w
    · rw [hxw] at hx
      rw [hxw, g1 w hx, hV2w]
      simp
    · have hpq : parentIsShowingB t x = parentIsShowingB s2 x := by
        unfold parentIsShowingB
        rw [cR, cP, fupd_ne _ _ _ hxw]
        cases hpx : s2.parentWidgetInternal x with
        | none => rfl
        | some q =>
            dsimp only
            rw [cS]
      rw [hpq]
      exact g1 x hx
  · intro x hx
    rw [cV] at hx
    rw [cD]
    exact g2 x hx
  · intro x hx
    rw [cV] at hx
    rw [cR, cP]
    by_cases hxw : x = w
    · rw [hxw] at hx
      rw [hV2w] at hx
      exact Bool.noConfusion hx
    · rw [fupd_ne _ _ _ hxw]
      exact g3 x hx
  · intro x hx
    rw [cP] at hx
    rw [cR]
    by_cases hxw : x = w
    · rw [hxw, fupd_same] at hx
      exact absurd rfl hx
    · rw [fupd_ne _ _ _ hxw] at hx
      exact g4 x hx
  · intro x hx
    rw [cP] at hx
    rw [cD]
    by_cases hxw : x = w
    · rw [hxw, fupd_same] at hx
      exact absurd rfl hx
    · rw [fupd_ne _ _ _ hxw] at hx
      exact g5 x hxw hx
  · intro x; rw [cN]; exact g6 x
  · intro x q hx
    rw [cP] at hx
    rw [cC]
    by_cases hxw : x = w
    · rw [hxw, fupd_same] at hx
      exact Option.noConfusion hx
    · rw [fupd_ne _ _ _ hxw] at hx
      have hmem := g7 x q hx
      by_cases hqp : q = p
      · rw [hqp, fupd_same]
        rw [hqp] at hmem
        exact (List.mem_erase_of_ne hxw).mpr hmem
      · rw [fupd_ne _ _ _ hqp]
        exact hmem
  · intro x q hx
    rw [cP] at hx
    rw [cE]
    by_cases hxw : x = w
    · rw [hxw, fupd_same] at hx
      exact Option.noConfusion hx
    · rw [fupd_ne _ _ _ hxw] at hx
      exact g8 x q hx
  · intro q x hx
    rw [cC] at hx
    rw [cE]
    by_cases hqp : q = p
    · rw [hqp, fupd_same] at hx
      exact g9 p x (List.mem_of_mem_erase hx)
    · rw [fupd_ne _ _ _ hqp] at hx
      exact g9 q x hx
  · intro x hx
    rw [cW] at hx
    rw [cE]
    exact g10 x hx

theorem detach_inv (fuel w : Nat) (ov : Bool) (s t : State)
    (h : detach fuel w ov s = ok t) (hi : Inv s) :
    Inv t ∧ t.parentWidgetInternal w = none ∧ t.visibleInternal w = false ∧
    t.isWidgetElem = s.isWidgetElem ∧ t.elems = s.elems := by
  rw [detach] at h
  by_cases hearly : s.parentWidgetInternal w = none ∧ s.isRoot w = false
  · rw [if_pos hearly] at h
    have hh : s = t := congrArg Prod.fst h
    have hVw : s.visibleInternal w = false := by
      cases hb : s.visibleInternal w
      · rfl
      · rcases hi.2.2.1 w hb with hr | hp
        · rw [hearly.2] at hr
          exact Bool.noConfusion hr
        · exact absurd hearly.1 hp
    rw [← hh]
    exact ⟨hi, hearly.1, hVw, rfl, rfl⟩
  · rw [if_neg hearly] at h
    cases hrmv : (if ov then some true
        else (shouldHideOnDetachB fuel s w).map (fun b => !b)) with
    | none =>
        rw [hrmv] at h
        exact absurd (congrArg Prod.snd h) (by simp [fail, ok])
    | some rm =>
        rw [hrmv] at h
        dsimp only at h
        obtain ⟨s2, hA, hB⟩ := Res.bind_eq_ok h
        have hbundle : InvX w s2 ∧ s2.visibleInternal w = false ∧
            s2.parentWidgetInternal = s.parentWidgetInternal ∧
            s2.childrenInternal = s.childrenInternal ∧
            s2.isWidgetElem = s.isWidgetElem ∧ s2.elems = s.elems ∧
            s2.isRoot = s.isRoot ∧ s2.notificationDepth = s.notificationDepth ∧
            s2.domParent w = (if rm then none else s.domParent w) := by
          by_cases hv : s.visibleInternal w = true
          · rw [if_pos hv] at hA
            obtain ⟨hx, htV, htP, htC, htW, htE, htR, htN, htD⟩ :=
              hideWidgetInternal_invx fuel w rm s s2 hA hi hv
            refine ⟨hx, by rw [htV]; simp, htP, htC, htW, htE, htR, htN, ?_⟩
            rw [htD]
            by_cases hrm : rm = true
            · rw [if_pos hrm, if_pos hrm, fupd_same]
            · rw [if_neg hrm, if_neg hrm]
          · rw [if_neg hv] at hA
            have hvf : s.visibleInternal w = false := by
              cases hb : s.visibleInternal w
              · rfl
              · exact absurd hb hv
            by_cases hrm : rm = true
            · rw [if_pos hrm] at hA
              cases hpe : s.domParent w with
              | some pe =>
                  rw [hpe] at hA
                  dsimp only at hA
                  obtain ⟨s1a, hdec, hrc⟩ := Res.bind_eq_ok hA
                  have hdec1 : _ = s1a := congrArg Prod.fst hdec
                  have hfr1a : s1a = {s with widgetCounter := s1a.widgetCounter} := by
                    rw [← hdec1]
                    exact decrementWidgetCounter_frame fuel pe w s
                  have hD1a : s1a.domParent w = some pe := by
                    rw [hfr1a]
                    exact hpe
                  rw [originalRemoveChild, if_pos hD1a] at hrc
                  have hs2 : _ = s2 := congrArg Prod.fst hrc
                  have cS : s2.isShowingInternal = s.isShowingInternal := by
                    rw [← hs2, hfr1a]; rfl
                  have cV : s2.visibleInternal = s.visibleInternal := by
                    rw [← hs2, hfr1a]; rfl
                  have cR : s2.isRoot = s.isRoot := by rw [← hs2, hfr1a]; rfl
                  have cW : s2.isWidgetElem = s.isWidgetElem := by
                    rw [← hs2, hfr1a]; rfl
                  have cE : s2.elems = s.elems := by rw [← hs2, hfr1a]; rfl
                  have cN : s2.notificationDepth = s.notificationDepth := by
                    rw [← hs2, hfr1a]; rfl
                  have cP : s2.parentWidgetInternal = s.parentWidgetInternal := by
                    rw [← hs2, hfr1a]; rfl
                  have cC : s2.childrenInternal = s.childrenInternal := by
                    rw [← hs2, hfr1a]; rfl
                  have cD : s2.domParent = fupd s.domParent w none := by
                    rw [← hs2, hfr1a]; rfl
                  refine ⟨invx_dom_clear w s s2 hi hvf cS cV cR cW cE cN cP cC cD,
                    by rw [cV]; exact hvf, cP, cC, cW, cE, cR, cN, ?_⟩
                  rw [cD, if_pos hrm, fupd_same]
              | none =>
                  rw [hpe] at hA
                  dsimp only at hA
                  have hs2 : s = s2 := congrArg Prod.fst hA
                  rw [← hs2]
                  exact ⟨hi.toInvX w, hvf, rfl, rfl, rfl, rfl, rfl, rfl,
                    by rw [if_pos hrm]; exact hpe.symm ▸ rfl⟩
            · rw [if_neg hrm] at hA
              have hs2 : s = s2 := congrArg Prod.fst hA
              rw [← hs2]
              exact ⟨hi.toInvX w, hvf, rfl, rfl, rfl, rfl, rfl, rfl,
                by rw [if_neg hrm]⟩
        obtain ⟨hx2, hV2w, hP2, hC2, hW2, hE2, hR2, hN2, hD2⟩ := hbundle
        cases hp2 : s2.parentWidgetInternal w with
        | none =>
            rw [hp2] at hB
            dsimp only at hB
            split at hB
            · have hh : s2 = t := congrArg Prod.fst hB
              rw [← hh]
              exact ⟨Inv_of_InvX w s2 hx2 hp2, hp2, hV2w, hW2, hE2⟩
            · exact absurd (congrArg Prod.snd hB) (by simp [fail, ok])
        | some p =>
            rw [hp2] at hB
            dsimp only at hB
            split at hB
            · next hmemw =>
                split at hB
                · next hfoc =>
                    have hh : _ = t := congrArg Prod.fst hB
                    refine ⟨detach_phase2_inv w p s2 t hx2 hV2w hp2
                      (by rw [← hh]; rfl) (by rw [← hh]; rfl) (by rw [← hh]; rfl)
                      (by rw [← hh]; rfl) (by rw [← hh]; rfl) (by rw [← hh]; rfl)
                      (by rw [← hh]; rfl) (by rw [← hh]; rfl) (by rw [← hh]; rfl),
                      ?_, ?_, ?_, ?_⟩
                    · rw [← hh]; exact fupd_same _ _ _
                    · rw [← hh]
                      exact hV2w
                    · rw [← hh]; exact hW2
                    · rw [← hh]; exact hE2
                · next hfoc =>
                    have hh : _ = t := congrArg Prod.fst hB
                    refine ⟨detach_phase2_inv w p s2 t hx2 hV2w hp2
                      (by rw [← hh]; rfl) (by rw [← hh]; rfl) (by rw [← hh]; rfl)
                      (by rw [← hh]; rfl) (by rw [← hh]; rfl) (by rw [← hh]; rfl)
                      (by rw [← hh]; rfl) (by rw [← hh]; rfl) (by rw [← hh]; rfl),
                      ?_, ?_, ?_, ?_⟩
                    · rw [← hh]; exact fupd_same _ _ _
                    · rw [← hh]
                      exact hV2w
                    · rw [← hh]; exact hW2
                    · rw [← hh]; exact hE2
            · exact absurd (congrArg Prod.snd hB) (by simp [fail, ok])

theorem showWidgetInternal_inv (fuel : Nat) (w pe : Nat) (ib : Option Nat) (s t : State)
    (h : showWidgetInternal fuel w pe ib s = ok t)
    (hx : InvX w s) : Inv t := by
  rw [showWidgetInternal] at h
  cases hne : nearestWidgetElem fuel s (some pe) with
  | none =>
      rw [hne] at h
      exact absurd (congrArg Prod.snd h) (by simp [fail, ok])
  | some currentParent =>
      rw [hne] at h
      dsimp only at h
      obtain ⟨s0, hassert, hmain⟩ := Res.bind_eq_ok h
      have hs0 : s = s0 ∧ (s.isRoot w = true ∨ s.parentWidgetInternal w ≠ none) := by
        by_cases hroot : s.isRoot w = true
        · rw [if_pos hroot] at hassert
          split at hassert
          · exact ⟨congrArg Prod.fst hassert, Or.inl hroot⟩
          · exact absurd (congrArg Prod.snd hassert) (by simp [fail, ok])
        · rw [if_neg hroot] at hassert
          cases hcp : currentParent with
          | none =>
              rw [hcp] at hassert
              exact absurd (congrArg Prod.snd hassert) (by simp [fail, ok])
          | some cp =>
              rw [hcp] at hassert
              dsimp only at hassert
              split at hassert
              · next hpw =>
                  exact ⟨congrArg Prod.fst hassert,
                    Or.inr (by rw [hpw]; exact fun hc => Option.noConfusion hc)⟩
              · exact absurd (congrArg Prod.snd hassert) (by simp [fail, ok])
      obtain ⟨hs0eq, hrootfact⟩ := hs0
      rw [← hs0eq] at hmain
      try dsimp only at hmain
      obtain ⟨g1, g2, g3, g4, g5, g6, g7, g8, g9, g10⟩ := hx
      by_cases hshort : s.visibleInternal w = true ∧ s.domParent w = some pe
      · rw [if_pos hshort] at hmain
        have hh : s = t := congrArg Prod.fst hmain
        rw [← hh]
        refine ⟨g1, g2, g3, g4, ?_, g6, g7, g8, g9, g10⟩
        intro x hxp
        by_cases hxw : x = w
        · rw [hxw, hshort.2]
          exact fun hc => Option.noConfusion hc
        · exact g5 x hxw hxp
      · rw [if_neg hshort] at hmain
        obtain ⟨s2, hWst, hrest⟩ := Res.bind_eq_ok hmain
        have hpiseq : parentIsShowingB
            {s with visibleInternal := fupd s.visibleInternal w true} w =
            parentIsShowingB s w := rfl
        have hWb : ∃ L : List Nat,
            s2.visibleInternal = fupd s.visibleInternal w true ∧
            s2.parentWidgetInternal = s.parentWidgetInternal ∧
            s2.childrenInternal = s.childrenInternal ∧
            s2.isRoot = s.isRoot ∧ s2.notificationDepth = s.notificationDepth ∧
            s2.isWidgetElem = s.isWidgetElem ∧ s2.elems = s.elems ∧
            s2.domParent = s.domParent ∧
            (∀ x, s2.isShowingInternal x = (if x ∈ L then true else s.isShowingInternal x)) ∧
            ((s.visibleInternal w = false ∧ parentIsShowingB s w = true ∧ w ∈ L ∧
              (∀ c ∈ L, c = w ∨ ((fupd s.visibleInternal w true) c = true ∧
                ∃ p, p ∈ L ∧ s.parentWidgetInternal c = some p)) ∧
              (∀ p ∈ L, ∀ c ∈ s.childrenInternal p, s.parentWidgetInternal c = some p →
                (fupd s.visibleInternal w true) c = true → c ∈ L)) ∨
             (L = [] ∧ (s.visibleInternal w = true ∨ parentIsShowingB s w = false))) := by
          by_cases hcond : (!s.visibleInternal w && parentIsShowingB
              {s with visibleInternal := fupd s.visibleInternal w true} w) = true
          · rw [if_pos hcond] at hWst
            rw [hpiseq] at hcond
            have hv : s.visibleInternal w = false := by
              cases hv2 : s.visibleInternal w
              · rfl
              · rw [hv2] at hcond
                exact absurd hcond (by simp)
            have hpis : parentIsShowingB s w = true := by
              cases hp2 : parentIsShowingB s w
              · rw [hv, hp2] at hcond
                exact absurd hcond (by simp)
              · rfl
            obtain ⟨L, hwL, hfrA, hSA, hsoundA, hcompA⟩ :=
              processWillShow_spec fuel w
                {s with visibleInternal := fupd s.visibleInternal w true} s2 hWst
            exact ⟨L, (PFrame.vEq hfrA : _), (PFrame.pEq hfrA : _), (PFrame.cEq hfrA : _),
              (PFrame.rEq hfrA : _), (PFrame.nEq hfrA : _), (PFrame.wEq hfrA : _),
              (PFrame.eEq hfrA : _), (PFrame.dEq hfrA : _), (fun x => hSA x : _),
              Or.inl ⟨hv, hpis, hwL, (hsoundA : _), (hcompA : _)⟩⟩
          · rw [if_neg hcond] at hWst
            rw [hpiseq] at hcond
            have hs2e : _ = s2 := congrArg Prod.fst hWst
            have hnp : s.visibleInternal w = true ∨ parentIsShowingB s w = false := by
              cases hv2 : s.visibleInternal w
              · right
                cases hp2 : parentIsShowingB s w
                · rfl
                · rw [hv2, hp2] at hcond
                  exact absurd rfl hcond
              · left; rfl
            refine ⟨[], ?_, ?_, ?_, ?_, ?_, ?_, ?_, ?_, ?_, Or.inr ⟨rfl, hnp⟩⟩
            · rw [← hs2e]; rfl
            · rw [← hs2e]; rfl
            · rw [← hs2e]; rfl
            · rw [← hs2e]; rfl
            · rw [← hs2e]; rfl
            · rw [← hs2e]; rfl
            · rw [← hs2e]; rfl
            · rw [← hs2e]; rfl
            · intro x; rw [← hs2e]; simp [ok]
        obtain ⟨L, hAV, hAP, hAC, hAR, hAN, hAW, hAE, hAD, hLS, hLbr⟩ := hWb
        obtain ⟨s5, hRst, hrest2⟩ := Res.bind_eq_ok hrest
        have hRb : s5.visibleInternal = s2.visibleInternal ∧
            s5.parentWidgetInternal = s2.parentWidgetInternal ∧
            s5.childrenInternal = s2.childrenInternal ∧
            s5.isRoot = s2.isRoot ∧ s5.notificationDepth = s2.notificationDepth ∧
            s5.isWidgetElem = s2.isWidgetElem ∧ s5.elems = s2.elems ∧
            s5.isShowingInternal = s2.isShowingInternal ∧
            s5.domParent = fupd s2.domParent w (some pe) := by
          by_cases hD2 : s2.domParent w ≠ some pe
          · rw [if_pos hD2] at hRst
            obtain ⟨s4, hinc, hins⟩ := Res.bind_eq_ok hRst
            have h4c : s4.visibleInternal = s2.visibleInternal ∧
                s4.parentWidgetInternal = s2.parentWidgetInternal ∧
                s4.childrenInternal = s2.childrenInternal ∧
                s4.isRoot = s2.isRoot ∧ s4.notificationDepth = s2.notificationDepth ∧
                s4.isWidgetElem = s2.isWidgetElem ∧ s4.elems = s2.elems ∧
                s4.isShowingInternal = s2.isShowingInternal ∧
                s4.domParent = s2.domParent := by
              split at hinc
              · have hs4e : _ = s4 := congrArg Prod.fst hinc
                refine ⟨?_, ?_, ?_, ?_, ?_, ?_, ?_, ?_, ?_⟩ <;> (rw [← hs4e]; rfl)
              · have hs4e : _ = s4 := congrArg Prod.fst hinc
                have hfr4 : s4 = {({s2 with hiddenClass := fupd s2.hiddenClass w false} : State)
                    with widgetCounter := s4.widgetCounter} := by
                  rw [← hs4e]
                  exact incrementLoop_frame fuel _ _ _
                refine ⟨?_, ?_, ?_, ?_, ?_, ?_, ?_, ?_, ?_⟩ <;> rw [hfr4]
            obtain ⟨c4V, c4P, c4C, c4R, c4N, c4W, c4E, c4S, c4D⟩ := h4c
            have hdesc : s5 = {s4 with domParent := fupd s4.domParent w (some pe)} := by
              cases ib with
              | none => exact originalAppendChild_desc fuel pe w s4 s5 hins
              | some ibv => exact originalAppendChild_desc fuel pe w s4 s5 hins
            rw [hdesc]
            exact ⟨c4V, c4P, c4C, c4R, c4N, c4W, c4E, c4S, by
              rw [show ({s4 with domParent := fupd s4.domParent w (some pe)} : State).domParent
                = fupd s4.domParent w (some pe) from rfl, c4D]⟩
          · rw [if_neg hD2] at hRst
            have hD2e : s2.domParent w = some pe := not_ne_iff.mp hD2
            have hs5e : _ = s5 := congrArg Prod.fst hRst
            refine ⟨?_, ?_, ?_, ?_, ?_, ?_, ?_, ?_, ?_⟩
            · rw [← hs5e]; rfl
            · rw [← hs5e]; rfl
            · rw [← hs5e]; rfl
            · rw [← hs5e]; rfl
            · rw [← hs5e]; rfl
            · rw [← hs5e]; rfl
            · rw [← hs5e]; rfl
            · rw [← hs5e]; rfl
            · rw [← hs5e]
              exact (fupd_eq_self s2.domParent w hD2e.symm).symm
        obtain ⟨cV, cP, cC, cR, cN, cW, cE, cS, cD⟩ := hRb
        obtain ⟨s6, hSst, hFst⟩ := Res.bind_eq_ok hrest2
        have hfr56 : LFrame s5 s6 := by
          split at hSst
          · have hs6e : _ = s6 := congrArg Prod.fst hSst
            rw [← hs6e]
            exact processWasShown_LFrame fuel w s5
          · have hs6e : s5 = s6 := congrArg Prod.fst hSst
            rw [← hs6e]
            exact LFrame_refl s5
        have hfr6t : LFrame s6 t := by
          cases hp6 : s6.parentWidgetInternal w with
          | none =>
              rw [hp6] at hFst
              dsimp only at hFst
              have hh : _ = t := congrArg Prod.fst hFst
              rw [← hh]
              exact processOnResize_LFrame fuel w s6
          | some p =>
              rw [hp6] at hFst
              dsimp only at hFst
              cases hnz : hasNonZeroConstraintsM fuel w s6 with
              | none =>
                  rw [hnz] at hFst
                  exact absurd (congrArg Prod.snd hFst) (by simp [fail, ok])
              | some bp =>
                  obtain ⟨b, s7⟩ := bp
                  rw [hnz] at hFst
                  dsimp only at hFst
                  have hfr67 : LFrame s6 s7 :=
                    hasNonZeroConstraintsM_LFrame fuel w s6 b s7 hnz
                  split at hFst
                  · refine LFrame_trans hfr67 ?_
                    have hh : _ = t := congrArg Prod.fst hFst
                    rw [← hh]
                    exact invalidateConstraints_LFrame fuel p s7
                  · refine LFrame_trans hfr67 ?_
                    have hh : _ = t := congrArg Prod.fst hFst
                    rw [← hh]
                    exact processOnResize_LFrame fuel w s7
        have hfrT : LFrame s5 t := LFrame_trans hfr56 hfr6t
        have tV : t.visibleInternal = fupd s.visibleInternal w true := by
          rw [PFrame.vEq hfrT.1, cV, hAV]
        have tP : t.parentWidgetInternal = s.parentWidgetInternal := by
          rw [PFrame.pEq hfrT.1, cP, hAP]
        have tC : t.childrenInternal = s.childrenInternal := by
          rw [PFrame.cEq hfrT.1, cC, hAC]
        have tR : t.isRoot = s.isRoot := by
          rw [PFrame.rEq hfrT.1, cR, hAR]
        have tN : t.notificationDepth = s.notificationDepth := by
          rw [PFrame.nEq hfrT.1, cN, hAN]
        have tW : t.isWidgetElem = s.isWidgetElem := by
          rw [PFrame.wEq hfrT.1, cW, hAW]
        have tE : t.elems = s.elems := by
          rw [PFrame.eEq hfrT.1, cE, hAE]
        have tD : t.domParent = fupd s.domParent w (some pe) := by
          rw [PFrame.dEq hfrT.1, cD, hAD]
        have tS : ∀ x, t.isShowingInternal x = (if x ∈ L then true else s.isShowingInternal x) := by
          intro x
          rw [hfrT.2, cS, hLS x]
        refine ⟨?_, ?_, ?_, ?_, ?_, ?_, ?_, ?_, ?_, ?_⟩
        · rcases hLbr with ⟨hv, hpis, hwL, hsound, hcomp⟩ | ⟨hLnil, hnp⟩
          · exact wf_after_show s w L g1 g7 hpis hwL hsound hcomp t tV tS tR tP tW
          · refine wf_noshow s w g1 hnp t tV ?_ tR tP tW
            funext x
            rw [tS x, hLnil]
            simp
        · intro x hxv
          rw [tV] at hxv
          rw [tD]
          by_cases hxw : x = w
          · rw [hxw, fupd_same]
            exact fun hc => Option.noConfusion hc
          · rw [fupd_ne _ _ _ hxw] at hxv
            rw [fupd_ne _ _ _ hxw]
            exact g2 x hxv
        · intro x hxv
          rw [tV] at hxv
          rw [tR, tP]
          by_cases hxw : x = w
          · rw [hxw]
            exact hrootfact
          · rw [fupd_ne _ _ _ hxw] at hxv
            exact g3 x hxv
        · intro x hxp
          rw [tP] at hxp
          rw [tR]
          exact g4 x hxp
        · intro x hxp
          rw [tP] at hxp
          rw [tD]
          by_cases hxw : x = w
          · rw [hxw, fupd_same]
            exact fun hc => Option.noConfusion hc
          · rw [fupd_ne _ _ _ hxw]
            exact g5 x hxw hxp
        · intro x; rw [tN]; exact g6 x
        · intro x q hxp; rw [tP] at hxp; rw [tC]; exact g7 x q hxp
        · intro x q hxp; rw [tP] at hxp; rw [tE]; exact g8 x q hxp
        · intro q x hxm; rw [tC] at hxm; rw [tE]; exact g9 q x hxm
        · intro x hxw2; rw [tW] at hxw2; rw [tE]; exact g10 x hxw2

theorem nearestWidgetElem_widget : ∀ (fuel : Nat) (s : State) (e? : Option Nat) (cw : Nat),
    nearestWidgetElem fuel s e? = some (some cw) → s.isWidgetElem cw = true := by
  intro fuel
  induction fuel with
  | zero =>
      intro s e? cw h
      cases e? with
      | none =>
          injection h with h1
          exact Option.noConfusion h1
      | some e => exact Option.noConfusion h
  | succ fuel ih =>
      intro s e? cw h
      cases e? with
      | none =>
          injection h with h1
          exact Option.noConfusion h1
      | some e =>
          rw [nearestWidgetElem] at h
          by_cases hwe : s.isWidgetElem e = true
          · rw [if_pos hwe] at h
            injection h with h1
            injection h1 with h2
            rw [← h2]
            exact hwe
          · rw [if_neg hwe] at h
            exact ih s (s.domParent e) cw h

/-- `attach` preserves the invariant, weakened at `w` (whose element may not
be back in the DOM yet; the enclosing `show` reinserts it). -/
theorem attach_invx (fuel w cw : Nat) (s t : State)
    (h : attach fuel w cw s = ok t) (hi : Inv s)
    (hWw : s.isWidgetElem w = true) (hWcw : s.isWidgetElem cw = true)
    (hRw : s.isRoot w = false) : InvX w t := by
  rw [attach] at h
  by_cases hsame : s.parentWidgetInternal w = some cw
  · rw [if_pos hsame] at h
    have hh : s = t := congrArg Prod.fst h
    rw [← hh]
    exact hi.toInvX w
  · rw [if_neg hsame] at h
    obtain ⟨u, hdet, hlink⟩ := Res.bind_eq_ok h
    have hubundle : Inv u ∧ u.parentWidgetInternal w = none ∧
        u.visibleInternal w = false ∧ u.isWidgetElem = s.isWidgetElem ∧
        u.elems = s.elems := by
      by_cases hpn : s.parentWidgetInternal w ≠ none
      · rw [if_pos hpn] at hdet
        exact detach_inv fuel w false s u hdet hi
      · rw [if_neg hpn] at hdet
        have hh : s = u := congrArg Prod.fst hdet
        have hpw : s.parentWidgetInternal w = none := not_ne_iff.mp hpn
        have hvw : s.visibleInternal w = false := by
          cases hb : s.visibleInternal w
          · rfl
          · rcases hi.2.2.1 w hb with hr | hp
            · rw [hRw] at hr
              exact Bool.noConfusion hr
            · exact absurd hpw hp
        rw [← hh]
        exact ⟨hi, hpw, hvw, rfl, rfl⟩
    obtain ⟨hui, huP, huV, huW, huE⟩ := hubundle
    obtain ⟨u1, u2, u3, u4, u5, u6, u7, u8, u9, u10⟩ := hui
    dsimp only at hlink
    have hht : _ = t := congrArg Prod.fst hlink
    have cV : t.visibleInternal = u.visibleInternal := by rw [← hht]; rfl
    have cS : t.isShowingInternal = u.isShowingInternal := by rw [← hht]; rfl
    have cD : t.domParent = u.domParent := by rw [← hht]; rfl
    have cN : t.notificationDepth = u.notificationDepth := by rw [← hht]; rfl
    have cW : t.isWidgetElem = u.isWidgetElem := by rw [← hht]; rfl
    have cE : t.elems = u.elems := by rw [← hht]; rfl
    have cP : t.parentWidgetInternal = fupd u.parentWidgetInternal w (some cw) := by
      rw [← hht]; rfl
    have cC : t.childrenInternal =
        fupd u.childrenInternal cw (u.childrenInternal cw ++ [w]) := by
      rw [← hht]; rfl
    have cR : t.isRoot = fupd u.isRoot w false := by rw [← hht]; rfl
    refine ⟨?_, ?_, ?_, ?_, ?_, ?_, ?_, ?_, ?_, ?_⟩
    · intro x hxw2
      rw [cW] at hxw2
      rw [cS, cV]
      by_cases hxw : x = w
      · rw [hxw] at hxw2
        rw [hxw, u1 w hxw2, huV]
        simp
      · have hpq : parentIsShowingB t x = parentIsShowingB u x := by
          unfold parentIsShowingB
          rw [cR, cP, fupd_ne _ _ _ hxw, fupd_ne _ _ _ hxw]
          cases hpx : u.parentWidgetInternal x with
          | none => rfl
          | some q =>
              dsimp only
              rw [cS]
        rw [hpq]
        exact u1 x hxw2
    · intro x hxv
      rw [cV] at hxv
      rw [cD]
      exact u2 x hxv
    · intro x hxv
      rw [cV] at hxv
      rw [cR, cP]
      by_cases hxw : x = w
      · rw [hxw] at hxv
        rw [huV] at hxv
        exact Bool.noConfusion hxv
      · rw [fupd_ne _ _ _ hxw, fupd_ne _ _ _ hxw]
        exact u3 x hxv
    · intro x hxp
      rw [cP] at hxp
      rw [cR]
      by_cases hxw : x = w
      · rw [hxw, fupd_same]
      · rw [fupd_ne _ _ _ hxw] at hxp
        rw [fupd_ne _ _ _ hxw]
        exact u4 x hxp
    · intro x hxw hxp
      rw [cP, fupd_ne _ _ _ hxw] at hxp
      rw [cD]
      exact u5 x hxp
    · intro x; rw [cN]; exact u6 x
    · intro x q hxp
      rw [cP] at hxp
      rw [cC]
      by_cases hxw : x = w
      · rw [hxw, fupd_same] at hxp
        injection hxp with hq
        rw [hxw, ← hq, fupd_same]
        exact List.mem_append.mpr (Or.inr (List.mem_cons_self w []))
      · rw [fupd_ne _ _ _ hxw] at hxp
        have hmem := u7 x q hxp
        by_cases hqc : q = cw
        · rw [hqc, fupd_same]
          rw [hqc] at hmem
          exact List.mem_append.mpr (Or.inl hmem)
        · rw [fupd_ne _ _ _ hqc]
          exact hmem
    · intro x q hxp
      rw [cP] at hxp
      rw [cE, huE]
      by_cases hxw : x = w
      · rw [hxw, fupd_same] at hxp
        injection hxp with hq
        rw [← hq]
        exact hi.2.2.2.2.2.2.2.2.2 cw hWcw
      · rw [fupd_ne _ _ _ hxw] at hxp
        have := u8 x q hxp
        rw [huE] at this
        exact this
    · intro q x hxm
      rw [cC] at hxm
      rw [cE, huE]
      by_cases hqc : q = cw
      · rw [hqc, fupd_same] at hxm
        rcases List.mem_append.mp hxm with hm1 | hm2
        · have := u9 cw x hm1
          rw [huE] at this
          exact this
        · rcases List.mem_cons.mp hm2 with hxw | hcontra
          · rw [hxw]
            exact hi.2.2.2.2.2.2.2.2.2 w hWw
          · exact absurd hcontra (List.not_mem_nil x)
      · rw [fupd_ne _ _ _ hqc] at hxm
        have := u9 q x hxm
        rw [huE] at this
        exact this
    · intro x hxw2
      rw [cW, huW] at hxw2
      rw [cE, huE]
      exact hi.2.2.2.2.2.2.2.2.2 x hxw2

theorem show_inv (fuel : Nat) (w pe : Nat) (ib : Option Nat) (s t : State)
    (h : Widget.show fuel w pe ib s = ok t) (hi : Inv s)
    (hWw : s.isWidgetElem w = true) : Inv t := by
  rw [Widget.show] at h
  obtain ⟨u, hfirst, hsec⟩ := Res.bind_eq_ok h
  have hux : InvX w u := by
    by_cases hroot : s.isRoot w = true
    · rw [if_pos hroot] at hfirst
      have hh : s = u := congrArg Prod.fst hfirst
      rw [← hh]
      exact hi.toInvX w
    · rw [if_neg hroot] at hfirst
      cases hnw : nearestWidgetElem fuel s (some pe) with
      | none =>
          rw [hnw] at hfirst
          exact absurd (congrArg Prod.snd hfirst) (by simp [fail, ok])
      | some cpo =>
          rw [hnw] at hfirst
          cases cpo with
          | none =>
              exact absurd (congrArg Prod.snd hfirst) (by simp [fail, ok])
          | some cw =>
              have hWcw : s.isWidgetElem cw = true :=
                nearestWidgetElem_widget fuel s (some pe) cw hnw
              have hRw : s.isRoot w = false := by
                cases hb : s.isRoot w
                · rfl
                · exact absurd hb hroot
              exact attach_invx fuel w cw s u hfirst hi hWw hWcw hRw
  exact showWidgetInternal_inv fuel w pe ib u t hsec hux

theorem showWidget_inv (fuel w : Nat) (s t : State)
    (h : showWidget fuel w s = ok t) (hi : Inv s) : Inv t := by
  rw [showWidget] at h
  by_cases hv : s.visibleInternal w = true
  · rw [if_pos hv] at h
    have hh : s = t := congrArg Prod.fst h
    rw [← hh]
    exact hi
  · rw [if_neg hv] at h
    cases hd : s.domParent w with
    | none =>
        rw [hd] at h
        exact absurd (congrArg Prod.snd h) (by simp [fail, ok])
    | some pe =>
        rw [hd] at h
        exact showWidgetInternal_inv fuel w pe none s t h (hi.toInvX w)

theorem requireWidget_ok {w : Nat} {s t : State} {k : State → Res}
    (h : requireWidget w s k = ok t) : s.isWidgetElem w = true ∧ k s = ok t := by
  rw [requireWidget] at h
  split at h
  · next hw => exact ⟨hw, h⟩
  · exact absurd (congrArg Prod.snd h) (by simp [fail, ok])

/-- Every completed public operation preserves the invariant. -/
theorem op_inv (o : Op) (s t : State) (h : o.apply s = ok t) (hi : Inv s) : Inv t := by
  cases o with
  | mkElement id p fuel => exact newElement_inv fuel id p s t h hi
  | mkWidget id kind => exact newWidget_inv id kind s t h hi
  | rootMark w =>
      obtain ⟨hw, hk⟩ := requireWidget_ok h
      exact markAsRoot_inv w s t hk hi
  | extManagedMark w =>
      obtain ⟨hw, hk⟩ := requireWidget_ok h
      exact markAsExternallyManaged_inv w s t hk hi
  | hideOnDetachSet w =>
      obtain ⟨hw, hk⟩ := requireWidget_ok h
      exact setHideOnDetach_inv w s t hk hi
  | showOp w pe ibv fuel =>
      obtain ⟨hw, hk⟩ := requireWidget_ok h
      exact show_inv fuel w pe ibv s t hk hi hw
  | showWidgetOp w fuel =>
      obtain ⟨hw, hk⟩ := requireWidget_ok h
      exact showWidget_inv fuel w s t hk hi
  | hideWidgetOp w fuel =>
      obtain ⟨hw, hk⟩ := requireWidget_ok h
      exact hideWidget_inv fuel w s t hk hi
  | detachOp w ov fuel =>
      obtain ⟨hw, hk⟩ := requireWidget_ok h
      exact (detach_inv fuel w ov s t hk hi).1
  | suspendOp w =>
      obtain ⟨hw, hk⟩ := requireWidget_ok h
      exact suspendInvalidations_inv w s t hk hi
  | resumeOp w fuel =>
      obtain ⟨hw, hk⟩ := requireWidget_ok h
      exact resumeInvalidations_inv fuel w s t hk hi
  | setMinSizeOp w a b fuel =>
      obtain ⟨hw, hk⟩ := requireWidget_ok h
      exact setMinimumSize_inv fuel w a b s t hk hi

theorem Inv_empty : Inv State.empty := by
  refine ⟨?_, ?_, ?_, ?_, ?_, ?_, ?_, ?_, ?_, ?_⟩
  · intro x hx; exact Bool.noConfusion hx
  · intro x hx; exact Bool.noConfusion hx
  · intro x hx; exact Bool.noConfusion hx
  · intro x hx; exact absurd rfl hx
  · intro x hx; exact absurd rfl hx
  · intro x; rfl
  · intro x q hx; exact Option.noConfusion hx
  · intro x q hx; exact Option.noConfusion hx
  · intro q x hx; exact absurd hx (List.not_mem_nil x)
  · intro x hx; exact Bool.noConfusion hx

theorem Reachable_inv (s : State) (h : Reachable s) : Inv s := by
  induction h with
  | empty => exact Inv_empty
  | step o s hrs hok ih =>
      rcases hr : o.apply s with ⟨t, e?⟩
      cases e? with
      | some e =>
          rw [runOk] at hok
          rw [hr] at hok
          exact absurd hok (by simp)
      | none =>
          rw [runState, hr]
          exact op_inv o s t hr ih

/-- C1: in every quiescent state (reached from the fresh document by
completed public operations), each widget's `isShowing()` flag equals
`visible && parentIsShowing()`, i.e. the widget is visible and is a root or
has a showing parent. -/
theorem showing_invariant (s : State) (h : Reachable s) :
    ∀ w, s.isWidgetElem w = true →
      s.isShowingInternal w = (s.visibleInternal w && parentIsShowingB s w) :=
  fun w hw => (Reachable_inv s h).1 w hw

/-- A quiescent state with a shown root widget: element 0 holds root widget
1, made visible by `show`. -/
def c1State : State :=
  runState (.showOp 1 0 none 10)
    (runState (.rootMark 1)
      (runState (.mkWidget 1 .base)
        (runState (.mkElement 0 none 5) State.empty)))

theorem showing_invariant_witness :
    Reachable c1State ∧ c1State.isWidgetElem 1 = true ∧
    c1State.isShowingInternal 1 =
      (c1State.visibleInternal 1 && parentIsShowingB c1State 1) := by
  have h1 : Reachable (runState (.mkElement 0 none 5) State.empty) :=
    Reachable.step _ _ Reachable.empty (by decide)
  have h2 : Reachable (runState (.mkWidget 1 .base)
      (runState (.mkElement 0 none 5) State.empty)) :=
    Reachable.step _ _ h1 (by decide)
  have h3 := Reachable.step (.rootMark 1) _ h2 (by decide)
  have h4 := Reachable.step (.showOp 1 0 none 10) _ h3 (by decide)
  exact ⟨h4, by decide, showing_invariant c1State h4 1 (by decide)⟩

/-! ### C2: the widget-counter invariant -/

/-- `ancAux` reads only the `domParent` map. -/
theorem ancAux_congr {s t : State} (hD : t.domParent = s.domParent) :
    ∀ (fuel e : Nat), ancAux t fuel e = ancAux s fuel e := by
  intro fuel
  induction fuel with
  | zero => intro e; rfl
  | succ fuel ih =>
      intro e
      simp only [ancAux, hD]
      cases s.domParent e with
      | none => rfl
      | some p =>
          show Option.map (fun l => p :: l) (ancAux t fuel p) =
            Option.map (fun l => p :: l) (ancAux s fuel p)
          rw [ih p]

/-- `ancestors` reads only `elems` (for the fuel) and `domParent`. -/
theorem ancestors_congr {s t : State} (hE : t.elems = s.elems)
    (hD : t.domParent = s.domParent) (e : Nat) :
    ancestors t e = ancestors s e := by
  rw [ancestors, ancestors, hE, ancAux_congr hD]

/-- `countBelow` is determined by `elems`, `isWidgetElem`,
`externallyManaged` and `domParent`. -/
theorem countBelow_congr {s t : State} (hE : t.elems = s.elems)
    (hW : t.isWidgetElem = s.isWidgetElem)
    (hEM : t.externallyManaged = s.externallyManaged)
    (hD : t.domParent = s.domParent) (a : Nat) :
    countBelow t a = countBelow s a := by
  have hp : (fun e => countedWidgetB t e && decide (a ∈ ancestors t e)) =
      (fun e => countedWidgetB s e && decide (a ∈ ancestors s e)) := by
    funext e
    simp only [countedWidgetB, hW, hEM, ancestors_congr hE hD]
  simp only [countBelow]
  rw [hE, hp]

/-- A result whose error component is `none` is `ok` on its state. -/
theorem Res_eq_ok_fst {r : Res} (h : r.2 = none) : r = ok r.1 := by
  obtain ⟨a, b⟩ := r
  cases b with
  | none => rfl
  | some e => exact Option.noConfusion h

/-- `hideWidget` (which never removes the element from the DOM) leaves the
DOM forest, the widget registrations, the externally-managed marks and the
whole counter map unchanged. -/
theorem hideWidget_count_frame (fuel : Nat) (w : Nat) (s t : State)
    (hq : ∀ x, s.notificationDepth x = 0)
    (h : hideWidget fuel w s = ok t) :
    t.elems = s.elems ∧ t.isWidgetElem = s.isWidgetElem ∧
    t.domParent = s.domParent ∧ t.widgetCounter = s.widgetCounter ∧
    t.externallyManaged = s.externallyManaged := by
  rw [hideWidget] at h
  split at h
  · have hh : s = t := congrArg Prod.fst h
    rw [← hh]
    exact ⟨rfl, rfl, rfl, rfl, rfl⟩
  · obtain ⟨L, htE, htW, htV, htR, htP, htC, htN, htD, hLS, hLw, hLsound, hLcomp,
      htEM, htcnt⟩ := hideWidgetInternal_desc fuel w false s t hq h
    refine ⟨htE, htW, ?_, htcnt rfl, htEM⟩
    rw [htD]
    rfl

/-- `showWidgetInternal` called with the element's current DOM parent (so
the reparenting branch, and with it the counter increment, is dead) leaves
the DOM forest, the widget registrations, the externally-managed marks and
the counter map unchanged. -/
theorem showWidgetInternal_samepe_frame (fuel : Nat) (w pe : Nat) (ib : Option Nat)
    (s t : State) (hdp : s.domParent w = some pe)
    (h : showWidgetInternal fuel w pe ib s = ok t) :
    t.elems = s.elems ∧ t.isWidgetElem = s.isWidgetElem ∧
    t.domParent = s.domParent ∧ t.widgetCounter = s.widgetCounter ∧
    t.externallyManaged = s.externallyManaged := by
  rw [showWidgetInternal] at h
  cases hne : nearestWidgetElem fuel s (some pe) with
  | none =>
      rw [hne] at h
      exact absurd (congrArg Prod.snd h) (by simp [fail, ok])
  | some currentParent =>
      rw [hne] at h
      dsimp only at h
      obtain ⟨s0, hassert, hmain⟩ := Res.bind_eq_ok h
      have hs0eq : s = s0 := by
        by_cases hroot : s.isRoot w = true
        · rw [if_pos hroot] at hassert
          split at hassert
          · exact congrArg Prod.fst hassert
          · exact absurd (congrArg Prod.snd hassert) (by simp [fail, ok])
        · rw [if_neg hroot] at hassert
          cases hcp : currentParent with
          | none =>
              rw [hcp] at hassert
              exact absurd (congrArg Prod.snd hassert) (by simp [fail, ok])
          | some cp =>
              rw [hcp] at hassert
              dsimp only at hassert
              split at hassert
              · exact congrArg Prod.fst hassert
              · exact absurd (congrArg Prod.snd hassert) (by simp [fail, ok])
      rw [← hs0eq] at hmain
      try dsimp only at hmain
      by_cases hshort : s.visibleInternal w = true ∧ s.domParent w = some pe
      · rw [if_pos hshort] at hmain
        have hh : s = t := congrArg Prod.fst hmain
        rw [← hh]
        exact ⟨rfl, rfl, rfl, rfl, rfl⟩
      · rw [if_neg hshort] at hmain
        obtain ⟨s2, hWst, hrest⟩ := Res.bind_eq_ok hmain
        have hW5 : s2.elems = s.elems ∧ s2.isWidgetElem = s.isWidgetElem ∧
            s2.domParent = s.domParent ∧ s2.widgetCounter = s.widgetCounter ∧
            s2.externallyManaged = s.externallyManaged := by
          split at hWst
          · obtain ⟨L, hwL, hfrA, hSA, hsoundA, hcompA⟩ :=
              processWillShow_spec fuel w
                {s with visibleInternal := fupd s.visibleInternal w true} s2 hWst
            exact ⟨(PFrame.eEq hfrA : _), (PFrame.wEq hfrA : _), (PFrame.dEq hfrA : _),
              (PFrame.cntEq hfrA : _), (PFrame.emEq hfrA : _)⟩
          · have hs2e : _ = s2 := congrArg Prod.fst hWst
            refine ⟨?_, ?_, ?_, ?_, ?_⟩ <;> (rw [← hs2e]; rfl)
        obtain ⟨hAE, hAW, hAD, hAcnt, hAEM⟩ := hW5
        obtain ⟨s5, hRst, hrest2⟩ := Res.bind_eq_ok hrest
        have hd2 : ¬(s2.domParent w ≠ some pe) :=
          not_ne_iff.mpr (by rw [hAD]; exact hdp)
        rw [if_neg hd2] at hRst
        have hs5e : _ = s5 := congrArg Prod.fst hRst
        have hR5 : s5.elems = s2.elems ∧ s5.isWidgetElem = s2.isWidgetElem ∧
            s5.domParent = s2.domParent ∧ s5.widgetCounter = s2.widgetCounter ∧
            s5.externallyManaged = s2.externallyManaged := by
          refine ⟨?_, ?_, ?_, ?_, ?_⟩ <;> (rw [← hs5e]; rfl)
        obtain ⟨hBE, hBW, hBD, hBcnt, hBEM⟩ := hR5
        obtain ⟨s6, hSst, hFst⟩ := Res.bind_eq_ok hrest2
        have hfr56 : LFrame s5 s6 := by
          split at hSst
          · have hs6e : _ = s6 := congrArg Prod.fst hSst
            rw [← hs6e]
            exact processWasShown_LFrame fuel w s5
          · have hs6e : s5 = s6 := congrArg Prod.fst hSst
            rw [← hs6e]
            exact LFrame_refl s5
        have hfr6t : LFrame s6 t := by
          cases hp6 : s6.parentWidgetInternal w with
          | none =>
              rw [hp6] at hFst
              dsimp only at hFst
              have hh : _ = t := congrArg Prod.fst hFst
              rw [← hh]
              exact processOnResize_LFrame fuel w s6
          | some p =>
              rw [hp6] at hFst
              dsimp only at hFst
              cases hnz : hasNonZeroConstraintsM fuel w s6 with
              | none =>
                  rw [hnz] at hFst
                  exact absurd (congrArg Prod.snd hFst) (by simp [fail, ok])
              | some bp =>
                  obtain ⟨b, s7⟩ := bp
                  rw [hnz] at hFst
                  dsimp only at hFst
                  have hfr67 : LFrame s6 s7 :=
                    hasNonZeroConstraintsM_LFrame fuel w s6 b s7 hnz
                  split at hFst
                  · refine LFrame_trans hfr67 ?_
                    have hh : _ = t := congrArg Prod.fst hFst
                    rw [← hh]
                    exact invalidateConstraints_LFrame fuel p s7
                  · refine LFrame_trans hfr67 ?_
                    have hh : _ = t := congrArg Prod.fst hFst
                    rw [← hh]
                    exact processOnResize_LFrame fuel w s7
        have hfrT : LFrame s5 t := LFrame_trans hfr56 hfr6t
        exact ⟨by rw [PFrame.eEq hfrT.1, hBE, hAE],
          by rw [PFrame.wEq hfrT.1, hBW, hAW],
          by rw [PFrame.dEq hfrT.1, hBD, hAD],
          by rw [PFrame.cntEq hfrT.1, hBcnt, hAcnt],
          by rw [PFrame.emEq hfrT.1, hBEM, hAEM]⟩

/-- `showWidget` re-shows in place: the target parent element is the
element's current DOM parent, so by `showWidgetInternal_samepe_frame` the
DOM forest, registrations, externally-managed marks and counter map are
unchanged. -/
theorem showWidget_count_frame (fuel : Nat) (w : Nat) (s t : State)
    (h : showWidget fuel w s = ok t) :
    t.elems = s.elems ∧ t.isWidgetElem = s.isWidgetElem ∧
    t.domParent = s.domParent ∧ t.widgetCounter = s.widgetCounter ∧
    t.externallyManaged = s.externallyManaged := by
  rw [showWidget] at h
  split at h
  · have hh : s = t := congrArg Prod.fst h
    rw [← hh]
    exact ⟨rfl, rfl, rfl, rfl, rfl⟩
  · cases hdp : s.domParent w with
    | none =>
        rw [hdp] at h
        exact absurd (congrArg Prod.snd h) (by simp [fail, ok])
    | some pe =>
        rw [hdp] at h
        exact showWidgetInternal_samepe_frame fuel w pe none s t hdp h

/-- Operation sequence exhibiting the counter mismatch: element 0 receives
root widget 1 (counted: `show` increments element 0's counter to 1) and
externally managed root widget 2 (`show` skips the increment); detaching
widget 2 removes its element through `decrementWidgetCounter`, which does
not check the externally-managed flag and drops element 0's counter to 0
while counted widget element 1 is still inside element 0's subtree. -/
def c2cexOps : List Op :=
  [.mkElement 0 none 5, .mkWidget 1 .base, .rootMark 1, .showOp 1 0 none 10,
   .mkWidget 2 .base, .extManagedMark 2, .rootMark 2, .showOp 2 0 none 10,
   .detachOp 2 false 10]

/-- C2 counterexample: a completed sequence of `show` and `detach` calls
after which element 0's counter (0) differs from the number of counted
widget elements strictly inside element 0's subtree (1, namely widget
element 1). -/
theorem counter_decrement_mismatch :
    (runOps c2cexOps State.empty).2 = none ∧
    ((runOps c2cexOps State.empty).1.widgetCounter 0 ≠
      countBelow (runOps c2cexOps State.empty).1 0) :=
  ⟨by decide, by decide⟩

/-- A quiescent state with a shown root widget: element 0 holds root
widget 1, made visible by `show`. -/
def c2State : State :=
  runState (.showOp 1 0 none 10)
    (runState (.rootMark 1)
      (runState (.mkWidget 1 .base)
        (runState (.mkElement 0 none 5) State.empty)))

/-- C2 (amended): the claimed counter invariant is not preserved by
`detach` of a shown externally-managed widget (see
`counter_decrement_mismatch`: `decrementWidgetCounter` subtracts
unconditionally while the increment in `showWidgetInternal` is skipped for
externally managed widgets), nor by a `show` that moves a still-visible
widget under a new parent element (the old ancestors are never
decremented).  What does hold: from any state with no notification in
progress, a completed `hideWidget` or `showWidget` call changes no
element's counter and no element's counted-subtree size, and therefore
preserves the agreement `Counter(A) = countBelow(A)` at every element. -/
theorem counter_invariant_amended (fuel : Nat) (w : Nat) (s t : State)
    (hq : ∀ x, s.notificationDepth x = 0)
    (hrun : hideWidget fuel w s = ok t ∨ showWidget fuel w s = ok t) :
    t.widgetCounter = s.widgetCounter ∧
    (∀ a, countBelow t a = countBelow s a) ∧
    (∀ a, s.widgetCounter a = countBelow s a →
      t.widgetCounter a = countBelow t a) := by
  have hfr : t.elems = s.elems ∧ t.isWidgetElem = s.isWidgetElem ∧
      t.domParent = s.domParent ∧ t.widgetCounter = s.widgetCounter ∧
      t.externallyManaged = s.externallyManaged := by
    cases hrun with
    | inl h => exact hideWidget_count_frame fuel w s t hq h
    | inr h => exact showWidget_count_frame fuel w s t h
  obtain ⟨hE, hW, hD, hcnt, hEM⟩ := hfr
  refine ⟨hcnt, fun a => countBelow_congr hE hW hEM hD a, fun a hag => ?_⟩
  rw [hcnt, countBelow_congr hE hW hEM hD a]
  exact hag

theorem counter_invariant_amended_witness :
    (∀ x, c2State.notificationDepth x = 0) ∧
    ((hideWidget 10 1 c2State).1.widgetCounter = c2State.widgetCounter ∧
     (∀ a, countBelow (hideWidget 10 1 c2State).1 a = countBelow c2State a) ∧
     (∀ a, c2State.widgetCounter a = countBelow c2State a →
       (hideWidget 10 1 c2State).1.widgetCounter a =
         countBelow (hideWidget 10 1 c2State).1 a)) := by
  have h1 : Reachable (runState (.mkElement 0 none 5) State.empty) :=
    Reachable.step _ _ Reachable.empty (by decide)
  have h2 : Reachable (runState (.mkWidget 1 .base)
      (runState (.mkElement 0 none 5) State.empty)) :=
    Reachable.step _ _ h1 (by decide)
  have h3 := Reachable.step (.rootMark 1) _ h2 (by decide)
  have h4 : Reachable c2State := Reachable.step (.showOp 1 0 none 10) _ h3 (by decide)
  have hq : ∀ x, c2State.notificationDepth x = 0 :=
    (Reachable_inv c2State h4).2.2.2.2.2.1
  exact ⟨hq, counter_invariant_amended 10 1 c2State (hideWidget 10 1 c2State).1 hq
    (Or.inl (Res_eq_ok_fst (by decide)))⟩

end WidgetSpec
